import Mathlib

/-!
# Option-flow monitor: threshold estimator, trade deduplicator, residual ledger,
# burst detector, full-reconstruction backfill, aggressor classifier, snapshot codec

A shallow embedding of the core of `src/MainWindow.cpp` and of `src/nbbo_store.cpp`,
followed by the properties proved about it.

Conventions of the embedding

* `double` quantities (amounts, deltas, strikes, prices) are exact rationals `ℚ`.
* `qint64` timestamps are `Int`.  The additions and subtractions performed on them in the
  embedded functions leave the 64-bit range only for timestamps within a few days of
  `±2^63` milliseconds, so no wrap-around is modelled for them.
* `int` values obtained by narrowing the `long long` result of `std::llround` are wrapped
  to 32 bits with `toInt32`, as the narrowing conversion does; so is the `int` arithmetic
  performed on them.
* Counters that grow by one per event (`trades`, in-flight counts) are `Int` without
  wrap-around.
* Qt containers: `QList`/`QVector`/`std::deque` are `List` (front = head),
  `QSet` is a duplicate-free `List`, a `QHash` is a function into `Option`
  (`value(key, dflt)` is `getD`, `operator[]` reads `getD` of the default value).
* Each function takes the state it reads and returns the state it writes; table widgets
  and log output are left out.
* `applyTradeToResidual` is embedded on maps indexed by the structured cluster key; the
  snapshot codec and the signal table, which enumerate the maps, are embedded on finite
  maps indexed by the key string (`MainState`).
* The JSON text codec of Qt is a parameter (`Codec`); JSON values are the type `Json`.
-/

namespace NobiNobi

/-! ## Numeric helpers -/

/-- The C function `std::llround`: nearest integer, halfway cases away from zero. -/
def llround (x : ℚ) : Int :=
  if 0 ≤ x then ⌊x + 1 / 2⌋ else -⌊-x + 1 / 2⌋

/-- Narrowing of a `long long` to a 32-bit `int` (two's complement wrap). -/
def toInt32 (x : Int) : Int :=
  (x + 2147483648) % 4294967296 - 2147483648

/-! ## Constants (`MainWindow.h`, `MainWindow.cpp` lines 395-399) -/

def HOUR_MS : Int := 60 * 60 * 1000
def DAY_MS : Int := 24 * 60 * 60 * 1000
def DAY_MS64 : Int := 24 * 60 * 60 * 1000
def AUTO_MAX_INFLIGHT : Int := 8
def BURST_WINDOW_MS : Int := 6 * 1000
def STRIKE_CLUSTER_WIDTH : ℚ := 1500
def SIGNAL_DEDUP_MS : Int := 90 * 1000
def AUTO_FLOOR : Int := 50
def AUTO_MIN_SAMPLES : Nat := 200
def AUTO_ROUND_STEP : Int := 10

/-! ## Adaptive threshold estimator -/

/-- One entry of `m_amtSamples`. -/
structure AmtSample where
  ts : Int
  absAmt : ℚ
deriving DecidableEq

/-- `MainWindow::pruneAmtSamples(now)`: drop entries from the front while they are older
than `now - DAY_MS64`. -/
def pruneAmtSamples (now : Int) (samples : List AmtSample) : List AmtSample :=
  samples.dropWhile (fun s => decide (s.ts < now - DAY_MS64))

/-- `MainWindow::pushAmtSample(ts, absAmt)`. -/
def pushAmtSample (ts : Int) (absAmt : ℚ) (samples : List AmtSample) : List AmtSample :=
  if ¬ (0 < absAmt) ∨ ¬ (0 < ts) then samples
  else pruneAmtSamples ts (samples ++ [⟨ts, absAmt⟩])

/-- The value `vals[k]` after `std::nth_element(vals.begin(), vals.begin() + k, vals.end())`:
the element that a full ascending sort puts at index `k`. -/
def nthElement (vals : List ℚ) (k : Nat) : ℚ :=
  (vals.insertionSort (· ≤ ·)).getD k 0

/-- The index `k = (size_t) floor((vals.size() - 1) * 0.98)`.  The double nearest to
0.98 lies below 0.98 by less than 2e-17; the rounded double product therefore has the
same floor as the exact product for every size below 2^53, and the index is the integer
quotient. -/
def quantileIndex (n : Nat) : Nat := (n - 1) * 98 / 100

/-- The 98th-percentile amount of a window: `vals[k]` of `currentBigUnit`. -/
def p98 (vals : List ℚ) : ℚ := nthElement vals (quantileIndex vals.length)

/-- The value `int(std::llround(ui->spinMinSize->value()))`. -/
def manualOf (v : ℚ) : Int := toInt32 (llround v)

/-- The last statement group of `currentBigUnit`: round `unit` up to the next multiple
of `AUTO_ROUND_STEP` (32-bit `int` arithmetic, `/` and `%` truncating). -/
def roundUpToStep (unit : Int) : Int :=
  if Int.tmod unit AUTO_ROUND_STEP ≠ 0 then
    toInt32 (Int.tdiv (toInt32 (unit + AUTO_ROUND_STEP - 1)) AUTO_ROUND_STEP * AUTO_ROUND_STEP)
  else unit

/-- The automatic branch of `currentBigUnit` on the values of the pruned window. -/
def autoUnit (vals : List ℚ) : Int :=
  let unit0 : Int :=
    if AUTO_MIN_SAMPLES ≤ vals.length then
      let u := toInt32 (llround (p98 vals))
      if u < AUTO_FLOOR then AUTO_FLOOR else u
    else AUTO_FLOOR
  roundUpToStep unit0

/-- The vector `vals` of `currentBigUnit`: the amounts of the samples left by the prune
at clock reading `now`. -/
def windowAmounts (now : Int) (samples : List AmtSample) : List ℚ :=
  (pruneAmtSamples now samples).map (fun s => s.absAmt)

/-- `MainWindow::currentBigUnit()`.  `spin` is the value of `ui->spinMinSize` (`none` when
the widget is absent), `now` the clock reading, `samples` the content of `m_amtSamples`. -/
def currentBigUnit (spin : Option ℚ) (now : Int) (samples : List AmtSample) : Int :=
  match spin with
  | some v =>
    if 0 < manualOf v then manualOf v
    else autoUnit (windowAmounts now samples)
  | none => autoUnit (windowAmounts now samples)

/-- The content of `m_amtSamples` after a call of `currentBigUnit` (the automatic branch
prunes through `const_cast`). -/
def currentBigUnitSamples (spin : Option ℚ) (now : Int) (samples : List AmtSample) :
    List AmtSample :=
  match spin with
  | some v => if 0 < manualOf v then samples else pruneAmtSamples now samples
  | none => pruneAmtSamples now samples

/-- No manual override is in force: the widget is absent or its rounded value is not
positive. -/
def noOverride (spin : Option ℚ) : Prop :=
  ∀ v, spin = some v → manualOf v ≤ 0

/-- The rounded amount `x` converts to `int` unchanged and leaves room for the
round-up step (`unit + AUTO_ROUND_STEP - 1` stays representable). -/
def inIntRange (x : ℚ) : Prop :=
  -2147483648 ≤ llround x ∧ llround x ≤ 2147483638

/-- A sequence of `pushAmtSample(ts, absAmt)` calls, first element first. -/
def pushAll : List (Int × ℚ) → List AmtSample → List AmtSample
  | [], w => w
  | (ts, a) :: cs, w => pushAll cs (pushAmtSample ts a w)

/-- The window is time-ordered and no sample is newer than `bound`. -/
def orderedUpTo (bound : Int) (w : List AmtSample) : Prop :=
  w.Pairwise (fun x y => x.ts ≤ y.ts) ∧ ∀ s ∈ w, s.ts ≤ bound

/-- `MainWindow::isBigTrade(amount)` for a threshold `unit = currentBigUnit()`. -/
def isBigTrade (unit : Int) (amount : ℚ) : Bool :=
  decide ((unit : ℚ) ≤ |amount|)

/-! ## Rolling key window (trade deduplicator and signal de-duplication)

`m_seenTradeIds`/`m_seenTradeQueue` and `m_signalKeys`/`m_signalKeyQueue` are the same
pair of containers: a set of live keys and a FIFO queue of `(ts, key)`. -/

/-- A `QSet` of live keys together with its `QVector<QPair<qint64, Key>>` queue. -/
structure KeyWindow (α : Type) where
  keys : List α
  queue : List (Int × α)

/-- The empty window (state at construction). -/
def KeyWindow.empty {α : Type} : KeyWindow α := ⟨[], []⟩

/-- The eviction loop `while (!queue.isEmpty() && queue.front().first < cutoff)
{ pop_front; keys.remove(old.second); }`. -/
def evictOld {α : Type} [DecidableEq α] (cutoff : Int) :
    List α → List (Int × α) → KeyWindow α
  | keys, [] => ⟨keys, []⟩
  | keys, (t, k) :: q =>
    if t < cutoff then evictOld cutoff (keys.filter (fun x => decide (x ≠ k))) q
    else ⟨keys, (t, k) :: q⟩

/-- Every queued key is live and no key is queued twice. -/
def KeyWindow.consistent {α : Type} (s : KeyWindow α) : Prop :=
  (∀ e ∈ s.queue, e.2 ∈ s.keys) ∧ (s.queue.map Prod.snd).Nodup

/-- The key `x` is live and every queue entry for it is stamped `t1` or later. -/
def KeyWindow.holds {α : Type} (x : α) (t1 : Int) (s : KeyWindow α) : Prop :=
  x ∈ s.keys ∧ ∀ e ∈ s.queue, e.2 = x → t1 ≤ e.1

/-- `MainWindow::alreadySeenTrade(tradeId, ts)`: the returned flag (`true` = already
seen) and the new state of the two containers. -/
def alreadySeenTrade (tradeId : String) (ts : Int) (s : KeyWindow String) :
    Bool × KeyWindow String :=
  let s1 := evictOld (ts - DAY_MS) s.keys s.queue
  if tradeId ∈ s1.keys then (true, s1)
  else (false, ⟨tradeId :: s1.keys, s1.queue ++ [(ts, tradeId)]⟩)

/-- The deduplicator state after a sequence of `alreadySeenTrade(id, ts)` calls. -/
def seenAfter : List (String × Int) → KeyWindow String → KeyWindow String
  | [], s => s
  | (id, ts) :: cs, s => seenAfter cs (alreadySeenTrade id ts s).2

/-- The guard of the live path, `handleDeribitMsg` line 802:
`if (!tradeId.isEmpty() && alreadySeenTrade(tradeId, ts)) continue;`.
Returns whether the trade goes on to the Ledger path, and the deduplicator state. -/
def liveDedupGate (tradeId : String) (ts : Int) (s : KeyWindow String) :
    Bool × KeyWindow String :=
  if tradeId = "" then (true, s)
  else ((alreadySeenTrade tradeId ts s).1 = false, (alreadySeenTrade tradeId ts s).2)

/-! ## Instrument names and cluster keys -/

/-- `QString::split(sep)` on the characters of a string (empty parts are kept). -/
def splitOnChar (sep : Char) : List Char → List (List Char)
  | [] => [[]]
  | c :: cs =>
    if c = sep then [] :: splitOnChar sep cs
    else
      match splitOnChar sep cs with
      | [] => [[c]]
      | p :: ps => (c :: p) :: ps

/-- `MainWindow::isCallFromInst`: `inst.endsWith("-C", Qt::CaseInsensitive)`. -/
def isCallFromInst (inst : String) : Bool :=
  match inst.data.reverse with
  | c :: d :: _ => (c = 'C' ∨ c = 'c') ∧ d = '-'
  | _ => false

/-- What the surrounding program fixes for the Ledger and the burst detector.
`K_BUCKET` and `absDeltaGuess` are declared outside the embedded sources, `toDouble` is
`QString::toDouble` (with its `ok` flag as `Option`), `instToExpiryMs` is the
instrument-to-expiry map, `underlyingPx` the reference price `m_underlyingPx`, and
`setBegin` the element `*set.begin()` of a `QSet<QString>`. -/
structure Env where
  instToExpiryMs : String → Option Int
  toDouble : String → Option ℚ
  K_BUCKET : ℚ
  absDeltaGuess : ℚ → ℚ → ℚ
  underlyingPx : ℚ
  setBegin : List String → String

/-- `MainWindow::expiryFromInst`. -/
def expiryFromInst (env : Env) (inst : String) : Int :=
  (env.instToExpiryMs inst).getD 0

/-- `MainWindow::strikeFromInst`. -/
def strikeFromInst (env : Env) (inst : String) : ℚ :=
  let p := splitOnChar '-' inst.data
  if 4 ≤ p.length then
    match env.toDouble (String.mk (p.getD 2 [])) with
    | some k => k
    | none => 0
  else 0

/-- Conversion `int(x)` of a `double`: truncation toward zero. -/
def truncToInt (x : ℚ) : Int := if 0 ≤ x then ⌊x⌋ else ⌈x⌉

/-- The value `kRound = int(std::round(strike / K_BUCKET) * K_BUCKET)`. -/
def kRoundOf (env : Env) (strike : ℚ) : Int :=
  truncToInt ((llround (strike / env.K_BUCKET) : ℚ) * env.K_BUCKET)

/-- A cluster key; `makeClusterKey` prints the three components separated by `|`. -/
structure ClusterKey where
  expMs : Int
  isCall : Bool
  kRound : Int
deriving DecidableEq

/-- `MainWindow::makeClusterKey`. -/
def makeClusterKey (env : Env) (expMs : Int) (isCall : Bool) (strike : ℚ) : ClusterKey :=
  ⟨expMs, isCall, kRoundOf env strike⟩

/-! ## Residual position ledger -/

/-- The six residual maps. -/
structure Ledger where
  residualQtyByKey : ClusterKey → Option ℚ
  residualSignedQtyByKey : ClusterKey → Option ℚ
  residualDVolByKey : ClusterKey → Option ℚ
  residualLastTsByKey : ClusterKey → Option Int
  residualTradesByKey : ClusterKey → Option Int
  residualInstsByKey : ClusterKey → Option (List String)

/-- The Ledger with no entry. -/
def Ledger.empty : Ledger :=
  ⟨fun _ => none, fun _ => none, fun _ => none, fun _ => none, fun _ => none, fun _ => none⟩

/-- `QSet::insert`. -/
def setInsert {α : Type} [DecidableEq α] (x : α) (s : List α) : List α :=
  if x ∈ s then s else s ++ [x]

/-- The signed delta used by the Ledger and the detector: `|deltaRaw|`, or the
distance-based guess when that is at most `1e-9`, positive for calls and negative for
puts. -/
def deltaSigned (env : Env) (isCall : Bool) (k deltaRaw : ℚ) : ℚ :=
  let dAbs := if |deltaRaw| ≤ 1 / 1000000000 then env.absDeltaGuess k env.underlyingPx
    else |deltaRaw|
  if isCall then dAbs else -dAbs

/-- One print handed to `applyTradeToResidual`. -/
structure Trade where
  inst : String
  ts : Int
  amount : ℚ
  sign : Int
  deltaRaw : ℚ

/-- The guards of `applyTradeToResidual`: known expiry, big amount, positive strike. -/
def accepted (env : Env) (unit : Int) (t : Trade) : Bool :=
  decide (0 < expiryFromInst env t.inst) && isBigTrade unit t.amount &&
    decide (0 < strikeFromInst env t.inst)

/-- The cluster key `applyTradeToResidual` computes for an instrument. -/
def keyOfInst (env : Env) (inst : String) : ClusterKey :=
  makeClusterKey env (expiryFromInst env inst) (isCallFromInst inst) (strikeFromInst env inst)

/-- The side factor `(sign > 0 ? +1.0 : -1.0)`. -/
def sideSign (sign : Int) : ℚ := if 0 < sign then 1 else -1

/-- `MainWindow::applyTradeToResidual` on the six residual maps; `unit` is the value
`currentBigUnit()` returns inside `isBigTrade`. -/
def applyTradeToResidual (env : Env) (unit : Int) (t : Trade) (L : Ledger) : Ledger :=
  let exp := expiryFromInst env t.inst
  if exp ≤ 0 then L
  else if ¬ isBigTrade unit t.amount then L
  else
    let isCall := isCallFromInst t.inst
    let k := strikeFromInst env t.inst
    if k ≤ 0 then L
    else
      let key := makeClusterKey env exp isCall k
      let qty := (L.residualQtyByKey key).getD 0 + (if 0 < t.sign then |t.amount| else -|t.amount|)
      let signedQty := (L.residualSignedQtyByKey key).getD 0 + sideSign t.sign * |t.amount|
      let dv := (L.residualDVolByKey key).getD 0 +
        sideSign t.sign * |t.amount| * deltaSigned env isCall k t.deltaRaw
      { residualQtyByKey := Function.update L.residualQtyByKey key (some qty)
        residualSignedQtyByKey := Function.update L.residualSignedQtyByKey key (some signedQty)
        residualDVolByKey := Function.update L.residualDVolByKey key (some dv)
        residualLastTsByKey := Function.update L.residualLastTsByKey key
          (some (max ((L.residualLastTsByKey key).getD 0) t.ts))
        residualTradesByKey := Function.update L.residualTradesByKey key
          (some ((L.residualTradesByKey key).getD 0 + 1))
        residualInstsByKey := Function.update L.residualInstsByKey key
          (some (setInsert t.inst ((L.residualInstsByKey key).getD []))) }

/-- `MainWindow::residualForKey`: the pair `(qty, dVol)` with `0.0` for a missing key. -/
def residualForKey (L : Ledger) (key : ClusterKey) : ℚ × ℚ :=
  ((L.residualQtyByKey key).getD 0, (L.residualDVolByKey key).getD 0)

/-- A concrete environment for examples: every instrument expires at 1 000 000 ms, every
strike field reads 50000, bucket width 1000, delta guess 1/2, reference price 50000. -/
def demoEnv : Env :=
  { instToExpiryMs := fun _ => some 1000000
    toDouble := fun _ => some 50000
    K_BUCKET := 1000
    absDeltaGuess := fun _ _ => 1 / 2
    underlyingPx := 50000
    setBegin := fun l => l.headD "" }

/-- A buy of 120 contracts. -/
def demoBuy : Trade := ⟨"BTC-27DEC24-50000-C", 1000, 120, 1, 1 / 2⟩

/-- A sell of 80 contracts of the same instrument. -/
def demoSell : Trade := ⟨"BTC-27DEC24-50000-C", 2000, 80, -1, 1 / 2⟩

/-- A sequence of `applyTradeToResidual` calls, first element first. -/
def applyTrades (env : Env) (unit : Int) : List Trade → Ledger → Ledger
  | [], L => L
  | t :: ts, L => applyTrades env unit ts (applyTradeToResidual env unit t L)

/-- The signed contribution `sideSign * |amount|` of a trade to `qty`. -/
def qtyContribution (t : Trade) : ℚ := sideSign t.sign * |t.amount|

/-- The signed contribution `sideSign * |amount| * signedDelta` of a trade to the
delta-weighted volume. -/
def dVolContribution (env : Env) (t : Trade) : ℚ :=
  sideSign t.sign * |t.amount| *
    deltaSigned env (isCallFromInst t.inst) (strikeFromInst env t.inst) t.deltaRaw

/-! ## Burst detector and signal emitter -/

/-- The struct `TradeEvent` of `MainWindow.h`. -/
structure TradeEvent where
  tsMs : Int
  amount : ℚ
  delta : ℚ
  sign : Int
  instrument : String

/-- The struct `FlowBurst` of `MainWindow.h`. -/
structure FlowBurst where
  startMs : Int
  lastMs : Int
  isBuy : Bool
  isCall : Bool
  centerK : ℚ
  qtySum : ℚ
  dVolSum : ℚ
  trades : Int
  instruments : List String
deriving DecidableEq

/-- The signal de-duplication key `key0 + "|" + bucket`, with
`key0 = expMs|isCall|kRound`. -/
structure SignalKey where
  key0 : ClusterKey
  bucket : Int
deriving DecidableEq

/-- State of the detector: the open bursts `m_bursts`, the signal key window
(`m_signalKeys`, `m_signalKeyQueue`) and the calls `emitSignalRow(b, expMs)` made so far,
oldest first. -/
structure Detector where
  bursts : List FlowBurst
  signalWindow : KeyWindow SignalKey
  emitted : List (FlowBurst × Int)

/-- The detector at start-up. -/
def Detector.empty : Detector := ⟨[], KeyWindow.empty, []⟩

/-- The clean-up loop of `onNewTradeForBurst`: remove every burst with
`ev.tsMs - lastMs > BURST_WINDOW_MS`. -/
def evictBursts (tsMs : Int) (bursts : List FlowBurst) : List FlowBurst :=
  bursts.filter (fun b => decide (¬ (tsMs - b.lastMs > BURST_WINDOW_MS)))

/-- The three `continue` guards of the matching loop, negated: the burst is a candidate
for absorbing the trade. -/
def burstMatches (isBuy isCall : Bool) (k : ℚ) (tsMs : Int) (b : FlowBurst) : Bool :=
  decide (b.isBuy = isBuy ∧ b.isCall = isCall) &&
    decide (¬ (|k - b.centerK| > STRIKE_CLUSTER_WIDTH)) &&
    decide (¬ (tsMs - b.lastMs > BURST_WINDOW_MS))

/-- The matching loop from index `i` on, carrying `best` and `bestDist`. -/
def findBestFrom (isBuy isCall : Bool) (k : ℚ) (tsMs : Int) :
    List FlowBurst → Nat → Option Nat → ℚ → Option Nat
  | [], _, best, _ => best
  | b :: bs, i, best, bestDist =>
    if burstMatches isBuy isCall k tsMs b ∧ |k - b.centerK| < bestDist then
      findBestFrom isBuy isCall k tsMs bs (i + 1) (some i) |k - b.centerK|
    else findBestFrom isBuy isCall k tsMs bs (i + 1) best bestDist

/-- The matching loop (`best = -1` is `none`, `bestDist = 1e100`). -/
def findBest (isBuy isCall : Bool) (k : ℚ) (tsMs : Int) (bursts : List FlowBurst) :
    Option Nat :=
  findBestFrom isBuy isCall k tsMs bursts 0 none ((10 : ℚ) ^ 100)

/-- The burst created when no open burst matches. -/
def newBurst (ev : TradeEvent) (isBuy isCall : Bool) (k dS : ℚ) : FlowBurst :=
  { startMs := ev.tsMs, lastMs := ev.tsMs, isBuy := isBuy, isCall := isCall, centerK := k
    qtySum := |ev.amount|, dVolSum := (ev.sign : ℚ) * |ev.amount| * dS, trades := 1
    instruments := [ev.instrument] }

/-- The update of the matching burst. -/
def mergeBurst (ev : TradeEvent) (k dS : ℚ) (b : FlowBurst) : FlowBurst :=
  { b with
    lastMs := ev.tsMs
    centerK := (b.centerK * ((max 1 b.trades : Int) : ℚ) + k) / (((max 1 b.trades : Int) : ℚ) + 1)
    qtySum := b.qtySum + |ev.amount|
    dVolSum := b.dVolSum + (ev.sign : ℚ) * |ev.amount| * dS
    trades := b.trades + 1
    instruments := setInsert ev.instrument b.instruments }

/-- Create-or-merge: the new content of `m_bursts`, the index `best` and the burst
`m_bursts[best]`. -/
def absorb (ev : TradeEvent) (isBuy isCall : Bool) (k dS : ℚ) (bursts : List FlowBurst) :
    List FlowBurst × Nat × FlowBurst :=
  match findBest isBuy isCall k ev.tsMs bursts with
  | none => (bursts ++ [newBurst ev isBuy isCall k dS], bursts.length,
      newBurst ev isBuy isCall k dS)
  | some i =>
    match bursts.get? i with
    | some b => (bursts.set i (mergeBurst ev k dS b), i, mergeBurst ev k dS b)
    | none => (bursts ++ [newBurst ev isBuy isCall k dS], bursts.length,
        newBurst ev isBuy isCall k dS)

/-- The firing condition `b.qtySum >= fireQty || |b.dVolSum| >= fireDVol` with
`fireQty = bigUnit * 5.0` and `fireDVol = bigUnit * 2.0`. -/
def fires (bigUnit : Int) (b : FlowBurst) : Bool :=
  decide ((bigUnit : ℚ) * 5 ≤ b.qtySum ∨ (bigUnit : ℚ) * 2 ≤ |b.dVolSum|)

/-- The expiry looked up for a firing burst: `expiryFromInst(*b.instruments.begin())`. -/
def burstExpiry (env : Env) (b : FlowBurst) : Int :=
  expiryFromInst env (env.setBegin b.instruments)

/-- The de-duplication key of a firing burst. -/
def signalKeyOf (env : Env) (b : FlowBurst) : SignalKey :=
  ⟨⟨burstExpiry env b, b.isCall, kRoundOf env b.centerK⟩, Int.tdiv b.lastMs (30 * 1000)⟩

/-- `MainWindow::onNewTradeForBurst(ev)`.  `bigUnit` is the value read from
`currentBigUnit()` on entry, `gateUnit` the value read inside `isBigTrade`. -/
def onNewTradeForBurst (env : Env) (bigUnit gateUnit : Int) (ev : TradeEvent)
    (d : Detector) : Detector :=
  let isCall := isCallFromInst ev.instrument
  let k := strikeFromInst env ev.instrument
  if k ≤ 0 then d
  else if ¬ isBigTrade gateUnit ev.amount then d
  else
    let dS := deltaSigned env isCall k ev.delta
    let r := absorb ev (decide (0 < ev.sign)) isCall k dS (evictBursts ev.tsMs d.bursts)
    let b := r.2.2
    if b.qtySum < (bigUnit : ℚ) then { d with bursts := r.1 }
    else if fires bigUnit b then
      let w := evictOld (b.lastMs - SIGNAL_DEDUP_MS) d.signalWindow.keys d.signalWindow.queue
      if signalKeyOf env b ∈ w.keys then
        { bursts := r.1.eraseIdx r.2.1, signalWindow := w, emitted := d.emitted }
      else
        { bursts := r.1.eraseIdx r.2.1
          signalWindow := ⟨signalKeyOf env b :: w.keys, w.queue ++ [(b.lastMs, signalKeyOf env b)]⟩
          emitted := d.emitted ++ [(b, burstExpiry env b)] }
    else { d with bursts := r.1 }

/-- The burst `m_bursts[best]` of a call that passes the two entry guards: the burst the
trade opened or was merged into. -/
def touchedBurst (env : Env) (ev : TradeEvent) (d : Detector) : FlowBurst :=
  (absorb ev (decide (0 < ev.sign)) (isCallFromInst ev.instrument)
    (strikeFromInst env ev.instrument)
    (deltaSigned env (isCallFromInst ev.instrument) (strikeFromInst env ev.instrument) ev.delta)
    (evictBursts ev.tsMs d.bursts)).2.2

/-- One call of the detector together with the two threshold readings of that call. -/
structure BurstCall where
  bigUnit : Int
  gateUnit : Int
  ev : TradeEvent

/-- A print of the example instrument with delta 1/2 on the buy side. -/
def demoEv (tsMs : Int) (amount : ℚ) : TradeEvent :=
  ⟨tsMs, amount, 1 / 2, 1, "BTC-27DEC24-50000-C"⟩

/-- Three calls with threshold 50: prints of 300 contracts stamped 0 ms, 1 000 000 ms and
1 000 ms, in that order of arrival. -/
def demoCalls : List BurstCall :=
  [⟨50, 50, demoEv 0 300⟩, ⟨50, 50, demoEv 1000000 300⟩, ⟨50, 50, demoEv 1000 300⟩]

/-- The burst opened by `demoEv tsMs 300` when no burst is open. -/
def demoBurst (tsMs : Int) : FlowBurst :=
  ⟨tsMs, tsMs, true, true, 50000, |300|, 1 * |300| * (1 / 2), 1, ["BTC-27DEC24-50000-C"]⟩

/-- The de-duplication key of `demoBurst tsMs`. -/
def demoKey (tsMs : Int) : SignalKey :=
  ⟨⟨1000000, true, kRoundOf demoEnv 50000⟩, Int.tdiv tsMs (30 * 1000)⟩

/-- A sequence of `onNewTradeForBurst` calls, first element first. -/
def runDetector (env : Env) : List BurstCall → Detector → Detector
  | [], d => d
  | c :: cs, d => runDetector env cs (onNewTradeForBurst env c.bigUnit c.gateUnit c.ev d)

/-! ## Full-reconstruction backfill pipeline -/

/-- The struct `FullTask`; also the four properties stored on a network reply. -/
structure FullTask where
  inst : String
  fromMs : Int
  toMs : Int
  stepMs : Int
deriving DecidableEq

/-- What a finished request delivers: a transport error, a body that is not a JSON
object, or the `trades` array (for each element its timestamp, `none` for an element
that is not an object). -/
inductive Reply where
  | networkError : Reply
  | parseFailure : Reply
  | trades : List (Option Int) → Reply

/-- State of the full pipeline: the work queue, the in-flight counter, the done flag,
the requests sent and not yet finished, and every window passed to
`requestBackfillWindow` so far (instrument, start, end), oldest first. -/
structure FullState where
  fullQueue : List FullTask
  fullInflight : Int
  fullDone : Bool
  pending : List FullTask
  requested : List (String × Int × Int)

/-- The dispatch loop of `fullBackfillPump`. -/
def pumpLoop : List FullTask → Int → List FullTask → List (String × Int × Int) →
    List FullTask × Int × List FullTask × List (String × Int × Int)
  | [], infl, pend, reqs => ([], infl, pend, reqs)
  | t :: q, infl, pend, reqs =>
    if infl < AUTO_MAX_INFLIGHT then
      pumpLoop q (infl + 1)
        (pend ++ [⟨t.inst, t.fromMs, min (t.fromMs + t.stepMs) t.toMs, t.stepMs⟩])
        (reqs ++ [(t.inst, t.fromMs, min (t.fromMs + t.stepMs) t.toMs)])
    else (t :: q, infl, pend, reqs)

/-- `MainWindow::fullBackfillPump()`. -/
def fullBackfillPump (s : FullState) : FullState :=
  let r := pumpLoop s.fullQueue s.fullInflight s.pending s.requested
  { fullQueue := r.1, fullInflight := r.2.1, pending := r.2.2.1, requested := r.2.2.2
    fullDone := if r.2.1 = 0 ∧ r.1 = [] ∧ s.fullDone = false then true else s.fullDone }

/-- The scan of the `trades` array for `lastTsSeen` (initially `-1`). -/
def lastTsSeenOf : List (Option Int) → Int → Int
  | [], acc => acc
  | none :: rs, acc => lastTsSeenOf rs acc
  | some ts :: rs, acc => lastTsSeenOf rs (if acc < ts then ts else acc)

/-- Step 4 of the completion handler: the adapted window size. -/
def adaptStep (n : Nat) (stepMs : Int) : Int :=
  if 1000 ≤ n then max (5 * 60 * 1000) (Int.tdiv stepMs 2)
  else if n < 800 then min (24 * HOUR_MS) (Int.tdiv (stepMs * 3) 2)
  else stepMs

/-- The completion handler installed by `requestBackfillWindow`, for the finished request
`req` (already taken out of `pending`). -/
def onWindowFinished (req : FullTask) (reply : Reply) (s : FullState) : FullState :=
  match reply with
  | Reply.networkError =>
    fullBackfillPump { s with
      fullQueue := s.fullQueue ++ [req]
      fullInflight := max 0 (s.fullInflight - 1) }
  | Reply.parseFailure =>
    let stepMs := adaptStep 0 req.stepMs
    let resumeFrom := min req.toMs (req.fromMs + stepMs + 1)
    fullBackfillPump { s with
      fullQueue := if resumeFrom < req.toMs then
          ⟨req.inst, resumeFrom, req.toMs, stepMs⟩ :: s.fullQueue else s.fullQueue
      fullInflight := max 0 (s.fullInflight - 1) }
  | Reply.trades rows =>
    let stepMs := adaptStep rows.length req.stepMs
    let lastTsSeen := lastTsSeenOf rows (-1)
    let resumeFrom := if 0 ≤ lastTsSeen then lastTsSeen + 1
      else min req.toMs (req.fromMs + stepMs + 1)
    fullBackfillPump { s with
      fullQueue := if resumeFrom < req.toMs then
          ⟨req.inst, resumeFrom, req.toMs, stepMs⟩ :: s.fullQueue else s.fullQueue
      fullInflight := max 0 (s.fullInflight - 1) }

/-- The network finishes the pending request number `i` with `reply`. -/
def finishRequest (i : Nat) (reply : Reply) (s : FullState) : FullState :=
  match s.pending.get? i with
  | none => s
  | some req => onWindowFinished req reply { s with pending := s.pending.eraseIdx i }

/-- A run of the pipeline: which pending request finishes next, and with what. -/
def runFull : List (Nat × Reply) → FullState → FullState
  | [], s => s
  | (i, reply) :: es, s => runFull es (finishRequest i reply s)

/-- The pipeline right after `fullBackfillLiveExpiriesInit` has queued `tasks` and called
the pump. -/
def fullStart (tasks : List FullTask) : FullState :=
  fullBackfillPump ⟨tasks, 0, false, [], []⟩

/-- The task `fullBackfillLiveExpiriesInit` queues for a live instrument with expiry
`exp`, at clock reading `now`. -/
def initialTask (inst : String) (exp now : Int) : FullTask :=
  ⟨inst, max 0 (min now exp - 120 * DAY_MS), now, 6 * HOUR_MS⟩

/-- The task queued at clock reading 1 700 000 000 000 ms for an instrument expiring 30
days later: range `[now - 120 d, now]`, initial step 6 h. -/
def demoTask : FullTask :=
  initialTask "BTC-27DEC24-50000-C" 1702592000000 1700000000000

/-- The run in which the first (and only) request is answered with an empty `trades`
array. -/
def demoRun : FullState :=
  runFull [(0, Reply.trades [])] (fullStart [demoTask])

/-- The point `x` lies in one of the windows requested for `inst`. -/
def covered (inst : String) (x : Int) (reqs : List (String × Int × Int)) : Bool :=
  reqs.any (fun r => decide (r.1 = inst ∧ r.2.1 ≤ x ∧ x ≤ r.2.2))

/-! ## NBBO store and aggressor classifier (`nbbo_store.cpp`) -/

/-- The struct `NbboSnap` (best bid and best ask of one instrument). -/
structure NbboSnap where
  bid : ℚ
  ask : ℚ

/-- Modelled from the spec: `NbboSnap::valid()` is declared in `trade_types.h`, which is
not among the sources; a quote is valid when `0 < bid <= ask`. -/
def NbboSnap.valid (nb : NbboSnap) : Bool :=
  decide (0 < nb.bid ∧ 0 < nb.ask ∧ nb.bid ≤ nb.ask)

/-- Modelled from the spec: `NbboSnap::mid()` is declared in `trade_types.h`, which is
not among the sources; `mid = (bid + ask) / 2`. -/
def NbboSnap.mid (nb : NbboSnap) : ℚ := (nb.bid + nb.ask) / 2

/-- Modelled from the spec: the value-initialised `NbboSnap{}` returned for an unknown
instrument carries no quote (bid and ask zero). -/
def NbboSnap.none : NbboSnap := ⟨0, 0⟩

/-- The enumeration `Aggressor` (its members as used in `MainWindow.cpp`). -/
inductive Aggressor where
  | Unknown : Aggressor
  | HitBid : Aggressor
  | LiftAsk : Aggressor
  | Mid : Aggressor
  | Outside : Aggressor
deriving DecidableEq

/-- The map `m_nbbo` of `NbboStore`. -/
structure NbboStore where
  nbbo : String → Option NbboSnap

/-- `NbboStore::update`. -/
def NbboStore.update (m : NbboStore) (inst : String) (bid ask : ℚ) : NbboStore :=
  if inst = "" ∨ bid ≤ 0 ∨ ask ≤ 0 ∨ ask < bid then m
  else ⟨Function.update m.nbbo inst (some ⟨bid, ask⟩)⟩

/-- `NbboStore::get`. -/
def NbboStore.get (m : NbboStore) (inst : String) : NbboSnap :=
  (m.nbbo inst).getD NbboSnap.none

/-- `NbboStore::inferAggressor`: the classification, and the value written through
`bpDiffBp` (`none` when nothing is written). -/
def NbboStore.inferAggressor (m : NbboStore) (inst : String) (tradePx : ℚ) :
    Aggressor × Option ℚ :=
  let nb := m.get inst
  if ¬ (nb.valid = true) ∨ tradePx ≤ 0 then (Aggressor.Unknown, none)
  else
    let mid := nb.mid
    let spread := nb.ask - nb.bid
    let diffBp := if 0 < mid then (tradePx - mid) / mid * 10000 else 0
    let tol := spread * (5 / 100)
    if tradePx ≤ nb.bid - tol then (Aggressor.HitBid, some diffBp)
    else if nb.ask + tol ≤ tradePx then (Aggressor.LiftAsk, some diffBp)
    else if |tradePx - mid| ≤ tol then (Aggressor.Mid, some diffBp)
    else (if tradePx < mid then Aggressor.HitBid else Aggressor.LiftAsk, some diffBp)

/-- The instrument has a valid stored quote. -/
def NbboStore.hasValidQuote (m : NbboStore) (inst : String) : Prop :=
  ∃ bid ask, m.nbbo inst = some ⟨bid, ask⟩ ∧ 0 < bid ∧ bid ≤ ask

/-- The classification rule in the words of the specification, for a valid quote and a
positive price. -/
def aggressorRule (bid ask price : ℚ) : Aggressor :=
  if price ≤ bid - 5 / 100 * (ask - bid) then Aggressor.HitBid
  else if price ≥ ask + 5 / 100 * (ask - bid) then Aggressor.LiftAsk
  else if |price - (bid + ask) / 2| ≤ 5 / 100 * (ask - bid) then Aggressor.Mid
  else if price < (bid + ask) / 2 then Aggressor.HitBid
  else Aggressor.LiftAsk

/-- A store holding the locked quote 100 / 100 for the example instrument. -/
def demoLockedStore : NbboStore :=
  NbboStore.update ⟨fun _ => none⟩ "BTC-27DEC24-50000-C" 100 100

/-- A store holding the quote 100 / 110 for the example instrument. -/
def demoStore : NbboStore :=
  NbboStore.update ⟨fun _ => none⟩ "BTC-27DEC24-50000-C" 100 110

/-! ## Persistent state, snapshot codec and signal table

The maps of `MainWindow` are keyed by the `QString` rendering `exp|isCall|kRound` of the
cluster key.  Here they are finite maps from `String`, so that they can be enumerated as
`saveSnapshot` and `rebuildSignalTableFromResidual` do. -/

/-- A `QHash<QString, V>`: an association list with one entry per key. -/
abbrev QHash (V : Type) : Type := AList (fun _ : String => V)

/-- `QHash::value(key, dflt)`. -/
def hashValue {V : Type} (m : QHash V) (key : String) (dflt : V) : V :=
  (m.lookup key).getD dflt

/-- A JSON value (`QJsonValue`); an undefined value behaves as `null` under every
accessor used here. -/
inductive Json where
  | null : Json
  | bool : Bool → Json
  | num : ℚ → Json
  | str : String → Json
  | arr : List Json → Json
  | obj : List (String × Json) → Json

/-- `QJsonValue::toObject()`. -/
def Json.toObject : Json → List (String × Json)
  | Json.obj m => m
  | _ => []

/-- `QJsonValue::toArray()`. -/
def Json.toArray : Json → List Json
  | Json.arr xs => xs
  | _ => []

/-- `QJsonValue::toDouble()`. -/
def Json.toDouble : Json → ℚ
  | Json.num x => x
  | _ => 0

/-- `QJsonValue::toInt()`: the number when it is whole, else the default 0.  (Counters
are unbounded here, so the accessor's range test is not modelled.) -/
def Json.toInt : Json → Int
  | Json.num x => if x.den = 1 then x.num else 0
  | _ => 0

/-- `QJsonValue::toString()`. -/
def Json.toStr : Json → String
  | Json.str s => s
  | _ => ""

/-- `QJsonObject::value(key)`. -/
def objValue (m : List (String × Json)) (key : String) : Json :=
  ((m.find? (fun e => decide (e.1 = key))).map Prod.snd).getD Json.null

/-- `QJsonObject::insert(key, value)`: the value of an existing key is replaced. -/
def objInsert (key : String) (v : Json) (m : List (String × Json)) : List (String × Json) :=
  (key, v) :: m.filter (fun e => decide (e.1 ≠ key))

/-- The state read and written by the snapshot codec and by the signal table. -/
structure MainState where
  residualQtyByKey : QHash ℚ
  residualDVolByKey : QHash ℚ
  residualSignedQtyByKey : QHash ℚ
  residualLastTsByKey : QHash Int
  residualTradesByKey : QHash Int
  residualInstsByKey : QHash (List String)
  signalAnchorTsByKey : QHash Int
  signalRowIndexByKey : QHash Int
  tableRowCount : Int
  amtSamples : List AmtSample
  lastSnapshotTs : Int
  lastIV : QHash ℚ
  lastDelta : QHash ℚ

/-- The state of a freshly constructed window. -/
def MainState.empty : MainState :=
  ⟨∅, ∅, ∅, ∅, ∅, ∅, ∅, ∅, 0, [], 0, ∅, ∅⟩

/-- What the user interface and the Qt string conversions contribute: whether
`ui->tableSignals` exists, the value of `ui->spinMinSize` (`none` when the widget is
absent), the expiry filter `displayExpiryFilterMs()` (0 = all), and
`QString::toLongLong`, `QString::toInt`, `QString::toDouble` (0 on failure). -/
structure Ui where
  hasTableSignals : Bool
  spinMinSize : Option ℚ
  displayExpiryFilterMs : Int
  toLongLong : String → Int
  toInt : String → Int
  toDouble : String → ℚ

/-- The JSON text codec (`QJsonDocument::toJson` / `fromJson`) over a type `B` of byte
arrays; `fromJson` is `none` on a parse error. -/
structure Codec (B : Type) where
  toJson : Json → B
  fromJson : B → Option Json
  isEmpty : B → Bool

/-- The helper `dumpMapD` of `saveSnapshot`. -/
def dumpMapD (src : QHash ℚ) : Json :=
  Json.obj (src.entries.foldl (fun m e => objInsert e.1 (Json.num e.2) m) [])

/-- The helpers `dumpMapI64` and `dumpMapI` of `saveSnapshot`. -/
def dumpMapI64 (src : QHash Int) : Json :=
  Json.obj (src.entries.foldl (fun m e => objInsert e.1 (Json.num (e.2 : ℚ)) m) [])

/-- The helper `dumpMapSet` of `saveSnapshot`. -/
def dumpMapSet (src : QHash (List String)) : Json :=
  Json.obj (src.entries.foldl (fun m e => objInsert e.1 (Json.arr (e.2.map Json.str)) m) [])

/-- The array `samples` of `saveSnapshot`: the last 1000 amount samples. -/
def dumpSamples (samples : List AmtSample) : Json :=
  Json.arr ((samples.drop (samples.length - min 1000 samples.length)).map
    (fun a => Json.arr [Json.num (a.ts : ℚ), Json.num a.absAmt]))

/-- The object `o` built by `MainWindow::saveSnapshot` at clock reading `now`. -/
def saveSnapshotObject (now : Int) (s : MainState) : List (String × Json) :=
  objInsert "lastDelta" (dumpMapD s.lastDelta)
    (objInsert "lastIV" (dumpMapD s.lastIV)
      (objInsert "amtSamples" (dumpSamples s.amtSamples)
        (objInsert "signalAnchorTs" (dumpMapI64 s.signalAnchorTsByKey)
          (objInsert "residualInsts" (dumpMapSet s.residualInstsByKey)
            (objInsert "residualTrades" (dumpMapI64 s.residualTradesByKey)
              (objInsert "residualLastTs" (dumpMapI64 s.residualLastTsByKey)
                (objInsert "residualSignedQty" (dumpMapD s.residualSignedQtyByKey)
                  (objInsert "residualDVol" (dumpMapD s.residualDVolByKey)
                    (objInsert "residualQty" (dumpMapD s.residualQtyByKey)
                      (objInsert "ts" (Json.num (now : ℚ)) []))))))))))

/-- `MainWindow::saveSnapshot`: the blob stored under `state/snapshot`. -/
def saveSnapshot {B : Type} (codec : Codec B) (now : Int) (s : MainState) : B :=
  codec.toJson (Json.obj (saveSnapshotObject now s))

/-- The helper `loadMapD` of `loadSnapshot`. -/
def loadMapD (o : List (String × Json)) (key : String) : QHash ℚ :=
  (objValue o key).toObject.foldl (fun dst e => dst.insert e.1 e.2.toDouble) ∅

/-- The helper `loadMapI64` of `loadSnapshot`. -/
def loadMapI64 (o : List (String × Json)) (key : String) : QHash Int :=
  (objValue o key).toObject.foldl (fun dst e => dst.insert e.1 (truncToInt e.2.toDouble)) ∅

/-- The helper `loadMapI` of `loadSnapshot`. -/
def loadMapI (o : List (String × Json)) (key : String) : QHash Int :=
  (objValue o key).toObject.foldl (fun dst e => dst.insert e.1 e.2.toInt) ∅

/-- The helper `loadMapSet` of `loadSnapshot`. -/
def loadMapSet (o : List (String × Json)) (key : String) : QHash (List String) :=
  (objValue o key).toObject.foldl
    (fun dst e => dst.insert e.1 (e.2.toArray.foldl (fun set v => setInsert v.toStr set) [])) ∅

/-- The sample loop of `loadSnapshot`: rows that are arrays of size 2. -/
def loadSamples (o : List (String × Json)) : List AmtSample :=
  (objValue o "amtSamples").toArray.filterMap (fun v =>
    match v.toArray with
    | [a, b] => some ⟨truncToInt a.toDouble, b.toDouble⟩
    | _ => none)

/-- `MainWindow::passSignalFilter`. -/
def passSignalFilter (ui : Ui) (expMs : Int) : Bool :=
  decide (ui.displayExpiryFilterMs = 0 ∨ ui.displayExpiryFilterMs = expMs)

/-- `MainWindow::findRowByKey`. -/
def findRowByKey (key : String) (s : MainState) : Int :=
  match s.signalRowIndexByKey.lookup key with
  | none => -1
  | some row => if row < 0 ∨ s.tableRowCount ≤ row then -1 else row

/-- `MainWindow::removeSignalRowIfExists`. -/
def removeSignalRowIfExists (key : String) (s : MainState) : MainState :=
  if 0 ≤ findRowByKey key s then
    { s with
      tableRowCount := s.tableRowCount - 1
      signalRowIndexByKey := s.signalRowIndexByKey.erase key }
  else s

/-- `MainWindow::upsertSignalRow` on the state (the cell texts of the table are left
out, and with them the arguments that only feed cells).  `ui->spinMinSize` is read
without a null test here; an absent widget is read as 0. -/
def upsertSignalRow (ui : Ui) (key : String) (expMs : Int) (snapshot : FlowBurst)
    (residualQty : ℚ) (s : MainState) : MainState :=
  if ¬ (passSignalFilter ui expMs = true) then removeSignalRowIfExists key s
  else if |residualQty| < max (ui.spinMinSize.getD 0) 1 then removeSignalRowIfExists key s
  else
    let s1 : MainState :=
      if findRowByKey key s < 0 then
        { s with
          tableRowCount := s.tableRowCount + 1
          signalRowIndexByKey := s.signalRowIndexByKey.insert key s.tableRowCount }
      else s
    let lastTsForKey := hashValue s1.residualLastTsByKey key snapshot.lastMs
    let anchorTs := hashValue s1.signalAnchorTsByKey key
      (if 0 < snapshot.startMs then snapshot.startMs else lastTsForKey)
    { s1 with signalAnchorTsByKey := s1.signalAnchorTsByKey.insert key anchorTs }

/-- The body of the loop of `rebuildSignalTableFromResidual` for one key. -/
def rebuildKey (ui : Ui) (bigUnit : Int) (key : String) (s : MainState) : MainState :=
  let p := splitOnChar '|' key.data
  if p.length ≠ 3 then s
  else
    let expMs := ui.toLongLong (String.mk (p.getD 0 []))
    if ¬ (passSignalFilter ui expMs = true) then s
    else
      let qty := hashValue s.residualQtyByKey key 0
      if |qty| < (bigUnit : ℚ) then s
      else
        let snap : FlowBurst :=
          { startMs := 0
            lastMs := hashValue s.residualLastTsByKey key 0
            isBuy := decide (0 ≤ qty)
            isCall := decide (ui.toInt (String.mk (p.getD 1 [])) = 1)
            centerK := ui.toDouble (String.mk (p.getD 2 []))
            qtySum := qty
            dVolSum := hashValue s.residualDVolByKey key 0
            trades := hashValue s.residualTradesByKey key 0
            instruments := hashValue s.residualInstsByKey key [] }
        upsertSignalRow ui key expMs snap qty s

/-- `MainWindow::rebuildSignalTableFromResidual` at clock reading `now`. -/
def rebuildSignalTableFromResidual (ui : Ui) (now : Int) (s : MainState) : MainState :=
  if ¬ (ui.hasTableSignals = true) then s
  else
    s.residualQtyByKey.keys.foldl
      (fun st key => rebuildKey ui (currentBigUnit ui.spinMinSize now s.amtSamples) key st)
      { s with
        tableRowCount := 0
        signalRowIndexByKey := ∅
        amtSamples := currentBigUnitSamples ui.spinMinSize now s.amtSamples }

/-- `MainWindow::loadSnapshot` on the stored `blob`, at clock reading `now`: the returned
flag and the new state. -/
def loadSnapshot {B : Type} (codec : Codec B) (ui : Ui) (now : Int) (blob : B)
    (s : MainState) : Bool × MainState :=
  if codec.isEmpty blob = true then (false, s)
  else
    match codec.fromJson blob with
    | some (Json.obj o) =>
      (true, rebuildSignalTableFromResidual ui now
        { s with
          lastSnapshotTs := truncToInt (objValue o "ts").toDouble
          residualQtyByKey := loadMapD o "residualQty"
          residualDVolByKey := loadMapD o "residualDVol"
          residualSignedQtyByKey := loadMapD o "residualSignedQty"
          residualLastTsByKey := loadMapI64 o "residualLastTs"
          residualTradesByKey := loadMapI o "residualTrades"
          residualInstsByKey := loadMapSet o "residualInsts"
          signalAnchorTsByKey := loadMapI64 o "signalAnchorTs"
          amtSamples := loadSamples o
          lastIV := loadMapD o "lastIV"
          lastDelta := loadMapD o "lastDelta" })
    | _ => (false, s)

/-- The six residual maps of `loaded` agree with those of `saved`, key for key and value
for value (participant sets compared as sets). -/
def residualRestored (saved loaded : MainState) : Prop :=
  (∀ key, loaded.residualQtyByKey.lookup key = saved.residualQtyByKey.lookup key) ∧
  (∀ key, loaded.residualDVolByKey.lookup key = saved.residualDVolByKey.lookup key) ∧
  (∀ key, loaded.residualSignedQtyByKey.lookup key =
    saved.residualSignedQtyByKey.lookup key) ∧
  (∀ key, loaded.residualLastTsByKey.lookup key = saved.residualLastTsByKey.lookup key) ∧
  (∀ key, loaded.residualTradesByKey.lookup key = saved.residualTradesByKey.lookup key) ∧
  (∀ key, (loaded.residualInstsByKey.lookup key).isSome =
      (saved.residualInstsByKey.lookup key).isSome ∧
    ∀ x, x ∈ hashValue loaded.residualInstsByKey key [] ↔
      x ∈ hashValue saved.residualInstsByKey key [])

/-- Every anchor timestamp of `saved` is present in `loaded` with the same value. -/
def anchorsKept (saved loaded : MainState) : Prop :=
  ∀ key v, saved.signalAnchorTsByKey.lookup key = some v →
    loaded.signalAnchorTsByKey.lookup key = some v

/-- The six residual maps of the two states are the same maps. -/
def sameResidual (a b : MainState) : Prop :=
  b.residualQtyByKey = a.residualQtyByKey ∧ b.residualDVolByKey = a.residualDVolByKey ∧
  b.residualSignedQtyByKey = a.residualSignedQtyByKey ∧
  b.residualLastTsByKey = a.residualLastTsByKey ∧
  b.residualTradesByKey = a.residualTradesByKey ∧
  b.residualInstsByKey = a.residualInstsByKey

/-- A codec for examples: a blob is empty (`none`), unparseable (`some none`) or the
text of a JSON value. -/
def demoCodec : Codec (Option (Option Json)) :=
  { toJson := fun j => some (some j)
    fromJson := fun b => b.getD none
    isEmpty := fun b => b.isNone }

/-- A user interface for examples: table present, threshold on Auto (0), no expiry
filter; every key field reads expiry 1 000 000, call, strike 50000. -/
def demoUi : Ui :=
  { hasTableSignals := true
    spinMinSize := some 0
    displayExpiryFilterMs := 0
    toLongLong := fun _ => 1000000
    toInt := fun _ => 1
    toDouble := fun _ => 50000 }

/-- A state with one cluster of 120 contracts, last traded at 5000 ms, that has never
been shown in the signal table (no anchor timestamp). -/
def demoSaved : MainState :=
  { MainState.empty with
    residualQtyByKey := AList.insert "1000000|1|50000" 120 ∅
    residualDVolByKey := AList.insert "1000000|1|50000" 60 ∅
    residualSignedQtyByKey := AList.insert "1000000|1|50000" 120 ∅
    residualLastTsByKey := AList.insert "1000000|1|50000" 5000 ∅
    residualTradesByKey := AList.insert "1000000|1|50000" 1 ∅
    residualInstsByKey := AList.insert "1000000|1|50000" ["BTC-27DEC24-50000-C"] ∅ }

/-- The state `loadSnapshot` hands to the rebuild when it reads the snapshot of
`demoSaved` into a fresh window. -/
def demoLoaded : MainState :=
  { MainState.empty with
    lastSnapshotTs := truncToInt (objValue (saveSnapshotObject 0 demoSaved) "ts").toDouble
    residualQtyByKey := loadMapD (saveSnapshotObject 0 demoSaved) "residualQty"
    residualDVolByKey := loadMapD (saveSnapshotObject 0 demoSaved) "residualDVol"
    residualSignedQtyByKey := loadMapD (saveSnapshotObject 0 demoSaved) "residualSignedQty"
    residualLastTsByKey := loadMapI64 (saveSnapshotObject 0 demoSaved) "residualLastTs"
    residualTradesByKey := loadMapI (saveSnapshotObject 0 demoSaved) "residualTrades"
    residualInstsByKey := loadMapSet (saveSnapshotObject 0 demoSaved) "residualInsts"
    signalAnchorTsByKey := loadMapI64 (saveSnapshotObject 0 demoSaved) "signalAnchorTs"
    amtSamples := loadSamples (saveSnapshotObject 0 demoSaved)
    lastIV := loadMapD (saveSnapshotObject 0 demoSaved) "lastIV"
    lastDelta := loadMapD (saveSnapshotObject 0 demoSaved) "lastDelta" }

/-- The state in which the rebuild loop starts for `demoLoaded` (table cleared, samples
pruned at clock reading 0). -/
def demoRebuildStart : MainState :=
  { demoLoaded with
    tableRowCount := 0
    signalRowIndexByKey := ∅
    amtSamples := currentBigUnitSamples demoUi.spinMinSize 0 demoLoaded.amtSamples }

/-! ## Pipeline events: full reconstruction and delta catch-up -/

/-- Step 5 of the completion handler: where the follow-up task starts, given the rows of
the reply (none after a parse failure) and the adapted step. -/
def resumeFromOf (req : FullTask) (rows : List (Option Int)) (stepMs : Int) : Int :=
  if 0 ≤ lastTsSeenOf rows (-1) then lastTsSeenOf rows (-1) + 1
  else min req.toMs (req.fromMs + stepMs + 1)

/-- Steps 4 and 5 of the completion handler: the follow-up task pushed to the front of the
queue, if any. -/
def followUp (req : FullTask) (rows : List (Option Int)) : List FullTask :=
  if resumeFromOf req rows (adaptStep rows.length req.stepMs) < req.toMs then
    [⟨req.inst, resumeFromOf req rows (adaptStep rows.length req.stepMs), req.toMs,
      adaptStep rows.length req.stepMs⟩]
  else []

/-- The state the completion handler of `requestBackfillWindow` has reached when it makes
its final call of `fullBackfillPump` (steps 1, 4, 5 and the counter adjustment of step
6).  A reply that does not parse leaves `n = 0` and `lastTsSeen = -1`, as an empty
`trades` array does. -/
def fullAfterReply (req : FullTask) (reply : Reply) (s : FullState) : FullState :=
  match reply with
  | Reply.networkError =>
    { s with
      fullQueue := s.fullQueue ++ [req]
      fullInflight := max 0 (s.fullInflight - 1) }
  | Reply.parseFailure =>
    { s with
      fullQueue := followUp req [] ++ s.fullQueue
      fullInflight := max 0 (s.fullInflight - 1) }
  | Reply.trades rows =>
    { s with
      fullQueue := followUp req rows ++ s.fullQueue
      fullInflight := max 0 (s.fullInflight - 1) }

/-- The window `fullBackfillPump` requests for a queued task. -/
def windowOf (t : FullTask) : FullTask :=
  ⟨t.inst, t.fromMs, min (t.fromMs + t.stepMs) t.toMs, t.stepMs⟩

/-- `MainWindow::fullBackfillLiveExpiriesInit` at clock reading `now`.
`instrumentsEmpty` is `m_instruments.isEmpty()`; `live` lists the names collected in
`liveInst` (active, unexpired, non-empty name), each with its expiry
`m_instToExpiryMs.value(inst, now)`. -/
def fullBackfillLiveExpiriesInit (instrumentsEmpty : Bool) (live : List (String × Int))
    (now : Int) (s : FullState) : FullState :=
  if instrumentsEmpty = true then
    { s with fullQueue := [], fullInflight := 0, fullDone := true }
  else
    fullBackfillPump { s with
      fullQueue := live.map (fun p => initialTask p.1 p.2 now)
      fullInflight := 0
      fullDone := false }

/-- What can happen to the full pipeline: an initialisation, a call of the pump, or the
completion of the pending request number `i`. -/
inductive FullEvent where
  | init : Bool → List (String × Int) → Int → FullEvent
  | pump : FullEvent
  | finish : Nat → Reply → FullEvent

/-- One event of the full pipeline. -/
def stepFull : FullEvent → FullState → FullState
  | FullEvent.init e live now, s => fullBackfillLiveExpiriesInit e live now s
  | FullEvent.pump, s => fullBackfillPump s
  | FullEvent.finish i reply, s => finishRequest i reply s

/-- A sequence of events of the full pipeline. -/
def runFullEvents : List FullEvent → FullState → FullState
  | [], s => s
  | e :: es, s => runFullEvents es (stepFull e s)

/-- The full pipeline of a freshly constructed window. -/
def FullState.initial : FullState := ⟨[], 0, false, [], []⟩

/-- The event is not an initialisation. -/
def FullEvent.noInit : FullEvent → Bool
  | FullEvent.init _ _ _ => false
  | _ => true

/-- The done flag before a run and after each of its events. -/
def fullDoneFlags : List FullEvent → FullState → List Bool
  | [], s => [s.fullDone]
  | e :: es, s => s.fullDone :: fullDoneFlags es (stepFull e s)

/-- The number of places where a list of flags goes from `false` to `true`: the number
of executions of a done branch, which runs exactly when it finds the flag `false` and
sets it. -/
def risingEdges : List Bool → Nat
  | a :: b :: rest => (if a = false ∧ b = true then 1 else 0) + risingEdges (b :: rest)
  | _ => 0

/-- State of the delta pipeline: the queue of instrument names, the in-flight counter,
the done flag, the range, and the requests sent and not yet finished. -/
structure DeltaState where
  deltaQueue : List String
  deltaInflight : Int
  deltaDone : Bool
  deltaFromMs : Int
  deltaToMs : Int
  pending : List (String × Int × Int)

/-- The done branch of `autoBackfillDeltaPump`. -/
def deltaDoneCheck (s : DeltaState) : DeltaState :=
  if s.deltaInflight = 0 ∧ s.deltaQueue = [] ∧ s.deltaDone = false then
    { s with deltaDone := true }
  else s

/-- `MainWindow::autoBackfillDeltaPump()` with `requestBackfillDelta` inlined.  A request
for an invalid range (`fromMs >= toMs`) lowers the counter and calls the pump again from
inside the loop; afterwards the loop of the caller goes on.  The recursion is bounded by
`fuel`; every pop shortens the queue, so `length + 1` is enough
(`autoBackfillDeltaPump`). -/
def deltaPumpFuel : Nat → DeltaState → DeltaState
  | 0, s => s
  | fuel + 1, s =>
    match s.deltaQueue with
    | [] => deltaDoneCheck s
    | inst :: q =>
      if s.deltaInflight < AUTO_MAX_INFLIGHT then
        if s.deltaToMs ≤ s.deltaFromMs then
          deltaPumpFuel fuel (deltaPumpFuel fuel
            { s with deltaQueue := q, deltaInflight := max 0 (s.deltaInflight + 1 - 1) })
        else
          deltaPumpFuel fuel
            { s with
              deltaQueue := q
              deltaInflight := s.deltaInflight + 1
              pending := s.pending ++ [(inst, s.deltaFromMs, s.deltaToMs)] }
      else deltaDoneCheck s

/-- `MainWindow::autoBackfillDeltaPump()`. -/
def autoBackfillDeltaPump (s : DeltaState) : DeltaState :=
  deltaPumpFuel (s.deltaQueue.length + 1) s

/-- The state the completion handler of `requestBackfillDelta` has reached when it calls
the pump: on a transport error, a parse failure or a parsed reply alike, the counter is
lowered and the queue is left alone. -/
def deltaAfterReply (_reply : Reply) (s : DeltaState) : DeltaState :=
  { s with deltaInflight := max 0 (s.deltaInflight - 1) }

/-- The completion handler of `requestBackfillDelta` for the pending request `i`. -/
def deltaFinish (i : Nat) (reply : Reply) (s : DeltaState) : DeltaState :=
  match s.pending.get? i with
  | none => s
  | some _ => autoBackfillDeltaPump (deltaAfterReply reply { s with pending := s.pending.eraseIdx i })

/-- `MainWindow::autoBackfillDeltaInit` at clock reading `now`.  `instrumentsEmpty` is
`m_instruments.isEmpty()`, `names` the non-empty names of the active instruments. -/
def autoBackfillDeltaInit (instrumentsEmpty : Bool) (names : List String)
    (lastSnapshotTs now : Int) (s : DeltaState) : DeltaState :=
  if instrumentsEmpty = true ∨
      now ≤ (if 0 < lastSnapshotTs then lastSnapshotTs else now - 7 * DAY_MS) then
    { s with
      deltaQueue := [], deltaInflight := 0
      deltaFromMs := if 0 < lastSnapshotTs then lastSnapshotTs else now - 7 * DAY_MS
      deltaToMs := now, deltaDone := true }
  else
    autoBackfillDeltaPump { s with
      deltaQueue := names, deltaInflight := 0
      deltaFromMs := if 0 < lastSnapshotTs then lastSnapshotTs else now - 7 * DAY_MS
      deltaToMs := now }

/-- What can happen to the delta pipeline. -/
inductive DeltaEvent where
  | init : Bool → List String → Int → Int → DeltaEvent
  | pump : DeltaEvent
  | finish : Nat → Reply → DeltaEvent

/-- One event of the delta pipeline. -/
def stepDelta : DeltaEvent → DeltaState → DeltaState
  | DeltaEvent.init e names ts now, s => autoBackfillDeltaInit e names ts now s
  | DeltaEvent.pump, s => autoBackfillDeltaPump s
  | DeltaEvent.finish i reply, s => deltaFinish i reply s

/-- A sequence of events of the delta pipeline. -/
def runDeltaEvents : List DeltaEvent → DeltaState → DeltaState
  | [], s => s
  | e :: es, s => runDeltaEvents es (stepDelta e s)

/-- The delta pipeline of a freshly constructed window. -/
def DeltaState.initial : DeltaState := ⟨[], 0, false, 0, 0, []⟩

/-- The event is not an initialisation. -/
def DeltaEvent.noInit : DeltaEvent → Bool
  | DeltaEvent.init _ _ _ _ => false
  | _ => true

/-- The done flag before a run and after each of its events. -/
def deltaDoneFlags : List DeltaEvent → DeltaState → List Bool
  | [], s => [s.deltaDone]
  | e :: es, s => s.deltaDone :: deltaDoneFlags es (stepDelta e s)

/-- The step of a task lies between five minutes and twenty-four hours. -/
def stepInBounds (t : FullTask) : Prop :=
  5 * 60 * 1000 ≤ t.stepMs ∧ t.stepMs ≤ 24 * HOUR_MS

instance (t : FullTask) : Decidable (stepInBounds t) := by
  unfold stepInBounds; infer_instance

/-- Nine live instruments, one more than the pump may have in flight. -/
def demoLive : List (String × Int) :=
  [("I1", 1702592000000), ("I2", 1702592000000), ("I3", 1702592000000),
   ("I4", 1702592000000), ("I5", 1702592000000), ("I6", 1702592000000),
   ("I7", 1702592000000), ("I8", 1702592000000), ("I9", 1702592000000)]

/-- The chain of windows of one instrument when no transport failure occurs: `respond`
gives the rows returned for a window, and the follow-up task, if any, is dispatched as its
first window.  `nthWindow respond n w` is the window requested `n` completions after `w`,
or `none` if the chain has ended before. -/
def nthWindow (respond : FullTask → List (Option Int)) : Nat → FullTask → Option FullTask
  | 0, w => some w
  | n + 1, w =>
    match followUp w (respond w) with
    | [] => none
    | t :: _ => nthWindow respond n (windowOf t)

/-- A server that returns, for every window, one trade at the start of the window. -/
def demoRespond (w : FullTask) : List (Option Int) := [some w.fromMs]

/-- The full pipeline after an initialisation with nine live instruments: eight requests
in flight, one task waiting. -/
def demoFullBusy : FullState :=
  runFullEvents [FullEvent.init false demoLive 1700000000000] FullState.initial

/-- The delta pipeline after an initialisation with nine active instruments. -/
def demoDeltaBusy : DeltaState :=
  runDeltaEvents
    [DeltaEvent.init false ["I1", "I2", "I3", "I4", "I5", "I6", "I7", "I8", "I9"]
      0 1700000000000]
    DeltaState.initial

/-- The full pipeline initialised with one live instrument and initialised again, with
an empty instrument list, while the first window is still in flight. -/
def demoFullReinit : FullState :=
  runFullEvents
    [FullEvent.init false [("BTC-27DEC24-50000-C", 1702592000000)] 1700000000000,
     FullEvent.init true [] 1700000000000]
    FullState.initial

/-- The delta pipeline initialised with one instrument and initialised again, with an
empty instrument list, while the request is still in flight. -/
def demoDeltaReinit : DeltaState :=
  runDeltaEvents
    [DeltaEvent.init false ["BTC-27DEC24-50000-C"] 0 1700000000000,
     DeltaEvent.init true [] 0 1700000000000]
    DeltaState.initial

/-- No trade of the reply is stamped before the start of the window `req`. -/
def replyOk (req : FullTask) : Reply → Bool
  | Reply.trades rows =>
    rows.all (fun r => match r with
      | some ts => decide (req.fromMs ≤ ts)
      | none => true)
  | _ => true

/-- Along the run, no reply carries a trade stamped before the start of its window. -/
def respectsWindows : List (Nat × Reply) → FullState → Bool
  | [], _ => true
  | (i, reply) :: es, s =>
    (match s.pending.get? i with
      | none => true
      | some req => replyOk req reply) &&
    respectsWindows es (finishRequest i reply s)

/-- The task `t` descends from the initial task `t0`: same instrument, its window ends no
later than the first window of `t0` and, when `lo` is set, it starts no earlier than
`t0`. -/
def descends (lo : Bool) (t0 t : FullTask) : Prop :=
  t0.inst = t.inst ∧ (lo = true → t0.fromMs ≤ t.fromMs) ∧
    (windowOf t).toMs ≤ (windowOf t0).toMs

/-! ## Manual-range pipeline (`onBackfillClicked`) -/

/-- The end of `MainWindow::chooseAndSubscribe`: `m_targetInstruments` is made of the
first `min(8, size)` names of the sorted calls followed by the first `min(8, size)` names
of the sorted puts. -/
def chooseTargets (calls puts : List String) : List String :=
  calls.take (min 8 calls.length) ++ puts.take (min 8 puts.length)

/-- State of the manual pipeline: the counters `m_pendingTickers` and
`m_backfillPending`, and the instruments of the ticker requests and of the trade-history
requests that were sent and have not finished. -/
structure ManualState where
  pendingTickers : Int
  backfillPending : Int
  tickersInFlight : List String
  backfillsInFlight : List String

/-- The manual pipeline with nothing in flight. -/
def ManualState.idle : ManualState := ⟨0, 0, [], []⟩

/-- `MainWindow::requestTickerFor`: the request is sent at once. -/
def requestTickerFor (inst : String) (s : ManualState) : ManualState :=
  { s with
    pendingTickers := s.pendingTickers + 1
    tickersInFlight := s.tickersInFlight ++ [inst] }

/-- `MainWindow::requestBackfillFor`: the request is sent at once. -/
def requestBackfillFor (inst : String) (s : ManualState) : ManualState :=
  { s with
    backfillPending := s.backfillPending + 1
    backfillsInFlight := s.backfillsInFlight ++ [inst] }

/-- `MainWindow::prefetchTickersForTargets`. -/
def prefetchTickersForTargets (targets : List String) (s : ManualState) : ManualState :=
  let s1 := targets.foldl (fun acc inst => requestTickerFor inst acc)
    { s with pendingTickers := 0 }
  if s1.pendingTickers = 0 then
    targets.foldl (fun acc inst => requestBackfillFor inst acc) s1
  else s1

/-- `MainWindow::onBackfillClicked`, as far as requests are concerned. -/
def onBackfillClicked (targets : List String) (s : ManualState) : ManualState :=
  if targets = [] then s else prefetchTickersForTargets targets s

/-- The completion handler of `requestTickerFor` for the ticker request number `i`. -/
def tickerFinished (targets : List String) (i : Nat) (s : ManualState) : ManualState :=
  match s.tickersInFlight.get? i with
  | none => s
  | some _ =>
    if s.pendingTickers - 1 = 0 then
      targets.foldl (fun acc inst => requestBackfillFor inst acc)
        { s with
          tickersInFlight := s.tickersInFlight.eraseIdx i
          pendingTickers := s.pendingTickers - 1
          backfillPending := 0 }
    else
      { s with
        tickersInFlight := s.tickersInFlight.eraseIdx i
        pendingTickers := s.pendingTickers - 1 }

/-- The completion handler of `requestBackfillFor` for the trade-history request number
`i`, as far as requests are concerned. -/
def backfillFinished (i : Nat) (s : ManualState) : ManualState :=
  match s.backfillsInFlight.get? i with
  | none => s
  | some _ =>
    { s with
      backfillsInFlight := s.backfillsInFlight.eraseIdx i
      backfillPending := s.backfillPending - 1 }

/-- What can happen to the manual pipeline after the click: a ticker request or a
trade-history request finishes. -/
inductive ManualEvent where
  | tickerDone : Nat → ManualEvent
  | backfillDone : Nat → ManualEvent

/-- A sequence of completions. -/
def runManual (targets : List String) : List ManualEvent → ManualState → ManualState
  | [], s => s
  | ManualEvent.tickerDone i :: es, s => runManual targets es (tickerFinished targets i s)
  | ManualEvent.backfillDone i :: es, s => runManual targets es (backfillFinished i s)

/-- The number of fetches of the manual pipeline in flight. -/
def ManualState.inFlight (s : ManualState) : Nat :=
  s.tickersInFlight.length + s.backfillsInFlight.length

/-- Eight calls and one put around the money. -/
def demoTargets : List String :=
  chooseTargets ["C1", "C2", "C3", "C4", "C5", "C6", "C7", "C8"] ["P1"]

/-- The burst that the detector builds from the trade `ev`, which opens it, and the trades
`rest`, which are merged into it in this order. -/
def burstOfTrades (env : Env) (ev : TradeEvent) (rest : List TradeEvent) : FlowBurst :=
  rest.foldl
    (fun b e => mergeBurst e (strikeFromInst env e.instrument)
      (deltaSigned env (isCallFromInst e.instrument) (strikeFromInst env e.instrument) e.delta)
      b)
    (newBurst ev (decide (0 < ev.sign)) (isCallFromInst ev.instrument)
      (strikeFromInst env ev.instrument)
      (deltaSigned env (isCallFromInst ev.instrument) (strikeFromInst env ev.instrument)
        ev.delta))

/-- Two calls of strike 50000 with different expiries. -/
def demoEnvTwoExpiries : Env :=
  { instToExpiryMs := fun inst =>
      if inst = "BTC-27DEC24-50000-C" then some 1735286400000
      else if inst = "BTC-28MAR25-50000-C" then some 1743148800000
      else none
    toDouble := fun _ => some 50000
    K_BUCKET := 1000
    absDeltaGuess := fun _ _ => 1 / 2
    underlyingPx := 50000
    setBegin := fun l => l.headD "" }

/-- A buy of 60 contracts of the December call. -/
def demoDec : TradeEvent := ⟨1000, 60, 1 / 2, 1, "BTC-27DEC24-50000-C"⟩

/-- A buy of 60 contracts of the March call, two seconds later. -/
def demoMar : TradeEvent := ⟨3000, 60, 1 / 2, 1, "BTC-28MAR25-50000-C"⟩

/-- The December print followed by the March print, both with threshold 50. -/
def demoTwoCalls : List BurstCall := [⟨50, 50, demoDec⟩, ⟨50, 50, demoMar⟩]

/-! ## Signal anchors: the operations that touch the signal table -/

/-- The text `QString("%1|%2|%3").arg(expMs).arg(isCall ? 1 : 0).arg(kRound)` of a cluster
key, under which the `QHash` maps of `MainWindow` are indexed. -/
def clusterKeyText (k : ClusterKey) : String :=
  toString k.expMs ++ "|" ++ (if k.isCall then "1" else "0") ++ "|" ++ toString k.kRound

/-- `MainWindow::applyTradeToResidual` on the whole state.  The refresh of an existing
table row writes cells only; it reads the anchor map through `value()`. -/
def applyTradeToResidualState (env : Env) (unit : Int) (t : Trade) (s : MainState) :
    MainState :=
  let exp := expiryFromInst env t.inst
  if exp ≤ 0 then s
  else if ¬ isBigTrade unit t.amount then s
  else
    let isCall := isCallFromInst t.inst
    let k := strikeFromInst env t.inst
    if k ≤ 0 then s
    else
      let key := clusterKeyText (makeClusterKey env exp isCall k)
      { s with
        residualQtyByKey := s.residualQtyByKey.insert key
          (hashValue s.residualQtyByKey key 0 + (if 0 < t.sign then |t.amount| else -|t.amount|))
        residualSignedQtyByKey := s.residualSignedQtyByKey.insert key
          (hashValue s.residualSignedQtyByKey key 0 + sideSign t.sign * |t.amount|)
        residualDVolByKey := s.residualDVolByKey.insert key
          (hashValue s.residualDVolByKey key 0 +
            sideSign t.sign * |t.amount| * deltaSigned env isCall k t.deltaRaw)
        residualLastTsByKey := s.residualLastTsByKey.insert key
          (max (hashValue s.residualLastTsByKey key 0) t.ts)
        residualTradesByKey := s.residualTradesByKey.insert key
          (hashValue s.residualTradesByKey key 0 + 1)
        residualInstsByKey := s.residualInstsByKey.insert key
          (setInsert t.inst (hashValue s.residualInstsByKey key [])) }

/-- `MainWindow::emitSignalRow`. -/
def emitSignalRow (env : Env) (ui : Ui) (b : FlowBurst) (expMs : Int) (s : MainState) :
    MainState :=
  upsertSignalRow ui (clusterKeyText (makeClusterKey env expMs b.isCall b.centerK)) expMs b
    (hashValue s.residualQtyByKey (clusterKeyText (makeClusterKey env expMs b.isCall b.centerK))
      0)
    s

/-- `MainWindow::onNewTradeForBurst` on the detector and the state: the calls
`emitSignalRow(b, expMs)` that the detector call adds to its record are carried out on
the state. -/
def onNewTradeForBurstState (env : Env) (ui : Ui) (bigUnit gateUnit : Int) (ev : TradeEvent)
    (p : Detector × MainState) : Detector × MainState :=
  ((onNewTradeForBurst env bigUnit gateUnit ev p.1),
    ((onNewTradeForBurst env bigUnit gateUnit ev p.1).emitted.drop p.1.emitted.length).foldl
      (fun s e => emitSignalRow env ui e.1 e.2 s) p.2)

/-- A call of one of the five functions that work on the signal table or the residual
maps, with its arguments (and, for the functions that read them, the readings of the
threshold and of the clock). -/
inductive SignalOp where
  | applyTrade : Int → Trade → SignalOp
  | newTradeForBurst : Int → Int → TradeEvent → SignalOp
  | emitRow : FlowBurst → Int → SignalOp
  | upsertRow : String → Int → FlowBurst → ℚ → SignalOp
  | rebuild : Int → SignalOp

/-- One call. -/
def applyOp (env : Env) (ui : Ui) : SignalOp → Detector × MainState → Detector × MainState
  | SignalOp.applyTrade unit t, p => (p.1, applyTradeToResidualState env unit t p.2)
  | SignalOp.newTradeForBurst u g ev, p => onNewTradeForBurstState env ui u g ev p
  | SignalOp.emitRow b expMs, p => (p.1, emitSignalRow env ui b expMs p.2)
  | SignalOp.upsertRow key expMs b q, p => (p.1, upsertSignalRow ui key expMs b q p.2)
  | SignalOp.rebuild now, p => (p.1, rebuildSignalTableFromResidual ui now p.2)

/-- A sequence of calls, first element first. -/
def runOps (env : Env) (ui : Ui) : List SignalOp → Detector × MainState →
    Detector × MainState
  | [], p => p
  | op :: ops, p => runOps env ui ops (applyOp env ui op p)

/-- A state in which the cluster `1000000|1|50000` holds 120 contracts, was last traded at
5000 ms and is shown in the signal table with anchor timestamp 5000. -/
def demoAnchored : MainState :=
  { demoSaved with
    signalAnchorTsByKey := AList.insert "1000000|1|50000" 5000 ∅
    signalRowIndexByKey := AList.insert "1000000|1|50000" 0 ∅
    tableRowCount := 1 }

/-- A buy of 120 contracts of the example instrument at 9000 ms. -/
def demoLateBuy : Trade := ⟨"BTC-27DEC24-50000-C", 9000, 120, 1, 1 / 2⟩

/-- A trade into the anchored cluster, a firing burst on it, a direct row update and a
rebuild of the table. -/
def demoOps : List SignalOp :=
  [SignalOp.applyTrade 50 demoLateBuy,
   SignalOp.newTradeForBurst 50 50 (demoEv 9000 300),
   SignalOp.emitRow (demoBurst 9500) 1000000,
   SignalOp.upsertRow "1000000|1|50000" 1000000 (demoBurst 9600) 240,
   SignalOp.rebuild 10000]

end NobiNobi

/-! # Properties -/

namespace NobiNobi

/-! ## Threshold estimator -/

theorem toInt32_of_range {x : Int} (h1 : -2147483648 ≤ x) (h2 : x ≤ 2147483647) :
    toInt32 x = x := by
  unfold toInt32
  omega

theorem llround_mono {x y : ℚ} (h : x ≤ y) : llround x ≤ llround y := by
  unfold llround
  by_cases hx : 0 ≤ x
  · have hy : 0 ≤ y := le_trans hx h
    rw [if_pos hx, if_pos hy]
    exact Int.floor_mono (by linarith)
  · rw [if_neg hx]
    by_cases hy : 0 ≤ y
    · rw [if_pos hy]
      have h1 : (0 : Int) ≤ ⌊-x + 1 / 2⌋ := Int.floor_nonneg.mpr (by push_neg at hx; linarith)
      have h2 : (0 : Int) ≤ ⌊y + 1 / 2⌋ := Int.floor_nonneg.mpr (by linarith)
      omega
    · rw [if_neg hy]
      have : ⌊-y + 1 / 2⌋ ≤ ⌊-x + 1 / 2⌋ := Int.floor_mono (by linarith)
      omega

theorem roundUpToStep_eq {u : Int} (h1 : 0 ≤ u) (h2 : u ≤ 2147483638) :
    roundUpToStep u = (u + 9) / 10 * 10 := by
  unfold roundUpToStep AUTO_ROUND_STEP
  rw [Int.tmod_eq_emod h1 (by norm_num)]
  by_cases hm : u % 10 = 0
  · rw [if_neg (by simpa using hm)]
    omega
  · rw [if_pos hm]
    have e1 : toInt32 (u + 10 - 1) = u + 9 := by
      rw [toInt32_of_range (by omega) (by omega)]; ring
    rw [e1, Int.tdiv_eq_ediv (by omega) (by norm_num)]
    rw [toInt32_of_range (by omega) (by omega)]

theorem autoUnit_small {vals : List ℚ} (h : vals.length < 200) : autoUnit vals = 50 := by
  unfold autoUnit AUTO_MIN_SAMPLES
  rw [if_neg (by omega)]
  rw [roundUpToStep_eq (by decide) (by decide)]
  decide

theorem autoUnit_eq {vals : List ℚ} (h : 200 ≤ vals.length) (hr : inIntRange (p98 vals)) :
    autoUnit vals = (max 50 (llround (p98 vals)) + 9) / 10 * 10 := by
  obtain ⟨h1, h2⟩ := hr
  unfold autoUnit AUTO_MIN_SAMPLES AUTO_FLOOR
  rw [if_pos h]
  simp only []
  rw [toInt32_of_range h1 (by omega)]
  by_cases hu : llround (p98 vals) < 50
  · rw [if_pos hu, roundUpToStep_eq (by decide) (by decide), max_eq_left (by omega)]
  · rw [if_neg hu, roundUpToStep_eq (by omega) h2, max_eq_right (by omega)]

theorem currentBigUnit_auto {spin : Option ℚ} (h : noOverride spin) (now : Int)
    (samples : List AmtSample) :
    currentBigUnit spin now samples = autoUnit (windowAmounts now samples) := by
  unfold currentBigUnit
  cases spin with
  | none => rfl
  | some v =>
    have := h v rfl
    simp only []
    rw [if_neg (by omega)]

theorem mem_insertionSort_getD {vals : List ℚ} {k : Nat} (hk : k < vals.length) :
    (vals.insertionSort (· ≤ ·)).getD k 0 ∈ vals := by
  have hlen : (vals.insertionSort (· ≤ ·)).length = vals.length := List.length_insertionSort _ _
  have hk2 : k < (vals.insertionSort (· ≤ ·)).length := by omega
  rw [List.getD_eq_getElem _ _ hk2]
  exact (List.perm_insertionSort (· ≤ ·) vals).subset (List.getElem_mem hk2)

theorem quantileIndex_lt {n : Nat} (h : 0 < n) : quantileIndex n < n := by
  unfold quantileIndex
  omega

theorem p98_mem {vals : List ℚ} (h : 0 < vals.length) : p98 vals ∈ vals :=
  mem_insertionSort_getD (quantileIndex_lt h)

theorem p98_replicate (n : Nat) (c : ℚ) : p98 (List.replicate (n + 1) c) = c := by
  have h := @p98_mem (List.replicate (n + 1) c) (by simp)
  exact List.eq_of_mem_replicate h

theorem windowAmounts_replicate (now ts : Int) (c : ℚ) (n : Nat) (h : now - DAY_MS64 ≤ ts) :
    windowAmounts now (List.replicate (n + 1) ⟨ts, c⟩) = List.replicate (n + 1) c := by
  unfold windowAmounts pruneAmtSamples
  rw [List.replicate_succ, List.dropWhile_cons]
  simp only [decide_eq_true_eq]
  rw [if_neg (by omega)]
  simp [List.replicate_succ]

theorem llround_natCast (n : Nat) : llround (n : ℚ) = n := by
  unfold llround
  rw [if_pos (by positivity)]
  rw [Int.floor_eq_iff]
  constructor
  · push_cast; linarith
  · push_cast; linarith

theorem inIntRange_natCast {n : Nat} (h : n ≤ 2147483638) : inIntRange (n : ℚ) := by
  unfold inIntRange
  rw [llround_natCast]
  omega

/-- C6 (as stated) fails: with the manual override set to 7 and an empty sample window
`currentBigUnit` returns 7, which is neither a multiple of 10 nor at least 50. -/
theorem currentBigUnit_override_not_multiple_floor :
    ¬ (10 ∣ currentBigUnit (some ((7 : Nat) : ℚ)) 0 [] ∧
        50 ≤ currentBigUnit (some ((7 : Nat) : ℚ)) 0 []) := by
  have h : currentBigUnit (some ((7 : Nat) : ℚ)) 0 [] = 7 := by
    simp only [currentBigUnit, manualOf, llround_natCast]
    decide
  rw [h]
  decide

/-- C6 (amended): when no manual override is in force and the rounded 98th-percentile
amount of a window of at least 200 samples fits the `int` range, the value returned by
`currentBigUnit` is a multiple of 10 and at least 50. -/
theorem currentBigUnit_auto_multiple_floor (spin : Option ℚ) (now : Int)
    (samples : List AmtSample) (h : noOverride spin)
    (hr : AUTO_MIN_SAMPLES ≤ (windowAmounts now samples).length →
      inIntRange (p98 (windowAmounts now samples))) :
    10 ∣ currentBigUnit spin now samples ∧ 50 ≤ currentBigUnit spin now samples := by
  rw [currentBigUnit_auto h]
  by_cases hn : 200 ≤ (windowAmounts now samples).length
  · rw [autoUnit_eq hn (hr hn)]
    constructor
    · exact Dvd.intro_left _ rfl
    · have := le_max_left (50 : Int) (llround (p98 (windowAmounts now samples)))
      omega
  · rw [autoUnit_small (by omega)]
    decide

theorem noOverride_none : noOverride none := by
  intro v hv
  cases hv

theorem currentBigUnit_auto_multiple_floor_witness :
    noOverride none ∧
      (10 ∣ currentBigUnit none 1 (List.replicate 200 ⟨1, ((123 : Nat) : ℚ)⟩) ∧
        50 ≤ currentBigUnit none 1 (List.replicate 200 ⟨1, ((123 : Nat) : ℚ)⟩)) :=
  ⟨noOverride_none,
    currentBigUnit_auto_multiple_floor none 1 (List.replicate 200 ⟨1, ((123 : Nat) : ℚ)⟩)
      noOverride_none (by
        intro _
        rw [windowAmounts_replicate 1 1 _ 199 (by decide), p98_replicate]
        exact inIntRange_natCast (by decide))⟩

theorem ceilStep_mono {a b : Int} (h : a ≤ b) : (a + 9) / 10 * 10 ≤ (b + 9) / 10 * 10 := by
  omega

/-- C7 (as stated) fails: a window whose 98th-percentile amount is 2^31 converts to a
negative `int`, is floored to 50, and so gets a smaller threshold than a window whose
98th-percentile amount is 100. -/
theorem currentBigUnit_not_monotone_beyond_int :
    ¬ (p98 (windowAmounts 1 (List.replicate 200 ⟨1, ((100 : Nat) : ℚ)⟩)) ≤
          p98 (windowAmounts 1 (List.replicate 200 ⟨1, ((2147483648 : Nat) : ℚ)⟩)) →
        currentBigUnit none 1 (List.replicate 200 ⟨1, ((100 : Nat) : ℚ)⟩) ≤
          currentBigUnit none 1 (List.replicate 200 ⟨1, ((2147483648 : Nat) : ℚ)⟩)) := by
  have e1 : windowAmounts 1 (List.replicate 200 ⟨1, ((100 : Nat) : ℚ)⟩) =
      List.replicate 200 ((100 : Nat) : ℚ) := windowAmounts_replicate 1 1 _ 199 (by decide)
  have e2 : windowAmounts 1 (List.replicate 200 ⟨1, ((2147483648 : Nat) : ℚ)⟩) =
      List.replicate 200 ((2147483648 : Nat) : ℚ) :=
    windowAmounts_replicate 1 1 _ 199 (by decide)
  have c1 : currentBigUnit none 1 (List.replicate 200 ⟨1, ((100 : Nat) : ℚ)⟩) = 100 := by
    rw [currentBigUnit_auto noOverride_none, e1,
      autoUnit_eq (by rw [List.length_replicate])
        (by rw [p98_replicate]; exact inIntRange_natCast (by decide)),
      p98_replicate, llround_natCast]
    decide
  have c2 : currentBigUnit none 1 (List.replicate 200 ⟨1, ((2147483648 : Nat) : ℚ)⟩) = 50 := by
    rw [currentBigUnit_auto noOverride_none, e2]
    unfold autoUnit
    rw [if_pos (by rw [List.length_replicate]; decide), p98_replicate, llround_natCast]
    decide
  rw [e1, e2, p98_replicate, p98_replicate, c1, c2]
  intro h
  have := h (by norm_num)
  omega

/-- C7 (amended): with no manual override, for two windows of at least 200 samples whose
rounded 98th-percentile amounts fit the `int` range, a smaller-or-equal 98th-percentile
amount gives a smaller-or-equal `currentBigUnit`. -/
theorem currentBigUnit_mono_p98 (spin1 spin2 : Option ℚ) (now1 now2 : Int)
    (samples1 samples2 : List AmtSample)
    (h1 : noOverride spin1) (h2 : noOverride spin2)
    (n1 : AUTO_MIN_SAMPLES ≤ (windowAmounts now1 samples1).length)
    (n2 : AUTO_MIN_SAMPLES ≤ (windowAmounts now2 samples2).length)
    (r1 : inIntRange (p98 (windowAmounts now1 samples1)))
    (r2 : inIntRange (p98 (windowAmounts now2 samples2)))
    (hp : p98 (windowAmounts now1 samples1) ≤ p98 (windowAmounts now2 samples2)) :
    currentBigUnit spin1 now1 samples1 ≤ currentBigUnit spin2 now2 samples2 := by
  rw [currentBigUnit_auto h1, currentBigUnit_auto h2, autoUnit_eq n1 r1, autoUnit_eq n2 r2]
  exact ceilStep_mono (max_le_max le_rfl (llround_mono hp))

theorem currentBigUnit_mono_p98_witness :
    p98 (windowAmounts 1 (List.replicate 200 ⟨1, ((100 : Nat) : ℚ)⟩)) ≤
        p98 (windowAmounts 1 (List.replicate 200 ⟨1, ((123 : Nat) : ℚ)⟩)) ∧
      currentBigUnit none 1 (List.replicate 200 ⟨1, ((100 : Nat) : ℚ)⟩) ≤
        currentBigUnit none 1 (List.replicate 200 ⟨1, ((123 : Nat) : ℚ)⟩) := by
  have e1 : windowAmounts 1 (List.replicate 200 ⟨1, ((100 : Nat) : ℚ)⟩) =
      List.replicate 200 ((100 : Nat) : ℚ) := windowAmounts_replicate 1 1 _ 199 (by decide)
  have e2 : windowAmounts 1 (List.replicate 200 ⟨1, ((123 : Nat) : ℚ)⟩) =
      List.replicate 200 ((123 : Nat) : ℚ) := windowAmounts_replicate 1 1 _ 199 (by decide)
  have hp : p98 (windowAmounts 1 (List.replicate 200 ⟨1, ((100 : Nat) : ℚ)⟩)) ≤
      p98 (windowAmounts 1 (List.replicate 200 ⟨1, ((123 : Nat) : ℚ)⟩)) := by
    rw [e1, e2, p98_replicate, p98_replicate]; norm_num
  exact ⟨hp, currentBigUnit_mono_p98 none none 1 1 _ _ noOverride_none noOverride_none
    (by rw [e1, List.length_replicate]; decide) (by rw [e2, List.length_replicate]; decide)
    (by rw [e1, p98_replicate]; exact inIntRange_natCast (by decide))
    (by rw [e2, p98_replicate]; exact inIntRange_natCast (by decide)) hp⟩

theorem llround_sixty_point_four : llround (302 / 5) = 60 := by
  unfold llround
  rw [if_pos (by norm_num), Int.floor_eq_iff]
  constructor <;> norm_num

/-- C8 (as stated) fails: for a window of 200 samples of amount 60.4 the 98th
percentile is 60.4 and `currentBigUnit` returns 60, which is below 60.4, so it is not the
least multiple of 10 that is at least `max(50, p98)`. -/
theorem currentBigUnit_not_least_above_p98 :
    ¬ IsLeast {m : Int | 10 ∣ m ∧
          max (50 : ℚ) (p98 (windowAmounts 1 (List.replicate 200 ⟨1, 302 / 5⟩))) ≤ (m : ℚ)}
        (currentBigUnit none 1 (List.replicate 200 ⟨1, 302 / 5⟩)) := by
  have e1 : windowAmounts 1 (List.replicate 200 ⟨1, (302 / 5 : ℚ)⟩) =
      List.replicate 200 (302 / 5 : ℚ) := windowAmounts_replicate 1 1 _ 199 (by decide)
  have c1 : currentBigUnit none 1 (List.replicate 200 ⟨1, (302 / 5 : ℚ)⟩) = 60 := by
    rw [currentBigUnit_auto noOverride_none, e1,
      autoUnit_eq (by rw [List.length_replicate])
        (by rw [p98_replicate]; unfold inIntRange; rw [llround_sixty_point_four]; decide),
      p98_replicate, llround_sixty_point_four]
    decide
  rw [e1, p98_replicate, c1]
  intro h
  have h2 := h.1.2
  have h3 : (302 / 5 : ℚ) ≤ ((60 : Int) : ℚ) := le_trans (le_max_right _ _) h2
  norm_num at h3

/-- C8 (amended): with no manual override, at least 200 samples in the window and a
rounded 98th-percentile amount that fits the `int` range, `currentBigUnit` is the least
multiple of 10 that is at least `max(50, llround(p98))`, where `p98` is the element a
full ascending sort puts at index `floor((n-1)*0.98)`: the percentile is first rounded
to the nearest integer. -/
theorem currentBigUnit_least_above_rounded_p98 (spin : Option ℚ) (now : Int)
    (samples : List AmtSample) (h : noOverride spin)
    (hn : AUTO_MIN_SAMPLES ≤ (windowAmounts now samples).length)
    (hr : inIntRange (p98 (windowAmounts now samples))) :
    IsLeast {m : Int | 10 ∣ m ∧ max 50 (llround (p98 (windowAmounts now samples))) ≤ m}
      (currentBigUnit spin now samples) := by
  rw [currentBigUnit_auto h, autoUnit_eq hn hr]
  constructor
  · refine ⟨Dvd.intro_left _ rfl, ?_⟩
    omega
  · rintro m ⟨⟨c, rfl⟩, hm2⟩
    omega

theorem currentBigUnit_least_above_rounded_p98_witness :
    noOverride none ∧
      IsLeast {m : Int | 10 ∣ m ∧
          max 50 (llround (p98 (windowAmounts 1
            (List.replicate 200 ⟨1, ((123 : Nat) : ℚ)⟩)))) ≤ m}
        (currentBigUnit none 1 (List.replicate 200 ⟨1, ((123 : Nat) : ℚ)⟩)) :=
  ⟨noOverride_none,
    currentBigUnit_least_above_rounded_p98 none 1 (List.replicate 200 ⟨1, ((123 : Nat) : ℚ)⟩)
      noOverride_none
      (by rw [windowAmounts_replicate 1 1 _ 199 (by decide), List.length_replicate]; decide)
      (by
        rw [windowAmounts_replicate 1 1 _ 199 (by decide), p98_replicate]
        exact inIntRange_natCast (by decide))⟩

/-- C9: if the manual override rounds to an integer `m > 0`, `currentBigUnit` returns
exactly `m` whatever the sample window contains; with no override and fewer than 200
samples in the window it returns exactly 50. -/
theorem currentBigUnit_outside_percentile_regime :
    (∀ (v : ℚ) (m now : Int) (samples : List AmtSample),
        manualOf v = m → 0 < m → currentBigUnit (some v) now samples = m) ∧
      (∀ (spin : Option ℚ) (now : Int) (samples : List AmtSample),
        noOverride spin → (windowAmounts now samples).length < AUTO_MIN_SAMPLES →
          currentBigUnit spin now samples = 50) := by
  constructor
  · intro v m now samples hv hm
    subst hv
    simp only [currentBigUnit]
    rw [if_pos hm]
  · intro spin now samples h hn
    rw [currentBigUnit_auto h, autoUnit_small hn]

theorem currentBigUnit_outside_percentile_regime_witness :
    (manualOf ((7 : Nat) : ℚ) = 7 ∧ (0 : Int) < 7 ∧
        currentBigUnit (some ((7 : Nat) : ℚ)) 5 [⟨1, 900⟩] = 7) ∧
      (noOverride none ∧ (windowAmounts 5 [⟨1, 900⟩]).length < AUTO_MIN_SAMPLES ∧
        currentBigUnit none 5 [⟨1, 900⟩] = 50) := by
  have hm : manualOf ((7 : Nat) : ℚ) = 7 := by
    unfold manualOf
    rw [llround_natCast]
    decide
  have hl : (windowAmounts 5 [⟨1, 900⟩]).length < AUTO_MIN_SAMPLES := by
    unfold windowAmounts
    rw [List.length_map]
    exact lt_of_le_of_lt (List.dropWhile_sublist _).length_le (by decide)
  exact ⟨⟨hm, by decide,
      currentBigUnit_outside_percentile_regime.1 _ 7 5 [⟨1, 900⟩] hm (by decide)⟩,
    ⟨noOverride_none, hl,
      currentBigUnit_outside_percentile_regime.2 none 5 [⟨1, 900⟩] noOverride_none hl⟩⟩

/-! ## Amount-sample window -/

theorem dropWhile_old_ge (c : Int) (l : List AmtSample)
    (hs : l.Pairwise (fun x y => x.ts ≤ y.ts)) :
    ∀ s ∈ l.dropWhile (fun s => decide (s.ts < c)), c ≤ s.ts := by
  induction l with
  | nil => intro s hs; cases hs
  | cons a l ih =>
    rw [List.pairwise_cons] at hs
    rw [List.dropWhile_cons]
    by_cases ha : a.ts < c
    · simp only [ha, decide_True, if_true]
      exact ih hs.2
    · simp only [ha, decide_False]
      intro s hmem
      rcases List.mem_cons.mp hmem with h | h
      · subst h; omega
      · have := hs.1 s h
        omega

theorem orderedUpTo_append (bound ts : Int) (a : ℚ) (w : List AmtSample)
    (h : orderedUpTo bound w) (hb : bound ≤ ts) :
    (w ++ [(⟨ts, a⟩ : AmtSample)]).Pairwise (fun x y => x.ts ≤ y.ts) := by
  rw [List.pairwise_append]
  refine ⟨h.1, List.pairwise_singleton _ _, ?_⟩
  intro x hx y hy
  rw [List.mem_singleton] at hy
  subst hy
  exact le_trans (h.2 x hx) hb

theorem orderedUpTo_push (bound ts : Int) (a : ℚ) (w : List AmtSample)
    (h : orderedUpTo bound w) (hb : bound ≤ ts) :
    orderedUpTo ts (pushAmtSample ts a w) := by
  unfold pushAmtSample
  split
  · exact ⟨h.1, fun s hs => le_trans (h.2 s hs) hb⟩
  · have hp := orderedUpTo_append bound ts a w h hb
    have hsub : (pruneAmtSamples ts (w ++ [(⟨ts, a⟩ : AmtSample)])).Sublist
        (w ++ [(⟨ts, a⟩ : AmtSample)]) := List.dropWhile_sublist _
    refine ⟨hp.sublist hsub, ?_⟩
    intro s hs
    rcases List.mem_append.mp (hsub.subset hs) with h1 | h1
    · exact le_trans (h.2 s h1) hb
    · rw [List.mem_singleton] at h1
      subst h1
      exact le_refl _

theorem orderedUpTo_pushAll (calls : List (Int × ℚ)) :
    ∀ (bound : Int) (w : List AmtSample), orderedUpTo bound w →
      (∀ c ∈ calls, bound ≤ c.1) → calls.Pairwise (fun x y => x.1 ≤ y.1) →
      ∃ b, orderedUpTo b (pushAll calls w) ∧ (∀ t, (∀ c ∈ calls, c.1 ≤ t) → bound ≤ t → b ≤ t) := by
  induction calls with
  | nil =>
    intro bound w h _ _
    exact ⟨bound, h, fun t _ ht => ht⟩
  | cons c cs ih =>
    intro bound w h hb hp
    obtain ⟨ts, a⟩ := c
    rw [List.pairwise_cons] at hp
    have h1 := orderedUpTo_push bound ts a w h (hb (ts, a) (List.mem_cons_self _ _))
    obtain ⟨b, hb1, hb2⟩ := ih ts (pushAmtSample ts a w) h1
      (fun c hc => hp.1 c hc) hp.2
    refine ⟨b, hb1, ?_⟩
    intro t ht _
    exact hb2 t (fun c hc => ht c (List.mem_cons_of_mem _ hc)) (ht (ts, a) (List.mem_cons_self _ _))

/-- C10 (code at the failing input): after the pushes at day 10, day 1 and day 10 + 1 ms
(all with amount 1) the buffer still holds the day-1 sample, nine days older than the
last push: `pruneAmtSamples` stops at the front sample, which is fresh, and never reaches
the old one behind it.  The buffer is then not the last 24 hours of samples that its
declaration and the comments of `pushAmtSample` and `currentBigUnit` say it is. -/
theorem pushAmtSample_out_of_order_keeps_old :
    ¬ (∀ s ∈ pushAll [(864000000, 1), (86400000, 1), (864000001, 1)] [],
        864000001 - DAY_MS64 ≤ s.ts) := by
  intro h
  have hmem : (⟨86400000, 1⟩ : AmtSample) ∈
      pushAll [(864000000, 1), (86400000, 1), (864000001, 1)] [] := by
    simp [pushAll, pushAmtSample, pruneAmtSamples, DAY_MS64, List.dropWhile]
  have := h _ hmem
  simp [DAY_MS64] at this

/-- Where the front-only prune is enough: if the calls come with non-decreasing
timestamps, starting from the empty buffer, then after an accepted call
`pushAmtSample(ts, a)` (`a > 0` and `ts > 0`) every sample kept has timestamp at least
`ts - 24h`.  The buffer is then sorted, so the old samples are exactly those at the
front. -/
theorem pushAmtSample_trailing_window (calls : List (Int × ℚ)) (ts : Int) (a : ℚ)
    (hord : (calls ++ [(ts, a)]).Pairwise (fun x y => x.1 ≤ y.1))
    (ha : 0 < a) (hts : 0 < ts) :
    ∀ s ∈ pushAmtSample ts a (pushAll calls []), ts - DAY_MS64 ≤ s.ts := by
  rw [List.pairwise_append] at hord
  obtain ⟨hp, -, hlast⟩ := hord
  by_cases hc : calls = []
  · subst hc
    intro s hs
    simp only [pushAll, pushAmtSample] at hs
    rw [if_neg (by push_neg; exact ⟨ha, hts⟩)] at hs
    exact dropWhile_old_ge _ _ (by simp) s hs
  · obtain ⟨c0, hc0⟩ := List.exists_mem_of_ne_nil calls hc
    have hmin : ∃ m : Int, ∀ c ∈ calls, m ≤ c.1 := by
      clear hp hlast hc hc0
      induction calls with
      | nil => exact ⟨0, fun c hc => by cases hc⟩
      | cons c cs ih =>
        obtain ⟨m, hm⟩ := ih
        refine ⟨min m c.1, ?_⟩
        intro d hd
        rcases List.mem_cons.mp hd with h | h
        · subst h; exact min_le_right _ _
        · exact le_trans (min_le_left _ _) (hm d h)
    obtain ⟨m, hm⟩ := hmin
    obtain ⟨b, hb1, hb2⟩ := orderedUpTo_pushAll calls m [] ⟨List.Pairwise.nil, fun s hs => (by cases hs)⟩
      hm hp
    have hbt : b ≤ ts :=
      hb2 ts (fun c hc => hlast c hc (ts, a) (List.mem_singleton_self _))
        (le_trans (hm c0 hc0) (hlast c0 hc0 (ts, a) (List.mem_singleton_self _)))
    intro s hs
    unfold pushAmtSample at hs
    rw [if_neg (by push_neg; exact ⟨ha, hts⟩)] at hs
    exact dropWhile_old_ge _ _ (orderedUpTo_append b ts a _ hb1 hbt) s hs

/-! ## Rolling key window -/

theorem evictOld_consistent {α : Type} [DecidableEq α] (cutoff : Int) :
    ∀ (queue : List (Int × α)) (keys : List α),
      (KeyWindow.mk keys queue).consistent → (evictOld cutoff keys queue).consistent := by
  intro queue
  induction queue with
  | nil => intro keys h; exact h
  | cons e q ih =>
    intro keys h
    obtain ⟨t, k⟩ := e
    unfold evictOld
    by_cases ht : t < cutoff
    · rw [if_pos ht]
      apply ih
      obtain ⟨h1, h2⟩ := h
      simp only [List.map_cons, List.nodup_cons] at h2
      refine ⟨?_, h2.2⟩
      intro e he
      have hk : e.2 ≠ k := by
        intro hek
        exact h2.1 (hek ▸ List.mem_map_of_mem Prod.snd he)
      exact List.mem_filter.mpr ⟨h1 e (List.mem_cons_of_mem _ he), by simpa using hk⟩
    · rw [if_neg ht]
      exact h

theorem evictOld_holds {α : Type} [DecidableEq α] (cutoff t1 : Int) (x : α)
    (hc : cutoff ≤ t1) :
    ∀ (queue : List (Int × α)) (keys : List α),
      (KeyWindow.mk keys queue).holds x t1 → (evictOld cutoff keys queue).holds x t1 := by
  intro queue
  induction queue with
  | nil => intro keys h; exact h
  | cons e q ih =>
    intro keys h
    obtain ⟨t, k⟩ := e
    unfold evictOld
    by_cases ht : t < cutoff
    · rw [if_pos ht]
      apply ih
      obtain ⟨h1, h2⟩ := h
      have hk : x ≠ k := by
        intro hxk
        have := h2 (t, k) (List.mem_cons_self _ _) hxk.symm
        simp only at this
        omega
      exact ⟨List.mem_filter.mpr ⟨h1, by simpa using hk⟩,
        fun e he hx => h2 e (List.mem_cons_of_mem _ he) hx⟩
    · rw [if_neg ht]
      exact h

theorem alreadySeenTrade_consistent (id : String) (ts : Int) (s : KeyWindow String)
    (h : s.consistent) : (alreadySeenTrade id ts s).2.consistent := by
  have h1 := evictOld_consistent (ts - DAY_MS) s.queue s.keys h
  unfold alreadySeenTrade
  simp only []
  split
  · exact h1
  · rename_i hn
    refine ⟨?_, ?_⟩
    · intro e he
      rcases List.mem_append.mp he with h2 | h2
      · exact List.mem_cons_of_mem _ (h1.1 e h2)
      · rw [List.mem_singleton] at h2
        subst h2
        exact List.mem_cons_self _ _
    · simp only [List.map_append, List.map_cons, List.map_nil]
      rw [List.nodup_append]
      refine ⟨h1.2, List.nodup_singleton _, ?_⟩
      intro a ha hb
      rw [List.mem_singleton] at hb
      subst hb
      obtain ⟨e, he, rfl⟩ := List.mem_map.mp ha
      exact hn (h1.1 e he)

theorem seenAfter_consistent (calls : List (String × Int)) :
    ∀ s : KeyWindow String, s.consistent → (seenAfter calls s).consistent := by
  induction calls with
  | nil => intro s h; exact h
  | cons c cs ih =>
    intro s h
    obtain ⟨id, ts⟩ := c
    exact ih _ (alreadySeenTrade_consistent id ts s h)

theorem alreadySeenTrade_holds (id x : String) (ts t1 : Int) (s : KeyWindow String)
    (h : s.holds x t1) (hts : ts ≤ t1 + DAY_MS) : (alreadySeenTrade id ts s).2.holds x t1 := by
  have h1 := evictOld_holds (ts - DAY_MS) t1 x (by omega) s.queue s.keys h
  unfold alreadySeenTrade
  simp only []
  split
  · exact h1
  · rename_i hn
    have hne : id ≠ x := fun hx => hn (hx ▸ h1.1)
    refine ⟨List.mem_cons_of_mem _ h1.1, ?_⟩
    intro e he hx
    rcases List.mem_append.mp he with h2 | h2
    · exact h1.2 e h2 hx
    · rw [List.mem_singleton] at h2
      subst h2
      exact absurd hx hne

theorem seenAfter_holds (x : String) (t1 : Int) (calls : List (String × Int)) :
    ∀ s : KeyWindow String, s.holds x t1 → (∀ c ∈ calls, c.2 ≤ t1 + DAY_MS) →
      (seenAfter calls s).holds x t1 := by
  induction calls with
  | nil => intro s h _; exact h
  | cons c cs ih =>
    intro s h hc
    obtain ⟨id, ts⟩ := c
    exact ih _ (alreadySeenTrade_holds id x ts t1 s h (hc (id, ts) (List.mem_cons_self _ _)))
      (fun c hcm => hc c (List.mem_cons_of_mem _ hcm))

theorem alreadySeenTrade_new_holds (x : String) (t1 : Int) (s : KeyWindow String)
    (h : s.consistent) (hnew : (alreadySeenTrade x t1 s).1 = false) :
    (alreadySeenTrade x t1 s).2.holds x t1 := by
  have h1 := evictOld_consistent (t1 - DAY_MS) s.queue s.keys h
  unfold alreadySeenTrade at hnew ⊢
  simp only [] at hnew ⊢
  split
  · rename_i hm
    rw [if_pos hm] at hnew
    cases hnew
  · rename_i hn
    refine ⟨List.mem_cons_self _ _, ?_⟩
    intro e he hx
    rcases List.mem_append.mp he with h2 | h2
    · exact absurd (hx ▸ h1.1 e h2) hn
    · rw [List.mem_singleton] at h2
      subst h2
      exact le_refl _

theorem alreadySeenTrade_of_holds (x : String) (ts t1 : Int) (s : KeyWindow String)
    (h : s.holds x t1) (hts : ts ≤ t1 + DAY_MS) : (alreadySeenTrade x ts s).1 = true := by
  have h1 := evictOld_holds (ts - DAY_MS) t1 x (by omega) s.queue s.keys h
  unfold alreadySeenTrade
  simp only []
  rw [if_pos h1.1]

/-- C3 (as stated) fails: id `T1` is presented at time 0 and again one second later, but
a call for another id stamped two days later comes in between and evicts it, so both
calls for `T1` return "new". -/
theorem alreadySeenTrade_out_of_order_repeats :
    ¬ (|(1000 : Int) - 0| < DAY_MS →
        ¬ ((alreadySeenTrade "T1" 0 KeyWindow.empty).1 = false ∧
          (alreadySeenTrade "T1" 1000
            (seenAfter [("T2", 172800001)] (alreadySeenTrade "T1" 0 KeyWindow.empty).2)).1
              = false)) := by
  decide

/-- C3 (amended): for every sequence of `alreadySeenTrade` calls starting from the empty
deduplicator, if the same id is presented in two calls whose timestamps differ by less
than 24 hours and no call made between them carries a timestamp more than 24 hours after
the first one (as is the case when timestamps do not decrease), then at most one of the
two calls returns "new". -/
theorem alreadySeenTrade_duplicate_suppressed (pre mid : List (String × Int)) (x : String)
    (t1 t2 : Int) (hmid : ∀ c ∈ mid, c.2 ≤ t1 + DAY_MS) (h12 : |t2 - t1| < DAY_MS) :
    ¬ ((alreadySeenTrade x t1 (seenAfter pre KeyWindow.empty)).1 = false ∧
      (alreadySeenTrade x t2
        (seenAfter mid (alreadySeenTrade x t1 (seenAfter pre KeyWindow.empty)).2)).1 = false) := by
  rintro ⟨hnew, hnew2⟩
  have hc : (seenAfter pre (KeyWindow.empty : KeyWindow String)).consistent :=
    seenAfter_consistent pre _ ⟨fun e he => (by cases he), List.nodup_nil⟩
  have hh := alreadySeenTrade_new_holds x t1 _ hc hnew
  have hh2 := seenAfter_holds x t1 mid _ hh hmid
  have h3 := alreadySeenTrade_of_holds x t2 t1 _ hh2 (by
    have := (abs_lt.mp h12).2
    omega)
  rw [h3] at hnew2
  cases hnew2

theorem alreadySeenTrade_duplicate_suppressed_witness :
    (∀ c ∈ [("T2", (500 : Int))], c.2 ≤ 0 + DAY_MS) ∧ |(1000 : Int) - 0| < DAY_MS ∧
      ¬ ((alreadySeenTrade "T1" 0 (seenAfter [("T0", -5)] KeyWindow.empty)).1 = false ∧
        (alreadySeenTrade "T1" 1000
          (seenAfter [("T2", 500)]
            (alreadySeenTrade "T1" 0 (seenAfter [("T0", -5)] KeyWindow.empty)).2)).1 = false) :=
  ⟨by decide, by decide,
    alreadySeenTrade_duplicate_suppressed [("T0", -5)] [("T2", 500)] "T1" 0 1000
      (by decide) (by decide)⟩

/-! ## Residual position ledger -/

theorem applyTradeToResidual_rejected (env : Env) (unit : Int) (t : Trade) (L : Ledger)
    (h : accepted env unit t = false) : applyTradeToResidual env unit t L = L := by
  unfold accepted at h
  unfold applyTradeToResidual
  simp only []
  by_cases h1 : expiryFromInst env t.inst ≤ 0
  · rw [if_pos h1]
  · rw [if_neg h1]
    by_cases h2 : isBigTrade unit t.amount = true
    · rw [if_neg (by simpa using h2)]
      by_cases h3 : strikeFromInst env t.inst ≤ 0
      · rw [if_pos h3]
      · exfalso
        push_neg at h1 h3
        simp [h1, h2, h3] at h
    · rw [if_pos (by simpa using h2)]

theorem applyTradeToResidual_accepted (env : Env) (unit : Int) (t : Trade) (L : Ledger)
    (h : accepted env unit t = true) :
    residualForKey (applyTradeToResidual env unit t L) (keyOfInst env t.inst) =
        ((residualForKey L (keyOfInst env t.inst)).1 + qtyContribution t,
          (residualForKey L (keyOfInst env t.inst)).2 + dVolContribution env t) ∧
      ∀ K, K ≠ keyOfInst env t.inst →
        residualForKey (applyTradeToResidual env unit t L) K = residualForKey L K := by
  unfold accepted at h
  simp only [Bool.and_eq_true, decide_eq_true_eq] at h
  obtain ⟨⟨h1, h2⟩, h3⟩ := h
  unfold applyTradeToResidual
  simp only []
  rw [if_neg (by omega), if_neg (by simpa using h2), if_neg (by linarith)]
  constructor
  · unfold residualForKey keyOfInst qtyContribution dVolContribution sideSign
    simp only [Function.update_same, Option.getD_some]
    by_cases hs : 0 < t.sign
    · simp [hs]
    · simp [hs]
  · intro K hK
    unfold residualForKey
    unfold keyOfInst at hK
    simp only [Function.update_noteq hK]

theorem applyTrades_residual (env : Env) (unit : Int) (K : ClusterKey) (trades : List Trade) :
    ∀ L : Ledger,
      residualForKey (applyTrades env unit trades L) K =
        ((residualForKey L K).1 +
            ((trades.filter (fun t => accepted env unit t && decide (keyOfInst env t.inst = K))).map
              qtyContribution).sum,
          (residualForKey L K).2 +
            ((trades.filter (fun t => accepted env unit t && decide (keyOfInst env t.inst = K))).map
              (dVolContribution env)).sum) := by
  induction trades with
  | nil => intro L; simp [applyTrades]
  | cons t ts ih =>
    intro L
    unfold applyTrades
    rw [ih, List.filter_cons]
    by_cases ha : accepted env unit t = true
    · obtain ⟨e1, e2⟩ := applyTradeToResidual_accepted env unit t L ha
      by_cases hk : keyOfInst env t.inst = K
      · subst hk
        rw [e1]
        simp [ha, add_assoc]
      · rw [e2 K (Ne.symm hk)]
        simp [ha, hk]
    · rw [applyTradeToResidual_rejected env unit t L (by simpa using ha)]
      simp [ha]

theorem filter_accepted_key (env : Env) (unit : Int) (K : ClusterKey) (trades : List Trade)
    (hkey : ∀ t ∈ trades, keyOfInst env t.inst = K) :
    trades.filter (fun t => accepted env unit t && decide (keyOfInst env t.inst = K)) =
      trades.filter (accepted env unit) := by
  apply List.filter_congr
  intro t ht
  simp [hkey t ht]

/-- C2: with threshold, reference price and expiry map fixed, for every list of trades
whose instruments map to one cluster key and every permutation of it, applying the trades
to the empty Ledger gives the same final `qty` and delta-weighted volume for that key,
namely the sums over the accepted trades of `sideSign * |amount|` and of
`sideSign * |amount| * signedDelta`. -/
theorem applyTrades_order_independent (env : Env) (unit : Int) (K : ClusterKey)
    (trades trades2 : List Trade) (hperm : trades.Perm trades2)
    (hkey : ∀ t ∈ trades, keyOfInst env t.inst = K) :
    residualForKey (applyTrades env unit trades Ledger.empty) K =
        residualForKey (applyTrades env unit trades2 Ledger.empty) K ∧
      residualForKey (applyTrades env unit trades Ledger.empty) K =
        (((trades.filter (accepted env unit)).map qtyContribution).sum,
          ((trades.filter (accepted env unit)).map (dVolContribution env)).sum) := by
  have hkey2 : ∀ t ∈ trades2, keyOfInst env t.inst = K :=
    fun t ht => hkey t (hperm.symm.subset ht)
  have e0 : residualForKey Ledger.empty K = (0, 0) := rfl
  have e1 := applyTrades_residual env unit K trades Ledger.empty
  have e2 := applyTrades_residual env unit K trades2 Ledger.empty
  rw [filter_accepted_key env unit K trades hkey, e0] at e1
  rw [filter_accepted_key env unit K trades2 hkey2, e0] at e2
  simp only [zero_add] at e1 e2
  refine ⟨?_, e1⟩
  rw [e1, e2]
  have hp := hperm.filter (fun t => accepted env unit t)
  rw [(hp.map qtyContribution).sum_eq, (hp.map (dVolContribution env)).sum_eq]

theorem applyTrades_order_independent_witness :
    [demoBuy, demoSell].Perm [demoSell, demoBuy] ∧
      (∀ t ∈ [demoBuy, demoSell],
        keyOfInst demoEnv t.inst = keyOfInst demoEnv "BTC-27DEC24-50000-C") ∧
      (residualForKey (applyTrades demoEnv 50 [demoBuy, demoSell] Ledger.empty)
            (keyOfInst demoEnv "BTC-27DEC24-50000-C") =
          residualForKey (applyTrades demoEnv 50 [demoSell, demoBuy] Ledger.empty)
            (keyOfInst demoEnv "BTC-27DEC24-50000-C") ∧
        residualForKey (applyTrades demoEnv 50 [demoBuy, demoSell] Ledger.empty)
            (keyOfInst demoEnv "BTC-27DEC24-50000-C") =
          ((([demoBuy, demoSell].filter (accepted demoEnv 50)).map qtyContribution).sum,
            (([demoBuy, demoSell].filter (accepted demoEnv 50)).map
              (dVolContribution demoEnv)).sum)) :=
  ⟨List.Perm.swap _ _ _, by simp [demoBuy, demoSell],
    applyTrades_order_independent demoEnv 50 (keyOfInst demoEnv "BTC-27DEC24-50000-C")
      [demoBuy, demoSell] [demoSell, demoBuy] (List.Perm.swap _ _ _)
      (by simp [demoBuy, demoSell])⟩

theorem strikeFromInst_demo : strikeFromInst demoEnv "BTC-27DEC24-50000-C" = 50000 := by
  have h : 4 ≤ (splitOnChar '-' "BTC-27DEC24-50000-C".data).length := by decide
  unfold strikeFromInst
  simp only []
  rw [if_pos h]
  rfl

theorem accepted_demoBuy : accepted demoEnv 50 demoBuy = true := by
  unfold accepted
  simp only [demoBuy, strikeFromInst_demo]
  simp only [isBigTrade, expiryFromInst, demoEnv]
  norm_num

theorem accepted_demoSell : accepted demoEnv 50 demoSell = true := by
  unfold accepted
  simp only [demoSell, strikeFromInst_demo]
  simp only [isBigTrade, expiryFromInst, demoEnv]
  norm_num

/-- The worked example of the specification: a buy of 120 followed by a sell of 80 in the
same cluster, threshold 50, leaves `qty = 40` (and delta-weighted volume 20 at delta
1/2). -/
theorem applyTrades_demo_value :
    residualForKey (applyTrades demoEnv 50 [demoBuy, demoSell] Ledger.empty)
      (keyOfInst demoEnv "BTC-27DEC24-50000-C") = (40, 20) := by
  rw [applyTrades_residual, filter_accepted_key demoEnv 50 _ _ (by simp [demoBuy, demoSell])]
  have e0 : residualForKey Ledger.empty (keyOfInst demoEnv "BTC-27DEC24-50000-C") = (0, 0) := rfl
  rw [e0]
  have hc : isCallFromInst "BTC-27DEC24-50000-C" = true := by decide
  simp only [List.filter_cons, accepted_demoBuy, accepted_demoSell, if_true, List.filter_nil,
    List.map_cons, List.map_nil, List.sum_cons, List.sum_nil, qtyContribution,
    dVolContribution, sideSign, deltaSigned]
  simp only [demoBuy, demoSell, strikeFromInst_demo, hc]
  have habs : |(1 / 2 : ℚ)| = 1 / 2 := abs_of_pos (by norm_num)
  rw [habs]
  norm_num

/-! ## Burst detector -/

theorem absorb_lastMs (ev : TradeEvent) (isBuy isCall : Bool) (k dS : ℚ)
    (bursts : List FlowBurst) : (absorb ev isBuy isCall k dS bursts).2.2.lastMs = ev.tsMs := by
  unfold absorb
  split
  · rfl
  · split <;> rfl

theorem absorb_mem (ev : TradeEvent) (isBuy isCall : Bool) (k dS : ℚ)
    (bursts : List FlowBurst) :
    (absorb ev isBuy isCall k dS bursts).2.2 ∈ (absorb ev isBuy isCall k dS bursts).1 := by
  unfold absorb
  split
  · simp
  · rename_i i _
    split
    · rename_i b hb
      have hi : i < bursts.length := by
        rw [List.get?_eq_some] at hb
        exact hb.1
      exact List.mem_set _ _ hi _
    · simp

/-- The outcome of one detector call: either nothing is emitted and the signal window is
untouched, or the touched burst meets the firing condition and the call went through
the de-duplication block. -/
theorem onNewTradeForBurst_cases (env : Env) (bigUnit gateUnit : Int) (ev : TradeEvent)
    (d : Detector) :
    ((onNewTradeForBurst env bigUnit gateUnit ev d).emitted = d.emitted ∧
        (onNewTradeForBurst env bigUnit gateUnit ev d).signalWindow = d.signalWindow) ∨
      (fires bigUnit (touchedBurst env ev d) = true ∧
        ((signalKeyOf env (touchedBurst env ev d) ∈
              (evictOld (ev.tsMs - SIGNAL_DEDUP_MS) d.signalWindow.keys
                d.signalWindow.queue).keys ∧
            (onNewTradeForBurst env bigUnit gateUnit ev d).emitted = d.emitted ∧
            (onNewTradeForBurst env bigUnit gateUnit ev d).signalWindow =
              evictOld (ev.tsMs - SIGNAL_DEDUP_MS) d.signalWindow.keys d.signalWindow.queue) ∨
          (signalKeyOf env (touchedBurst env ev d) ∉
              (evictOld (ev.tsMs - SIGNAL_DEDUP_MS) d.signalWindow.keys
                d.signalWindow.queue).keys ∧
            (onNewTradeForBurst env bigUnit gateUnit ev d).emitted =
              d.emitted ++ [(touchedBurst env ev d, burstExpiry env (touchedBurst env ev d))] ∧
            (onNewTradeForBurst env bigUnit gateUnit ev d).signalWindow =
              ⟨signalKeyOf env (touchedBurst env ev d) ::
                  (evictOld (ev.tsMs - SIGNAL_DEDUP_MS) d.signalWindow.keys
                    d.signalWindow.queue).keys,
                (evictOld (ev.tsMs - SIGNAL_DEDUP_MS) d.signalWindow.keys
                    d.signalWindow.queue).queue ++
                  [(ev.tsMs, signalKeyOf env (touchedBurst env ev d))]⟩))) := by
  unfold onNewTradeForBurst touchedBurst
  simp only [absorb_lastMs]
  split
  · exact Or.inl ⟨rfl, rfl⟩
  · split
    · exact Or.inl ⟨rfl, rfl⟩
    · split
      · exact Or.inl ⟨rfl, rfl⟩
      · split
        · rename_i hf
          right
          refine ⟨hf, ?_⟩
          split
          · rename_i hm
            exact Or.inl ⟨hm, rfl, rfl⟩
          · rename_i hm
            exact Or.inr ⟨hm, rfl, rfl⟩
        · exact Or.inl ⟨rfl, rfl⟩

theorem append_singleton_ne_self {α : Type} (l : List α) (x : α) : l ≠ l ++ [x] := by
  intro h
  have := congrArg List.length h
  simp at this

theorem fires_iff (bigUnit : Int) (b : FlowBurst) :
    fires bigUnit b = true ↔ ((bigUnit : ℚ) * 5 ≤ b.qtySum ∨ (bigUnit : ℚ) * 2 ≤ |b.dVolSum|) := by
  unfold fires
  exact decide_eq_true_iff

theorem onNewTradeForBurst_fresh (env : Env) (u g : Int) (ev : TradeEvent) (d : Detector)
    (hb : d.bursts = []) (hk : 0 < strikeFromInst env ev.instrument)
    (hbig : isBigTrade g ev.amount = true) (hq : (u : ℚ) * 5 ≤ |ev.amount|)
    (hu : (u : ℚ) ≤ |ev.amount|) :
    onNewTradeForBurst env u g ev d =
      if signalKeyOf env (touchedBurst env ev d) ∈
          (evictOld (ev.tsMs - SIGNAL_DEDUP_MS) d.signalWindow.keys d.signalWindow.queue).keys
      then ⟨[], evictOld (ev.tsMs - SIGNAL_DEDUP_MS) d.signalWindow.keys d.signalWindow.queue,
        d.emitted⟩
      else ⟨[], ⟨signalKeyOf env (touchedBurst env ev d) ::
            (evictOld (ev.tsMs - SIGNAL_DEDUP_MS) d.signalWindow.keys d.signalWindow.queue).keys,
          (evictOld (ev.tsMs - SIGNAL_DEDUP_MS) d.signalWindow.keys d.signalWindow.queue).queue ++
            [(ev.tsMs, signalKeyOf env (touchedBurst env ev d))]⟩,
        d.emitted ++ [(touchedBurst env ev d, burstExpiry env (touchedBurst env ev d))]⟩ := by
  have ha : absorb ev (decide (0 < ev.sign)) (isCallFromInst ev.instrument)
      (strikeFromInst env ev.instrument)
      (deltaSigned env (isCallFromInst ev.instrument) (strikeFromInst env ev.instrument) ev.delta)
      (evictBursts ev.tsMs d.bursts) =
      ([newBurst ev (decide (0 < ev.sign)) (isCallFromInst ev.instrument)
          (strikeFromInst env ev.instrument)
          (deltaSigned env (isCallFromInst ev.instrument) (strikeFromInst env ev.instrument)
            ev.delta)], 0,
        newBurst ev (decide (0 < ev.sign)) (isCallFromInst ev.instrument)
          (strikeFromInst env ev.instrument)
          (deltaSigned env (isCallFromInst ev.instrument) (strikeFromInst env ev.instrument)
            ev.delta)) := by
    rw [hb]
    rfl
  unfold onNewTradeForBurst touchedBurst
  simp only [ha]
  rw [if_neg (by linarith), if_neg (by simpa using hbig)]
  have hq2 : ¬ (newBurst ev (decide (0 < ev.sign)) (isCallFromInst ev.instrument)
      (strikeFromInst env ev.instrument)
      (deltaSigned env (isCallFromInst ev.instrument) (strikeFromInst env ev.instrument)
        ev.delta)).qtySum < (u : ℚ) := by
    simp only [newBurst]
    linarith
  rw [if_neg hq2, if_pos ((fires_iff _ _).mpr (Or.inl (by simpa [newBurst] using hq)))]
  simp only [newBurst, List.eraseIdx_cons_zero]

/-- C5: whenever `onNewTradeForBurst` emits a signal, the emitted burst is the burst the
trade opened or was merged into and it satisfies `qtySum >= 5*bigUnit` or
`|dVolSum| >= 2*bigUnit`; a call emits at most one signal; and when the trade passes the
entry guards and its burst has `qtySum < 5*bigUnit` and `|dVolSum| < 2*bigUnit`, nothing
is emitted and the burst stays in the list of open bursts. -/
theorem burst_fires_only_at_threshold (env : Env) (bigUnit gateUnit : Int) (ev : TradeEvent)
    (d : Detector) :
    (∀ x, (onNewTradeForBurst env bigUnit gateUnit ev d).emitted = d.emitted ++ [x] →
        x.1 = touchedBurst env ev d ∧
          ((bigUnit : ℚ) * 5 ≤ x.1.qtySum ∨ (bigUnit : ℚ) * 2 ≤ |x.1.dVolSum|)) ∧
      ((onNewTradeForBurst env bigUnit gateUnit ev d).emitted = d.emitted ∨
        ∃ x, (onNewTradeForBurst env bigUnit gateUnit ev d).emitted = d.emitted ++ [x]) ∧
      (0 < strikeFromInst env ev.instrument → isBigTrade gateUnit ev.amount = true →
        (touchedBurst env ev d).qtySum < (bigUnit : ℚ) * 5 →
        |(touchedBurst env ev d).dVolSum| < (bigUnit : ℚ) * 2 →
        (onNewTradeForBurst env bigUnit gateUnit ev d).emitted = d.emitted ∧
          touchedBurst env ev d ∈ (onNewTradeForBurst env bigUnit gateUnit ev d).bursts) := by
  refine ⟨?_, ?_, ?_⟩
  · intro x hx
    rcases onNewTradeForBurst_cases env bigUnit gateUnit ev d with h | ⟨hf, h | h⟩
    · exact absurd (h.1.symm.trans hx) (append_singleton_ne_self _ _)
    · exact absurd (h.2.1.symm.trans hx) (append_singleton_ne_self _ _)
    · have e := h.2.1.symm.trans hx
      have e2 := List.append_cancel_left e
      simp only [List.cons.injEq, and_true] at e2
      subst e2
      exact ⟨rfl, (fires_iff _ _).mp hf⟩
  · rcases onNewTradeForBurst_cases env bigUnit gateUnit ev d with h | ⟨_, h | h⟩
    · exact Or.inl h.1
    · exact Or.inl h.2.1
    · exact Or.inr ⟨_, h.2.1⟩
  · intro hk hbig hq hd
    have hnf : ¬ fires bigUnit (touchedBurst env ev d) = true := by
      rw [fires_iff]
      push_neg
      exact ⟨hq, hd⟩
    have hmem := absorb_mem ev (decide (0 < ev.sign)) (isCallFromInst ev.instrument)
      (strikeFromInst env ev.instrument)
      (deltaSigned env (isCallFromInst ev.instrument) (strikeFromInst env ev.instrument) ev.delta)
      (evictBursts ev.tsMs d.bursts)
    unfold touchedBurst at hnf ⊢
    unfold onNewTradeForBurst
    simp only []
    rw [if_neg (by linarith), if_neg (by simpa using hbig), if_neg hnf]
    split <;> exact ⟨rfl, hmem⟩

theorem isCallFromInst_demo : isCallFromInst "BTC-27DEC24-50000-C" = true := by decide

theorem deltaSigned_demo : deltaSigned demoEnv true 50000 (1 / 2) = 1 / 2 := by
  unfold deltaSigned
  have habs : |(1 / 2 : ℚ)| = 1 / 2 := abs_of_pos (by norm_num)
  simp only [habs]
  norm_num

theorem touchedBurst_demo (ts : Int) (a : ℚ) (d : Detector) (hb : d.bursts = []) :
    touchedBurst demoEnv (demoEv ts a) d =
      ⟨ts, ts, true, true, 50000, |a|, 1 * |a| * (1 / 2), 1, ["BTC-27DEC24-50000-C"]⟩ := by
  unfold touchedBurst
  rw [hb]
  simp only [demoEv, strikeFromInst_demo, isCallFromInst_demo, deltaSigned_demo]
  simp [absorb, evictBursts, findBest, findBestFrom, newBurst]

theorem isBigTrade_demo (a : ℚ) (h : 50 ≤ a) : isBigTrade 50 a = true := by
  unfold isBigTrade
  rw [abs_of_nonneg (by linarith)]
  simpa using h

theorem onNewTradeForBurst_demo_fire :
    (onNewTradeForBurst demoEnv 50 50 (demoEv 0 300) Detector.empty).emitted =
      Detector.empty.emitted ++
        [(touchedBurst demoEnv (demoEv 0 300) Detector.empty,
          burstExpiry demoEnv (touchedBurst demoEnv (demoEv 0 300) Detector.empty))] := by
  have h300 : |(300 : ℚ)| = 300 := abs_of_pos (by norm_num)
  rw [onNewTradeForBurst_fresh demoEnv 50 50 (demoEv 0 300) Detector.empty rfl
    (by simp only [demoEv, strikeFromInst_demo]; norm_num)
    (isBigTrade_demo 300 (by norm_num))
    (by simp only [demoEv, h300]; norm_num) (by simp only [demoEv, h300]; norm_num)]
  rw [if_neg (by simp [Detector.empty, KeyWindow.empty, evictOld])]

theorem burst_fires_only_at_threshold_witness :
    ((onNewTradeForBurst demoEnv 50 50 (demoEv 0 300) Detector.empty).emitted =
        Detector.empty.emitted ++
          [(touchedBurst demoEnv (demoEv 0 300) Detector.empty,
            burstExpiry demoEnv (touchedBurst demoEnv (demoEv 0 300) Detector.empty))] ∧
      (((50 : Int) : ℚ) * 5 ≤ (touchedBurst demoEnv (demoEv 0 300) Detector.empty).qtySum ∨
        ((50 : Int) : ℚ) * 2 ≤
          |(touchedBurst demoEnv (demoEv 0 300) Detector.empty).dVolSum|)) ∧
      (0 < strikeFromInst demoEnv (demoEv 0 120).instrument ∧
        isBigTrade 50 (demoEv 0 120).amount = true ∧
        (touchedBurst demoEnv (demoEv 0 120) Detector.empty).qtySum < ((50 : Int) : ℚ) * 5 ∧
        |(touchedBurst demoEnv (demoEv 0 120) Detector.empty).dVolSum| < ((50 : Int) : ℚ) * 2 ∧
        (onNewTradeForBurst demoEnv 50 50 (demoEv 0 120) Detector.empty).emitted =
          Detector.empty.emitted ∧
        touchedBurst demoEnv (demoEv 0 120) Detector.empty ∈
          (onNewTradeForBurst demoEnv 50 50 (demoEv 0 120) Detector.empty).bursts) := by
  have h120 : |(120 : ℚ)| = 120 := abs_of_pos (by norm_num)
  have h60 : |(1 * 120 * (1 / 2) : ℚ)| = 60 := by
    rw [abs_of_pos (by norm_num)]; norm_num
  have hk : 0 < strikeFromInst demoEnv (demoEv 0 120).instrument := by
    simp only [demoEv, strikeFromInst_demo]; norm_num
  have hbig : isBigTrade 50 (demoEv 0 120).amount = true := isBigTrade_demo 120 (by norm_num)
  have hq : (touchedBurst demoEnv (demoEv 0 120) Detector.empty).qtySum < ((50 : Int) : ℚ) * 5 := by
    rw [touchedBurst_demo 0 120 Detector.empty rfl]
    simp only [h120]; norm_num
  have hd : |(touchedBurst demoEnv (demoEv 0 120) Detector.empty).dVolSum| <
      ((50 : Int) : ℚ) * 2 := by
    rw [touchedBurst_demo 0 120 Detector.empty rfl]
    simp only [h120, h60]; norm_num
  exact ⟨⟨onNewTradeForBurst_demo_fire,
      ((burst_fires_only_at_threshold demoEnv 50 50 (demoEv 0 300) Detector.empty).1 _
        onNewTradeForBurst_demo_fire).2⟩,
    hk, hbig, hq, hd,
    (burst_fires_only_at_threshold demoEnv 50 50 (demoEv 0 120) Detector.empty).2.2 hk hbig hq hd⟩

/-! ## Signal de-duplication -/

theorem consistent_insert {α : Type} (w : KeyWindow α) (k : α) (t : Int) (h : w.consistent)
    (hn : k ∉ w.keys) : (KeyWindow.mk (k :: w.keys) (w.queue ++ [(t, k)])).consistent := by
  refine ⟨?_, ?_⟩
  · intro e he
    rcases List.mem_append.mp he with h2 | h2
    · exact List.mem_cons_of_mem _ (h.1 e h2)
    · rw [List.mem_singleton] at h2
      subst h2
      exact List.mem_cons_self _ _
  · simp only [List.map_append, List.map_cons, List.map_nil]
    rw [List.nodup_append]
    refine ⟨h.2, List.nodup_singleton _, ?_⟩
    intro a ha hb
    rw [List.mem_singleton] at hb
    subst hb
    obtain ⟨e, he, rfl⟩ := List.mem_map.mp ha
    exact hn (h.1 e he)

theorem holds_insert_new {α : Type} (w : KeyWindow α) (k : α) (t : Int) (h : w.consistent)
    (hn : k ∉ w.keys) : (KeyWindow.mk (k :: w.keys) (w.queue ++ [(t, k)])).holds k t := by
  refine ⟨List.mem_cons_self _ _, ?_⟩
  intro e he hx
  rcases List.mem_append.mp he with h2 | h2
  · exact absurd (hx ▸ h.1 e h2) hn
  · rw [List.mem_singleton] at h2
    subst h2
    exact le_refl _

theorem holds_insert_other {α : Type} (w : KeyWindow α) (k x : α) (t t1 : Int)
    (h : w.holds x t1) (hne : k ≠ x) :
    (KeyWindow.mk (k :: w.keys) (w.queue ++ [(t, k)])).holds x t1 := by
  refine ⟨List.mem_cons_of_mem _ h.1, ?_⟩
  intro e he hx
  rcases List.mem_append.mp he with h2 | h2
  · exact h.2 e h2 hx
  · rw [List.mem_singleton] at h2
    subst h2
    exact absurd hx hne

theorem onNewTradeForBurst_consistent (env : Env) (u g : Int) (ev : TradeEvent) (d : Detector)
    (h : d.signalWindow.consistent) :
    (onNewTradeForBurst env u g ev d).signalWindow.consistent := by
  have hw := evictOld_consistent (ev.tsMs - SIGNAL_DEDUP_MS) d.signalWindow.queue
    d.signalWindow.keys h
  rcases onNewTradeForBurst_cases env u g ev d with h1 | ⟨_, h1 | h1⟩
  · rw [h1.2]; exact h
  · rw [h1.2.2]; exact hw
  · rw [h1.2.2]; exact consistent_insert _ _ _ hw h1.1

theorem runDetector_consistent (env : Env) (calls : List BurstCall) :
    ∀ d : Detector, d.signalWindow.consistent →
      (runDetector env calls d).signalWindow.consistent := by
  induction calls with
  | nil => intro d h; exact h
  | cons c cs ih =>
    intro d h
    exact ih _ (onNewTradeForBurst_consistent env c.bigUnit c.gateUnit c.ev d h)

theorem onNewTradeForBurst_holds (env : Env) (u g : Int) (ev : TradeEvent) (d : Detector)
    (K : SignalKey) (t1 : Int) (h : d.signalWindow.holds K t1)
    (hts : ev.tsMs ≤ t1 + SIGNAL_DEDUP_MS) :
    (onNewTradeForBurst env u g ev d).signalWindow.holds K t1 ∧
      ((onNewTradeForBurst env u g ev d).emitted = d.emitted ∨
        ∃ x, (onNewTradeForBurst env u g ev d).emitted = d.emitted ++ [x] ∧
          signalKeyOf env x.1 ≠ K) := by
  have hw := evictOld_holds (ev.tsMs - SIGNAL_DEDUP_MS) t1 K (by omega) d.signalWindow.queue
    d.signalWindow.keys h
  rcases onNewTradeForBurst_cases env u g ev d with h1 | ⟨_, h1 | h1⟩
  · rw [h1.2]; exact ⟨h, Or.inl h1.1⟩
  · rw [h1.2.2]; exact ⟨hw, Or.inl h1.2.1⟩
  · have hne : signalKeyOf env (touchedBurst env ev d) ≠ K := fun e => h1.1 (e ▸ hw.1)
    rw [h1.2.2]
    exact ⟨holds_insert_other _ _ _ _ _ hw hne, Or.inr ⟨_, h1.2.1, hne⟩⟩

theorem runDetector_holds (env : Env) (K : SignalKey) (t1 : Int) (calls : List BurstCall) :
    ∀ d : Detector, d.signalWindow.holds K t1 →
      (∀ c ∈ calls, c.ev.tsMs ≤ t1 + SIGNAL_DEDUP_MS) →
      ∃ extra, (runDetector env calls d).emitted = d.emitted ++ extra ∧
        ∀ x ∈ extra, signalKeyOf env x.1 ≠ K := by
  induction calls with
  | nil =>
    intro d _ _
    exact ⟨[], by simp [runDetector], fun x hx => by cases hx⟩
  | cons c cs ih =>
    intro d h hc
    obtain ⟨h1, h2⟩ := onNewTradeForBurst_holds env c.bigUnit c.gateUnit c.ev d K t1 h
      (hc c (List.mem_cons_self _ _))
    obtain ⟨extra, he1, he2⟩ := ih _ h1 (fun c2 hc2 => hc c2 (List.mem_cons_of_mem _ hc2))
    unfold runDetector
    rcases h2 with h2 | ⟨x, hx1, hx2⟩
    · exact ⟨extra, by rw [he1, h2], he2⟩
    · refine ⟨x :: extra, by rw [he1, hx1, List.append_assoc, List.singleton_append], ?_⟩
      intro y hy
      rcases List.mem_cons.mp hy with h3 | h3
      · subst h3; exact hx2
      · exact he2 y h3

theorem onNewTradeForBurst_demo_step (ts : Int) (d : Detector) (hb : d.bursts = []) :
    onNewTradeForBurst demoEnv 50 50 (demoEv ts 300) d =
      if demoKey ts ∈
          (evictOld (ts - SIGNAL_DEDUP_MS) d.signalWindow.keys d.signalWindow.queue).keys
      then ⟨[], evictOld (ts - SIGNAL_DEDUP_MS) d.signalWindow.keys d.signalWindow.queue,
        d.emitted⟩
      else ⟨[], ⟨demoKey ts ::
            (evictOld (ts - SIGNAL_DEDUP_MS) d.signalWindow.keys d.signalWindow.queue).keys,
          (evictOld (ts - SIGNAL_DEDUP_MS) d.signalWindow.keys d.signalWindow.queue).queue ++
            [(ts, demoKey ts)]⟩,
        d.emitted ++ [(demoBurst ts, 1000000)]⟩ := by
  have h300 : |(300 : ℚ)| = 300 := abs_of_pos (by norm_num)
  have hk : signalKeyOf demoEnv (demoBurst ts) = demoKey ts := rfl
  have he : burstExpiry demoEnv (demoBurst ts) = 1000000 := rfl
  rw [onNewTradeForBurst_fresh demoEnv 50 50 (demoEv ts 300) d hb
    (by simp only [demoEv, strikeFromInst_demo]; norm_num)
    (isBigTrade_demo 300 (by norm_num))
    (by simp only [demoEv, h300]; norm_num) (by simp only [demoEv, h300]; norm_num)]
  rw [touchedBurst_demo ts 300 d hb]
  rfl

theorem demoKey_ne : demoKey 1000 ≠ demoKey 1000000 := by
  unfold demoKey
  intro h
  have := congrArg SignalKey.bucket h
  revert this
  decide

theorem runDetector_demoCalls_emitted :
    (runDetector demoEnv demoCalls Detector.empty).emitted =
      [(demoBurst 0, 1000000), (demoBurst 1000000, 1000000), (demoBurst 1000, 1000000)] := by
  have s1 : onNewTradeForBurst demoEnv 50 50 (demoEv 0 300) Detector.empty =
      ⟨[], ⟨[demoKey 0], [(0, demoKey 0)]⟩, [(demoBurst 0, 1000000)]⟩ := by
    rw [onNewTradeForBurst_demo_step 0 Detector.empty rfl]
    simp [Detector.empty, KeyWindow.empty, evictOld]
  have s2 : onNewTradeForBurst demoEnv 50 50 (demoEv 1000000 300)
      ⟨[], ⟨[demoKey 0], [(0, demoKey 0)]⟩, [(demoBurst 0, 1000000)]⟩ =
      ⟨[], ⟨[demoKey 1000000], [(1000000, demoKey 1000000)]⟩,
        [(demoBurst 0, 1000000), (demoBurst 1000000, 1000000)]⟩ := by
    rw [onNewTradeForBurst_demo_step 1000000 _ rfl]
    simp [evictOld, SIGNAL_DEDUP_MS]
  have s3 : onNewTradeForBurst demoEnv 50 50 (demoEv 1000 300)
      ⟨[], ⟨[demoKey 1000000], [(1000000, demoKey 1000000)]⟩,
        [(demoBurst 0, 1000000), (demoBurst 1000000, 1000000)]⟩ =
      ⟨[], ⟨[demoKey 1000, demoKey 1000000], [(1000000, demoKey 1000000), (1000, demoKey 1000)]⟩,
        [(demoBurst 0, 1000000), (demoBurst 1000000, 1000000), (demoBurst 1000, 1000000)]⟩ := by
    rw [onNewTradeForBurst_demo_step 1000 _ rfl]
    simp [evictOld, SIGNAL_DEDUP_MS, demoKey_ne]
  simp only [demoCalls, runDetector, s1, s2, s3]

/-- C4 (as stated) fails: three bursts of 300 contracts fire at 0 ms, 1 000 000 ms and
1 000 ms (order of arrival).  The second firing evicts the key of the first, so the third
burst emits a second signal with the key of the first although its last timestamp is
only one second after the first firing. -/
theorem signal_key_repeats_out_of_order :
    ¬ (∀ (i j : Nat) (x y : FlowBurst × Int), i < j →
        (runDetector demoEnv demoCalls Detector.empty).emitted.get? i = some x →
        (runDetector demoEnv demoCalls Detector.empty).emitted.get? j = some y →
        signalKeyOf demoEnv x.1 = signalKeyOf demoEnv y.1 →
        ¬ |y.1.lastMs - x.1.lastMs| ≤ SIGNAL_DEDUP_MS) := by
  intro h
  rw [runDetector_demoCalls_emitted] at h
  exact h 0 2 (demoBurst 0, 1000000) (demoBurst 1000, 1000000) (by decide) rfl rfl rfl
    (by decide)

/-- C4 (amended): for every sequence of calls of `onNewTradeForBurst` from the initial
detector, once a call has emitted a signal for a burst with last timestamp `t1`, no later
call emits a signal with the identical de-duplication key (expiry, call/put, rounded
strike, 30-second bucket) as long as every trade fed since then is stamped at most
`t1 + 90 s` (as is the case when timestamps do not decrease and the later burst ends
within 90 seconds of the first firing). -/
theorem signal_key_not_repeated (env : Env) (pre mid : List BurstCall) (c1 : BurstCall)
    (b1 : FlowBurst) (e1 : Int)
    (h1 : (onNewTradeForBurst env c1.bigUnit c1.gateUnit c1.ev
            (runDetector env pre Detector.empty)).emitted =
          (runDetector env pre Detector.empty).emitted ++ [(b1, e1)])
    (hmid : ∀ c ∈ mid, c.ev.tsMs ≤ b1.lastMs + SIGNAL_DEDUP_MS) :
    ∃ extra,
      (runDetector env mid (onNewTradeForBurst env c1.bigUnit c1.gateUnit c1.ev
          (runDetector env pre Detector.empty))).emitted =
        (onNewTradeForBurst env c1.bigUnit c1.gateUnit c1.ev
          (runDetector env pre Detector.empty)).emitted ++ extra ∧
      ∀ x ∈ extra, signalKeyOf env x.1 ≠ signalKeyOf env b1 := by
  have hc : (runDetector env pre Detector.empty).signalWindow.consistent :=
    runDetector_consistent env pre _ ⟨fun e he => (by cases he), List.nodup_nil⟩
  have hw := evictOld_consistent (c1.ev.tsMs - SIGNAL_DEDUP_MS)
    (runDetector env pre Detector.empty).signalWindow.queue
    (runDetector env pre Detector.empty).signalWindow.keys hc
  have hl : (touchedBurst env c1.ev (runDetector env pre Detector.empty)).lastMs = c1.ev.tsMs :=
    absorb_lastMs _ _ _ _ _ _
  apply runDetector_holds env (signalKeyOf env b1) b1.lastMs mid _ _ hmid
  rcases onNewTradeForBurst_cases env c1.bigUnit c1.gateUnit c1.ev
    (runDetector env pre Detector.empty) with h | ⟨_, h | h⟩
  · exact absurd (h.1.symm.trans h1) (append_singleton_ne_self _ _)
  · exact absurd (h.2.1.symm.trans h1) (append_singleton_ne_self _ _)
  · have e := List.append_cancel_left (h.2.1.symm.trans h1)
    simp only [List.cons.injEq, and_true, Prod.mk.injEq] at e
    rw [h.2.2, ← e.1, hl]
    exact holds_insert_new _ _ _ hw h.1

theorem signal_key_not_repeated_witness :
    (onNewTradeForBurst demoEnv 50 50 (demoEv 0 300)
          (runDetector demoEnv [] Detector.empty)).emitted =
        (runDetector demoEnv [] Detector.empty).emitted ++
          [(touchedBurst demoEnv (demoEv 0 300) Detector.empty,
            burstExpiry demoEnv (touchedBurst demoEnv (demoEv 0 300) Detector.empty))] ∧
      (∀ c ∈ [(⟨50, 50, demoEv 1000 300⟩ : BurstCall)],
        c.ev.tsMs ≤ (touchedBurst demoEnv (demoEv 0 300) Detector.empty).lastMs +
          SIGNAL_DEDUP_MS) ∧
      ∃ extra,
        (runDetector demoEnv [⟨50, 50, demoEv 1000 300⟩]
            (onNewTradeForBurst demoEnv 50 50 (demoEv 0 300)
              (runDetector demoEnv [] Detector.empty))).emitted =
          (onNewTradeForBurst demoEnv 50 50 (demoEv 0 300)
            (runDetector demoEnv [] Detector.empty)).emitted ++ extra ∧
        ∀ x ∈ extra, signalKeyOf demoEnv x.1 ≠
          signalKeyOf demoEnv (touchedBurst demoEnv (demoEv 0 300) Detector.empty) := by
  have hm : ∀ c ∈ [(⟨50, 50, demoEv 1000 300⟩ : BurstCall)],
      c.ev.tsMs ≤ (touchedBurst demoEnv (demoEv 0 300) Detector.empty).lastMs +
        SIGNAL_DEDUP_MS := by
    intro c hc
    rw [List.mem_singleton] at hc
    subst hc
    rw [touchedBurst_demo 0 300 Detector.empty rfl]
    decide
  exact ⟨onNewTradeForBurst_demo_fire, hm,
    signal_key_not_repeated demoEnv [] [⟨50, 50, demoEv 1000 300⟩] ⟨50, 50, demoEv 0 300⟩ _ _
      onNewTradeForBurst_demo_fire hm⟩

/-! ## Full-reconstruction backfill -/

/-- C1 (code at the failing input): for the task `[now - 120 d, now]` with step 6 h and
an empty reply to the first request, the run completes (queue empty, nothing in flight,
done flag set) after the single window `[now - 120 d, now - 120 d + 6 h]` has been
requested; the end of the range, `now`, lies in no requested window. -/
theorem fullBackfill_stops_after_first_window :
    demoTask.fromMs < demoTask.toMs ∧
      demoRun.fullDone = true ∧ demoRun.fullQueue = [] ∧ demoRun.fullInflight = 0 ∧
      demoRun.pending = [] ∧
      demoRun.requested = [("BTC-27DEC24-50000-C", 1689632000000, 1689653600000)] ∧
      covered "BTC-27DEC24-50000-C" demoTask.toMs demoRun.requested = false := by
  decide

/-! ## Aggressor classifier -/

theorem get_of_stored (m : NbboStore) (inst : String) (bid ask : ℚ)
    (h : m.nbbo inst = some ⟨bid, ask⟩) : m.get inst = ⟨bid, ask⟩ := by
  unfold NbboStore.get
  rw [h]
  rfl

theorem valid_iff (bid ask : ℚ) :
    (NbboSnap.mk bid ask).valid = true ↔ (0 < bid ∧ bid ≤ ask) := by
  unfold NbboSnap.valid
  simp only [decide_eq_true_eq]
  constructor
  · rintro ⟨h1, _, h3⟩
    exact ⟨h1, h3⟩
  · rintro ⟨h1, h3⟩
    exact ⟨h1, lt_of_lt_of_le h1 h3, h3⟩

theorem update_stored (m : NbboStore) (inst : String) (bid ask : ℚ) (hi : inst ≠ "")
    (hb : 0 < bid) (hba : bid ≤ ask) :
    (m.update inst bid ask).nbbo inst = some ⟨bid, ask⟩ := by
  unfold NbboStore.update
  rw [if_neg (by
    push_neg
    exact ⟨hi, hb, lt_of_lt_of_le hb hba, hba⟩)]
  exact Function.update_same _ _ _

theorem inferAggressor_valid (m : NbboStore) (inst : String) (bid ask price : ℚ)
    (h : m.nbbo inst = some ⟨bid, ask⟩) (hb : 0 < bid) (hba : bid ≤ ask) (hp : 0 < price) :
    m.inferAggressor inst price =
      (aggressorRule bid ask price, some ((price - (bid + ask) / 2) / ((bid + ask) / 2) * 10000)) := by
  have hv : (NbboSnap.mk bid ask).valid = true := (valid_iff bid ask).mpr ⟨hb, hba⟩
  have hmid : 0 < (bid + ask) / 2 := by linarith
  unfold NbboStore.inferAggressor aggressorRule
  rw [get_of_stored m inst bid ask h]
  simp only [NbboSnap.mid]
  rw [if_neg (by
    push_neg
    exact ⟨hv, hp⟩), if_pos hmid]
  have e : (ask - bid) * (5 / 100) = 5 / 100 * (ask - bid) := by ring
  rw [e]
  by_cases h1 : price ≤ bid - 5 / 100 * (ask - bid)
  · rw [if_pos h1, if_pos h1]
  · rw [if_neg h1, if_neg h1]
    by_cases h2 : ask + 5 / 100 * (ask - bid) ≤ price
    · rw [if_pos h2, if_pos (show price ≥ ask + 5 / 100 * (ask - bid) from h2)]
    · rw [if_neg h2, if_neg (show ¬ price ≥ ask + 5 / 100 * (ask - bid) from h2)]
      by_cases h3 : |price - (bid + ask) / 2| ≤ 5 / 100 * (ask - bid)
      · rw [if_pos h3, if_pos h3]
      · rw [if_neg h3, if_neg h3]

theorem inferAggressor_unknown_iff (m : NbboStore) (inst : String) (price : ℚ) :
    (m.inferAggressor inst price).1 = Aggressor.Unknown ↔
      (¬ m.hasValidQuote inst ∨ price ≤ 0) := by
  constructor
  · intro h
    by_contra hc
    push_neg at hc
    obtain ⟨⟨bid, ask, hs, hb, hba⟩, hp⟩ := hc
    rw [inferAggressor_valid m inst bid ask price hs hb hba hp] at h
    simp only at h
    unfold aggressorRule at h
    split_ifs at h
  · intro h
    unfold NbboStore.inferAggressor
    simp only []
    rw [if_pos]
    by_cases hp : price ≤ 0
    · exact Or.inr hp
    · left
      rcases h with h | h
      · intro hv
        apply h
        unfold NbboStore.get at hv
        cases hq : m.nbbo inst with
        | none =>
          rw [hq] at hv
          revert hv
          simp [NbboSnap.none, NbboSnap.valid]
        | some nb =>
          rw [hq] at hv
          obtain ⟨bid, ask⟩ := nb
          exact ⟨bid, ask, hq, (valid_iff bid ask).mp hv⟩
      · exact absurd h hp

theorem demoStore_nbbo : demoStore.nbbo "BTC-27DEC24-50000-C" = some ⟨100, 110⟩ :=
  update_stored _ _ 100 110 (by decide) (by norm_num) (by norm_num)

theorem demoLockedStore_nbbo : demoLockedStore.nbbo "BTC-27DEC24-50000-C" = some ⟨100, 100⟩ :=
  update_stored _ _ 100 100 (by decide) (by norm_num) (by norm_num)

/-- C13: for a stored quote with `0 < bid <= ask` and `tol = 0.05 * (ask - bid)`,
`inferAggressor` returns `HitBid` for a trade price equal to `bid - tol` and for a trade
price equal to `bid + tol`, whenever that price is positive. -/
theorem inferAggressor_bid_boundary (m : NbboStore) (inst : String) (bid ask : ℚ)
    (h : m.nbbo inst = some ⟨bid, ask⟩) (hb : 0 < bid) (hba : bid ≤ ask) :
    (0 < bid - 5 / 100 * (ask - bid) →
        (m.inferAggressor inst (bid - 5 / 100 * (ask - bid))).1 = Aggressor.HitBid) ∧
      (0 < bid + 5 / 100 * (ask - bid) →
        (m.inferAggressor inst (bid + 5 / 100 * (ask - bid))).1 = Aggressor.HitBid) := by
  constructor
  · intro hp
    rw [inferAggressor_valid m inst bid ask _ h hb hba hp]
    simp only [aggressorRule]
    rw [if_pos (le_refl _)]
  · intro hp
    rw [inferAggressor_valid m inst bid ask _ h hb hba hp]
    simp only [aggressorRule]
    by_cases hs : ask = bid
    · subst hs
      rw [if_pos (by linarith)]
    · have hlt : bid < ask := lt_of_le_of_ne hba (Ne.symm hs)
      rw [if_neg (by linarith), if_neg (by linarith), if_neg, if_pos (by linarith)]
      rw [abs_le]
      push_neg
      intro _
      linarith

theorem inferAggressor_bid_boundary_witness :
    demoStore.nbbo "BTC-27DEC24-50000-C" = some ⟨100, 110⟩ ∧
      (0 : ℚ) < 100 - 5 / 100 * (110 - 100) ∧
      (demoStore.inferAggressor "BTC-27DEC24-50000-C" (100 - 5 / 100 * (110 - 100))).1 =
        Aggressor.HitBid ∧
      (0 : ℚ) < 100 + 5 / 100 * (110 - 100) ∧
      (demoStore.inferAggressor "BTC-27DEC24-50000-C" (100 + 5 / 100 * (110 - 100))).1 =
        Aggressor.HitBid :=
  ⟨demoStore_nbbo, by norm_num,
    (inferAggressor_bid_boundary demoStore "BTC-27DEC24-50000-C" 100 110 demoStore_nbbo
      (by norm_num) (by norm_num)).1 (by norm_num),
    by norm_num,
    (inferAggressor_bid_boundary demoStore "BTC-27DEC24-50000-C" 100 110 demoStore_nbbo
      (by norm_num) (by norm_num)).2 (by norm_num)⟩

/-- C14 (as stated) fails: for the locked quote 100 / 100 (accepted by
`NbboStore::update`) the mid is 100 and `tol = 0`, so a trade at the mid is also at
`bid - tol` and is classified `HitBid` by the first test, not `Mid`. -/
theorem inferAggressor_locked_mid_is_hitBid :
    ¬ ((demoLockedStore.inferAggressor "BTC-27DEC24-50000-C" ((100 + 100) / 2)).1 =
      Aggressor.Mid) := by
  rw [inferAggressor_valid demoLockedStore _ 100 100 _ demoLockedStore_nbbo (by norm_num)
    (by norm_num) (by norm_num)]
  simp only [aggressorRule]
  rw [if_pos (by norm_num)]
  decide

/-- C14 (amended): for a stored quote with `0 < bid < ask`, `inferAggressor` returns
`Mid` for a trade price equal to `mid = (bid + ask) / 2`. -/
theorem inferAggressor_at_mid (m : NbboStore) (inst : String) (bid ask : ℚ)
    (h : m.nbbo inst = some ⟨bid, ask⟩) (hb : 0 < bid) (hba : bid < ask) :
    (m.inferAggressor inst ((bid + ask) / 2)).1 = Aggressor.Mid := by
  rw [inferAggressor_valid m inst bid ask _ h hb (le_of_lt hba) (by linarith)]
  simp only [aggressorRule]
  rw [if_neg (by linarith), if_neg (by linarith), if_pos]
  rw [sub_self, abs_zero]
  linarith

theorem inferAggressor_at_mid_witness :
    demoStore.nbbo "BTC-27DEC24-50000-C" = some ⟨100, 110⟩ ∧ (0 : ℚ) < 100 ∧
      (100 : ℚ) < 110 ∧
      (demoStore.inferAggressor "BTC-27DEC24-50000-C" ((100 + 110) / 2)).1 = Aggressor.Mid :=
  ⟨demoStore_nbbo, by norm_num, by norm_num,
    inferAggressor_at_mid demoStore "BTC-27DEC24-50000-C" 100 110 demoStore_nbbo
      (by norm_num) (by norm_num)⟩

/-- C15: `inferAggressor` returns `Unknown` exactly when the instrument has no valid
stored quote or the trade price is not positive; otherwise its classification is the
rule of the specification (`aggressorRule`) and the reported deviation is
`(price - mid) / mid * 10000` with `mid = (bid + ask) / 2`. -/
theorem inferAggressor_eq_rule (m : NbboStore) (inst : String) (price : ℚ) :
    ((m.inferAggressor inst price).1 = Aggressor.Unknown ↔
        (¬ m.hasValidQuote inst ∨ price ≤ 0)) ∧
      (∀ bid ask, m.nbbo inst = some ⟨bid, ask⟩ → 0 < bid → bid ≤ ask → 0 < price →
        m.inferAggressor inst price =
          (aggressorRule bid ask price,
            some ((price - (bid + ask) / 2) / ((bid + ask) / 2) * 10000))) :=
  ⟨inferAggressor_unknown_iff m inst price,
    fun bid ask h hb hba hp => inferAggressor_valid m inst bid ask price h hb hba hp⟩

theorem inferAggressor_eq_rule_witness :
    demoStore.nbbo "BTC-27DEC24-50000-C" = some ⟨100, 110⟩ ∧
      demoStore.inferAggressor "BTC-27DEC24-50000-C" 108 =
        (aggressorRule 100 110 108, some ((108 - (100 + 110) / 2) / ((100 + 110) / 2) * 10000)) :=
  ⟨demoStore_nbbo,
    (inferAggressor_eq_rule demoStore "BTC-27DEC24-50000-C" 108).2 100 110 demoStore_nbbo
      (by norm_num) (by norm_num) (by norm_num)⟩

theorem aggressorRule_demo_values :
    aggressorRule 100 110 108 = Aggressor.LiftAsk ∧ aggressorRule 100 110 102 = Aggressor.HitBid ∧
      aggressorRule 100 110 99 = Aggressor.HitBid ∧ aggressorRule 100 110 111 = Aggressor.LiftAsk := by
  unfold aggressorRule
  refine ⟨?_, ?_, ?_, ?_⟩
  · rw [if_neg (by norm_num), if_neg (by norm_num), if_neg, if_neg (by norm_num)]
    rw [abs_le]; norm_num
  · rw [if_neg (by norm_num), if_neg (by norm_num), if_neg, if_pos (by norm_num)]
    rw [abs_le]; norm_num
  · rw [if_pos (by norm_num)]
  · rw [if_neg (by norm_num), if_pos (by norm_num)]

/-! ## Ledger updates -/

theorem applyTradeToResidual_accepted_maps (env : Env) (unit : Int) (t : Trade) (L : Ledger)
    (h : accepted env unit t = true) :
    (applyTradeToResidual env unit t L).residualQtyByKey (keyOfInst env t.inst) =
        some ((L.residualQtyByKey (keyOfInst env t.inst)).getD 0 +
          (if 0 < t.sign then |t.amount| else -|t.amount|)) ∧
      (applyTradeToResidual env unit t L).residualDVolByKey (keyOfInst env t.inst) =
        some ((L.residualDVolByKey (keyOfInst env t.inst)).getD 0 +
          sideSign t.sign * |t.amount| *
            deltaSigned env (isCallFromInst t.inst) (strikeFromInst env t.inst) t.deltaRaw) ∧
      (applyTradeToResidual env unit t L).residualTradesByKey (keyOfInst env t.inst) =
        some ((L.residualTradesByKey (keyOfInst env t.inst)).getD 0 + 1) := by
  unfold accepted at h
  simp only [Bool.and_eq_true, decide_eq_true_eq] at h
  obtain ⟨⟨h1, h2⟩, h3⟩ := h
  unfold applyTradeToResidual keyOfInst
  simp only []
  rw [if_neg (by omega), if_neg (by simpa using h2), if_neg (by linarith)]
  simp only [Function.update_same]
  exact ⟨trivial, trivial, trivial⟩

theorem accepted_eq_false_of (env : Env) (unit : Int) (t : Trade)
    (h : expiryFromInst env t.inst ≤ 0 ∨ strikeFromInst env t.inst ≤ 0 ∨
      |t.amount| < (unit : ℚ)) : accepted env unit t = false := by
  unfold accepted isBigTrade
  rcases h with h | h | h
  · simp [not_lt.mpr h]
  · simp [not_lt.mpr h]
  · simp [not_le.mpr h]

theorem deltaSigned_neg (env : Env) (isCall : Bool) (k d : ℚ) :
    deltaSigned env isCall k (-d) = deltaSigned env isCall k d := by
  unfold deltaSigned
  rw [abs_neg]

theorem demo_abs_values : |(120 : ℚ)| = 120 ∧ |(80 : ℚ)| = 80 :=
  ⟨abs_of_pos (by norm_num), abs_of_pos (by norm_num)⟩

/-- C16: every accepted `applyTradeToResidual` call changes the qty of the cluster by
exactly `+|amount|` for a buy (`sign > 0`) and by exactly `-|amount|` otherwise, without
clamping: a single sell of 80 on the empty Ledger leaves `qty = -80`, and with threshold
50 a buy of 120 followed by a sell of 80 in the same cluster leaves `qty = 40` with
trade count 2. -/
theorem applyTradeToResidual_qty_by_side :
    (∀ (env : Env) (unit : Int) (t : Trade) (L : Ledger), accepted env unit t = true →
        (applyTradeToResidual env unit t L).residualQtyByKey (keyOfInst env t.inst) =
          some ((L.residualQtyByKey (keyOfInst env t.inst)).getD 0 +
            (if 0 < t.sign then |t.amount| else -|t.amount|))) ∧
      (applyTrades demoEnv 50 [demoSell] Ledger.empty).residualQtyByKey
          (keyOfInst demoEnv "BTC-27DEC24-50000-C") = some (-80) ∧
      (applyTrades demoEnv 50 [demoBuy, demoSell] Ledger.empty).residualQtyByKey
          (keyOfInst demoEnv "BTC-27DEC24-50000-C") = some 40 ∧
      (applyTrades demoEnv 50 [demoBuy, demoSell] Ledger.empty).residualTradesByKey
          (keyOfInst demoEnv "BTC-27DEC24-50000-C") = some 2 := by
  have hb := applyTradeToResidual_accepted_maps demoEnv 50 demoBuy Ledger.empty accepted_demoBuy
  have hs := applyTradeToResidual_accepted_maps demoEnv 50 demoSell Ledger.empty
    accepted_demoSell
  have hbs := applyTradeToResidual_accepted_maps demoEnv 50 demoSell
    (applyTradeToResidual demoEnv 50 demoBuy Ledger.empty) accepted_demoSell
  have ib : demoBuy.inst = "BTC-27DEC24-50000-C" := rfl
  have is : demoSell.inst = "BTC-27DEC24-50000-C" := rfl
  rw [ib] at hb
  rw [is] at hs hbs
  refine ⟨fun env unit t L h => (applyTradeToResidual_accepted_maps env unit t L h).1, ?_, ?_, ?_⟩
  · simp only [applyTrades]
    rw [hs.1]
    simp only [demoSell, Ledger.empty, Option.getD_none, demo_abs_values.2]
    norm_num
  · simp only [applyTrades]
    rw [hbs.1, hb.1]
    simp only [demoSell, demoBuy, Ledger.empty, Option.getD_none, Option.getD_some,
      demo_abs_values.1, demo_abs_values.2]
    norm_num
  · simp only [applyTrades]
    rw [hbs.2.2, hb.2.2]
    simp only [Ledger.empty, Option.getD_none, Option.getD_some]
    norm_num

theorem applyTradeToResidual_qty_by_side_witness :
    accepted demoEnv 50 demoBuy = true ∧
      (applyTradeToResidual demoEnv 50 demoBuy Ledger.empty).residualQtyByKey
          (keyOfInst demoEnv demoBuy.inst) =
        some ((Ledger.empty.residualQtyByKey (keyOfInst demoEnv demoBuy.inst)).getD 0 +
          (if 0 < demoBuy.sign then |demoBuy.amount| else -|demoBuy.amount|)) :=
  ⟨accepted_demoBuy,
    applyTradeToResidual_qty_by_side.1 demoEnv 50 demoBuy Ledger.empty accepted_demoBuy⟩

/-- C18: if the instrument has no known expiry (`expiry <= 0`), or its strike does not
parse to a positive number, or `|amount|` is below the threshold, `applyTradeToResidual`
returns the Ledger unchanged: all six maps keep every entry and gain none. -/
theorem applyTradeToResidual_rejected_unchanged (env : Env) (unit : Int) (t : Trade)
    (L : Ledger)
    (h : expiryFromInst env t.inst ≤ 0 ∨ strikeFromInst env t.inst ≤ 0 ∨
      |t.amount| < (unit : ℚ)) :
    applyTradeToResidual env unit t L = L :=
  applyTradeToResidual_rejected env unit t L (accepted_eq_false_of env unit t h)

theorem applyTradeToResidual_rejected_unchanged_witness :
    (expiryFromInst demoEnv demoBuy.inst ≤ 0 ∨ strikeFromInst demoEnv demoBuy.inst ≤ 0 ∨
        |demoBuy.amount| < ((500 : Int) : ℚ)) ∧
      applyTradeToResidual demoEnv 500 demoBuy Ledger.empty = Ledger.empty := by
  have h : expiryFromInst demoEnv demoBuy.inst ≤ 0 ∨ strikeFromInst demoEnv demoBuy.inst ≤ 0 ∨
      |demoBuy.amount| < ((500 : Int) : ℚ) := by
    right; right
    simp only [demoBuy, demo_abs_values.1]
    norm_num
  exact ⟨h, applyTradeToResidual_rejected_unchanged demoEnv 500 demoBuy Ledger.empty h⟩

/-- C19: for every accepted trade with `|rawDelta| > 1e-9` the delta-weighted volume of
the cluster changes by `sideSign * |amount| * |rawDelta|` for a call and by
`sideSign * |amount| * (-|rawDelta|)` for a put, and the trade with `-rawDelta` in place
of `rawDelta` produces the identical Ledger. -/
theorem applyTradeToResidual_delta_sign_ignored (env : Env) (unit : Int) (t : Trade)
    (L : Ledger) (h : accepted env unit t = true) (hd : 1 / 1000000000 < |t.deltaRaw|) :
    (applyTradeToResidual env unit t L).residualDVolByKey (keyOfInst env t.inst) =
        some ((L.residualDVolByKey (keyOfInst env t.inst)).getD 0 +
          sideSign t.sign * |t.amount| *
            (if isCallFromInst t.inst = true then |t.deltaRaw| else -|t.deltaRaw|)) ∧
      applyTradeToResidual env unit { t with deltaRaw := -t.deltaRaw } L =
        applyTradeToResidual env unit t L := by
  constructor
  · rw [(applyTradeToResidual_accepted_maps env unit t L h).2.1]
    unfold deltaSigned
    simp only []
    rw [if_neg (not_le.mpr hd)]
  · unfold applyTradeToResidual
    simp only [deltaSigned_neg]

theorem applyTradeToResidual_delta_sign_ignored_witness :
    accepted demoEnv 50 demoBuy = true ∧ (1 / 1000000000 : ℚ) < |demoBuy.deltaRaw| ∧
      ((applyTradeToResidual demoEnv 50 demoBuy Ledger.empty).residualDVolByKey
            (keyOfInst demoEnv demoBuy.inst) =
          some ((Ledger.empty.residualDVolByKey (keyOfInst demoEnv demoBuy.inst)).getD 0 +
            sideSign demoBuy.sign * |demoBuy.amount| *
              (if isCallFromInst demoBuy.inst = true then |demoBuy.deltaRaw|
                else -|demoBuy.deltaRaw|)) ∧
        applyTradeToResidual demoEnv 50 { demoBuy with deltaRaw := -demoBuy.deltaRaw }
            Ledger.empty =
          applyTradeToResidual demoEnv 50 demoBuy Ledger.empty) := by
  have hd : (1 / 1000000000 : ℚ) < |demoBuy.deltaRaw| := by
    have : |(1 / 2 : ℚ)| = 1 / 2 := abs_of_pos (by norm_num)
    simp only [demoBuy, this]
    norm_num
  exact ⟨accepted_demoBuy, hd,
    applyTradeToResidual_delta_sign_ignored demoEnv 50 demoBuy Ledger.empty accepted_demoBuy hd⟩

/-! ## Immediate re-delivery -/

theorem evictOld_subset {α : Type} [DecidableEq α] (cutoff : Int) :
    ∀ (queue : List (Int × α)) (keys : List α),
      (∀ k ∈ (evictOld cutoff keys queue).keys, k ∈ keys) ∧
        (∀ e ∈ (evictOld cutoff keys queue).queue, e ∈ queue) := by
  intro queue
  induction queue with
  | nil => intro keys; exact ⟨fun k hk => hk, fun e he => he⟩
  | cons e q ih =>
    intro keys
    obtain ⟨t, k⟩ := e
    unfold evictOld
    by_cases ht : t < cutoff
    · rw [if_pos ht]
      obtain ⟨h1, h2⟩ := ih (keys.filter (fun x => decide (x ≠ k)))
      exact ⟨fun a ha => (List.mem_filter.mp (h1 a ha)).1,
        fun a ha => List.mem_cons_of_mem _ (h2 a ha)⟩
    · rw [if_neg ht]
      exact ⟨fun a ha => ha, fun a ha => ha⟩

theorem alreadySeenTrade_absent (x : String) (ts : Int) (s : KeyWindow String)
    (hk : x ∉ s.keys) (hq : x ∉ s.queue.map Prod.snd) :
    (alreadySeenTrade x ts s).1 = false ∧ (alreadySeenTrade x ts s).2.holds x ts := by
  obtain ⟨h1, h2⟩ := evictOld_subset (ts - DAY_MS) s.queue s.keys
  have hn : x ∉ (evictOld (ts - DAY_MS) s.keys s.queue).keys := fun h => hk (h1 x h)
  unfold alreadySeenTrade
  simp only []
  rw [if_neg hn]
  refine ⟨rfl, List.mem_cons_self _ _, ?_⟩
  intro e he hx
  rcases List.mem_append.mp he with h3 | h3
  · exact absurd (hx ▸ List.mem_map_of_mem Prod.snd (h2 e h3)) hq
  · rw [List.mem_singleton] at h3
    subst h3
    exact le_refl _

/-- C17: from any deduplicator state that does not contain id `x` (neither in the set
nor in the queue), for every timestamp `ts` and every gap `0 <= d <= 24h`,
`alreadySeenTrade(x, ts)` returns "new" and the immediately following
`alreadySeenTrade(x, ts + d)` returns "already seen"; on the live path trade id `T1`
delivered twice one second apart passes the guard the first time only. -/
theorem alreadySeenTrade_immediate_redelivery :
    (∀ (s : KeyWindow String) (x : String) (ts d : Int), x ∉ s.keys →
        x ∉ s.queue.map Prod.snd → 0 ≤ d → d ≤ DAY_MS →
        (alreadySeenTrade x ts s).1 = false ∧
          (alreadySeenTrade x (ts + d) (alreadySeenTrade x ts s).2).1 = true) ∧
      (liveDedupGate "T1" 1700000000000 KeyWindow.empty).1 = true ∧
      (liveDedupGate "T1" 1700000001000
        (liveDedupGate "T1" 1700000000000 KeyWindow.empty).2).1 = false := by
  refine ⟨?_, by decide, by decide⟩
  intro s x ts d hk hq h0 hd
  obtain ⟨h1, h2⟩ := alreadySeenTrade_absent x ts s hk hq
  exact ⟨h1, alreadySeenTrade_of_holds x (ts + d) ts _ h2 (by omega)⟩

theorem alreadySeenTrade_immediate_redelivery_witness :
    "T1" ∉ (KeyWindow.mk ["T0"] [((5 : Int), "T0")]).keys ∧
      "T1" ∉ (KeyWindow.mk ["T0"] [((5 : Int), "T0")]).queue.map Prod.snd ∧
      (0 : Int) ≤ 1000 ∧ (1000 : Int) ≤ DAY_MS ∧
      (alreadySeenTrade "T1" 86400100 (KeyWindow.mk ["T0"] [(5, "T0")])).1 = false ∧
      (alreadySeenTrade "T1" (86400100 + 1000)
        (alreadySeenTrade "T1" 86400100 (KeyWindow.mk ["T0"] [(5, "T0")])).2).1 = true :=
  ⟨by decide, by decide, by decide, by decide,
    alreadySeenTrade_immediate_redelivery.1 (KeyWindow.mk ["T0"] [(5, "T0")]) "T1" 86400100 1000
      (by decide) (by decide) (by decide) (by decide)⟩

/-! ## Snapshot loading and signal-table rebuild -/

/-- C12: if the stored blob is empty, is not parseable, or parses to something that is
not a JSON object, `loadSnapshot` returns `false` and the whole state (residual maps,
anchor timestamps, amount samples, last-snapshot timestamp, last delta/IV maps) is
unchanged. -/
theorem loadSnapshot_missing_or_corrupt {B : Type} (codec : Codec B) (ui : Ui) (now : Int)
    (blob : B) (s : MainState)
    (h : codec.isEmpty blob = true ∨ codec.fromJson blob = none ∨
      ∃ j, codec.fromJson blob = some j ∧ ∀ o, j ≠ Json.obj o) :
    loadSnapshot codec ui now blob s = (false, s) := by
  unfold loadSnapshot
  by_cases he : codec.isEmpty blob = true
  · rw [if_pos he]
  · rw [if_neg he]
    rcases h with h | h | ⟨j, hj, hno⟩
    · exact absurd h he
    · rw [h]
    · rw [hj]
      cases j with
      | obj o => exact absurd rfl (hno o)
      | null => rfl
      | bool b => rfl
      | num x => rfl
      | str x => rfl
      | arr xs => rfl

theorem loadSnapshot_missing_or_corrupt_witness :
    (demoCodec.isEmpty none = true ∧
        loadSnapshot demoCodec demoUi 0 none demoSaved = (false, demoSaved)) ∧
      (demoCodec.fromJson (some none) = none ∧
        loadSnapshot demoCodec demoUi 0 (some none) demoSaved = (false, demoSaved)) ∧
      ((∃ j, demoCodec.fromJson (some (some (Json.arr []))) = some j ∧ ∀ o, j ≠ Json.obj o) ∧
        loadSnapshot demoCodec demoUi 0 (some (some (Json.arr []))) demoSaved =
          (false, demoSaved)) := by
  have h3 : ∃ j, demoCodec.fromJson (some (some (Json.arr []))) = some j ∧
      ∀ o, j ≠ Json.obj o := ⟨Json.arr [], rfl, fun o h => by cases h⟩
  exact ⟨⟨rfl, loadSnapshot_missing_or_corrupt demoCodec demoUi 0 none demoSaved (Or.inl rfl)⟩,
    ⟨rfl, loadSnapshot_missing_or_corrupt demoCodec demoUi 0 (some none) demoSaved
      (Or.inr (Or.inl rfl))⟩,
    ⟨h3, loadSnapshot_missing_or_corrupt demoCodec demoUi 0 (some (some (Json.arr [])))
      demoSaved (Or.inr (Or.inr h3))⟩⟩

theorem sameResidual_refl (a : MainState) : sameResidual a a :=
  ⟨rfl, rfl, rfl, rfl, rfl, rfl⟩

theorem sameResidual_trans {a b c : MainState} (h1 : sameResidual a b)
    (h2 : sameResidual b c) : sameResidual a c := by
  unfold sameResidual at h1 h2 ⊢
  refine ⟨?_, ?_, ?_, ?_, ?_, ?_⟩
  · rw [h2.1, h1.1]
  · rw [h2.2.1, h1.2.1]
  · rw [h2.2.2.1, h1.2.2.1]
  · rw [h2.2.2.2.1, h1.2.2.2.1]
  · rw [h2.2.2.2.2.1, h1.2.2.2.2.1]
  · rw [h2.2.2.2.2.2, h1.2.2.2.2.2]

theorem removeSignalRowIfExists_frame (key : String) (s : MainState) :
    sameResidual s (removeSignalRowIfExists key s) ∧
      (removeSignalRowIfExists key s).signalAnchorTsByKey = s.signalAnchorTsByKey := by
  unfold removeSignalRowIfExists
  split
  · exact ⟨⟨rfl, rfl, rfl, rfl, rfl, rfl⟩, rfl⟩
  · exact ⟨sameResidual_refl s, rfl⟩

theorem upsertSignalRow_frame (ui : Ui) (key : String) (expMs : Int) (snapshot : FlowBurst)
    (residualQty : ℚ) (s : MainState) :
    sameResidual s (upsertSignalRow ui key expMs snapshot residualQty s) := by
  unfold upsertSignalRow
  split
  · exact (removeSignalRowIfExists_frame key s).1
  · split
    · exact (removeSignalRowIfExists_frame key s).1
    · simp only []
      split <;> exact ⟨rfl, rfl, rfl, rfl, rfl, rfl⟩

theorem rebuildKey_frame (ui : Ui) (bigUnit : Int) (key : String) (s : MainState) :
    sameResidual s (rebuildKey ui bigUnit key s) := by
  unfold rebuildKey
  simp only []
  split
  · exact sameResidual_refl s
  · split
    · exact sameResidual_refl s
    · split
      · exact sameResidual_refl s
      · exact upsertSignalRow_frame _ _ _ _ _ _

theorem foldl_rebuildKey_frame (ui : Ui) (bigUnit : Int) (keys : List String) :
    ∀ s : MainState,
      sameResidual s (keys.foldl (fun st key => rebuildKey ui bigUnit key st) s) := by
  induction keys with
  | nil => intro s; exact sameResidual_refl s
  | cons k ks ih =>
    intro s
    exact sameResidual_trans (rebuildKey_frame ui bigUnit k s) (ih _)

theorem rebuild_frame (ui : Ui) (now : Int) (s : MainState) :
    sameResidual s (rebuildSignalTableFromResidual ui now s) := by
  unfold rebuildSignalTableFromResidual
  split
  · exact sameResidual_refl s
  · exact sameResidual_trans ⟨rfl, rfl, rfl, rfl, rfl, rfl⟩ (foldl_rebuildKey_frame _ _ _ _)

/-- C20: for every state, expiry filter and threshold setting, after
`rebuildSignalTableFromResidual` returns, the six residual maps (qty, signed qty,
delta-weighted volume, last-trade timestamp, trade count, participants) are the same
maps as before the call. -/
theorem rebuildSignalTableFromResidual_projects (ui : Ui) (now : Int) (s : MainState) :
    (rebuildSignalTableFromResidual ui now s).residualQtyByKey = s.residualQtyByKey ∧
      (rebuildSignalTableFromResidual ui now s).residualSignedQtyByKey =
        s.residualSignedQtyByKey ∧
      (rebuildSignalTableFromResidual ui now s).residualDVolByKey = s.residualDVolByKey ∧
      (rebuildSignalTableFromResidual ui now s).residualLastTsByKey = s.residualLastTsByKey ∧
      (rebuildSignalTableFromResidual ui now s).residualTradesByKey = s.residualTradesByKey ∧
      (rebuildSignalTableFromResidual ui now s).residualInstsByKey = s.residualInstsByKey := by
  obtain ⟨h1, h2, h3, h4, h5, h6⟩ := rebuild_frame ui now s
  exact ⟨h1, h3, h2, h4, h5, h6⟩

/-! ## Snapshot round trip -/

theorem find_objInsert (key k : String) (v : Json) (m : List (String × Json)) :
    ((objInsert key v m).find? (fun e => decide (e.1 = k))).map Prod.snd =
      if key = k then some v else (m.find? (fun e => decide (e.1 = k))).map Prod.snd := by
  unfold objInsert
  by_cases h : key = k
  · subst h
    simp
  · rw [if_neg h, List.find?_cons_of_neg _ (by simpa using h)]
    congr 1
    induction m with
    | nil => rfl
    | cons e es ih =>
      by_cases he : e.1 = key
      · have hek : ¬ e.1 = k := fun hk => h (he ▸ hk)
        rw [List.filter_cons_of_neg (by simpa using he),
          List.find?_cons_of_neg _ (by simpa using hek)]
        exact ih
      · rw [List.filter_cons_of_pos (by simpa using he)]
        by_cases hek : e.1 = k
        · rw [List.find?_cons_of_pos _ (by simpa using hek),
            List.find?_cons_of_pos _ (by simpa using hek)]
        · rw [List.find?_cons_of_neg _ (by simpa using hek),
            List.find?_cons_of_neg _ (by simpa using hek)]
          exact ih

theorem keys_objInsert_nodup (key : String) (v : Json) (m : List (String × Json))
    (h : (m.map Prod.fst).Nodup) : ((objInsert key v m).map Prod.fst).Nodup := by
  unfold objInsert
  rw [List.map_cons, List.nodup_cons]
  constructor
  · intro hmem
    obtain ⟨e, he, hk⟩ := List.mem_map.mp hmem
    have := (List.mem_filter.mp he).2
    simp only [decide_eq_true_eq] at this
    exact this hk
  · exact h.sublist ((List.filter_sublist _).map _)

theorem dump_fold {V : Type} (g : V → Json) (es : List (Sigma fun _ : String => V)) :
    es.NodupKeys → ∀ m0 : List (String × Json), (m0.map Prod.fst).Nodup →
      ((es.foldl (fun m e => objInsert e.1 (g e.2) m) m0).map Prod.fst).Nodup ∧
        ∀ k, ((es.foldl (fun m e => objInsert e.1 (g e.2) m) m0).find?
              (fun e => decide (e.1 = k))).map Prod.snd =
          match es.dlookup k with
          | some v => some (g v)
          | none => (m0.find? (fun e => decide (e.1 = k))).map Prod.snd := by
  induction es with
  | nil =>
    intro _ m0 h0
    exact ⟨h0, fun k => rfl⟩
  | cons e es ih =>
    intro hn m0 h0
    rw [List.nodupKeys_cons] at hn
    obtain ⟨h1, h2⟩ := ih hn.2 (objInsert e.1 (g e.2) m0) (keys_objInsert_nodup _ _ _ h0)
    rw [List.foldl_cons]
    refine ⟨h1, ?_⟩
    intro k
    rw [h2 k, find_objInsert]
    obtain ⟨ek, ev⟩ := e
    by_cases hk : ek = k
    · subst hk
      have hnone : List.dlookup ek es = none := List.dlookup_eq_none.mpr hn.1
      rw [hnone, List.dlookup_cons_eq]
      simp
    · rw [List.dlookup_cons_ne _ _ (Ne.symm hk)]
      simp only [if_neg hk]

theorem load_fold {V : Type} (f : Json → V) (ps : List (String × Json)) :
    (ps.map Prod.fst).Nodup → ∀ (d0 : QHash V) (k : String),
      (ps.foldl (fun dst e => dst.insert e.1 (f e.2)) d0).lookup k =
        match (ps.find? (fun e => decide (e.1 = k))).map Prod.snd with
        | some j => some (f j)
        | none => d0.lookup k := by
  induction ps with
  | nil => intro _ d0 k; rfl
  | cons e ps ih =>
    intro hn d0 k
    rw [List.map_cons, List.nodup_cons] at hn
    rw [List.foldl_cons, ih hn.2]
    by_cases hk : e.1 = k
    · have hnone : (ps.find? (fun e => decide (e.1 = k))) = none := by
        rw [List.find?_eq_none]
        intro x hx hxk
        simp only [decide_eq_true_eq] at hxk
        exact hn.1 (List.mem_map.mpr ⟨x, hx, hxk.trans hk.symm⟩)
      rw [hnone, List.find?_cons_of_pos _ (by simpa using hk)]
      simp only [Option.map_none', Option.map_some']
      rw [← hk]
      exact AList.lookup_insert _
    · rw [List.find?_cons_of_neg _ (by simpa using hk)]
      cases hf : (ps.find? (fun e => decide (e.1 = k))).map Prod.snd with
      | none => exact AList.lookup_insert_ne (Ne.symm hk)
      | some j => rfl

theorem load_dump {V : Type} (g : V → Json) (f : Json → V) (src : QHash V) (k : String) :
    ((src.entries.foldl (fun m e => objInsert e.1 (g e.2) m) []).foldl
        (fun dst e => dst.insert e.1 (f e.2)) (∅ : QHash V)).lookup k =
      (src.lookup k).map (fun v => f (g v)) := by
  obtain ⟨h1, h2⟩ := dump_fold g src.entries src.nodupKeys [] List.nodup_nil
  rw [load_fold f _ h1, h2 k]
  unfold AList.lookup
  cases List.dlookup k src.entries with
  | none => rfl
  | some v => rfl

theorem truncToInt_intCast (v : Int) : truncToInt (v : ℚ) = v := by
  unfold truncToInt
  split
  · exact Int.floor_intCast v
  · exact Int.ceil_intCast v

theorem toInt_num_intCast (v : Int) : (Json.num (v : ℚ)).toInt = v := by
  unfold Json.toInt
  simp

theorem loadMapD_saved (o : List (String × Json)) (key : String) (src : QHash ℚ)
    (h : objValue o key = dumpMapD src) (k : String) :
    (loadMapD o key).lookup k = src.lookup k := by
  unfold loadMapD
  rw [h]
  unfold dumpMapD Json.toObject
  simp only []
  rw [load_dump]
  cases src.lookup k <;> rfl

theorem loadMapI64_saved (o : List (String × Json)) (key : String) (src : QHash Int)
    (h : objValue o key = dumpMapI64 src) (k : String) :
    (loadMapI64 o key).lookup k = src.lookup k := by
  unfold loadMapI64
  rw [h]
  unfold dumpMapI64 Json.toObject
  simp only []
  rw [load_dump (fun v : Int => Json.num (v : ℚ)) (fun j => truncToInt j.toDouble)]
  cases src.lookup k with
  | none => rfl
  | some v => exact congrArg some (truncToInt_intCast v)

theorem loadMapI_saved (o : List (String × Json)) (key : String) (src : QHash Int)
    (h : objValue o key = dumpMapI64 src) (k : String) :
    (loadMapI o key).lookup k = src.lookup k := by
  unfold loadMapI
  rw [h]
  unfold dumpMapI64 Json.toObject
  simp only []
  rw [load_dump (fun v : Int => Json.num (v : ℚ)) (fun j => j.toInt)]
  cases src.lookup k with
  | none => rfl
  | some v => exact congrArg some (toInt_num_intCast v)

theorem mem_setInsert {α : Type} [DecidableEq α] (x y : α) (s : List α) :
    y ∈ setInsert x s ↔ y = x ∨ y ∈ s := by
  unfold setInsert
  split
  · rename_i h
    constructor
    · exact Or.inr
    · rintro (h1 | h1)
      · exact h1 ▸ h
      · exact h1
  · rw [List.mem_append, List.mem_singleton]
    exact or_comm

theorem mem_foldl_setInsert (l : List String) :
    ∀ (acc : List String) (x : String),
      x ∈ (l.map Json.str).foldl (fun set v => setInsert v.toStr set) acc ↔ x ∈ acc ∨ x ∈ l := by
  induction l with
  | nil => intro acc x; simp
  | cons a l ih =>
    intro acc x
    rw [List.map_cons, List.foldl_cons, ih, mem_setInsert, List.mem_cons]
    simp only [Json.toStr]
    tauto

theorem loadMapSet_saved (o : List (String × Json)) (key : String) (src : QHash (List String))
    (h : objValue o key = dumpMapSet src) (k : String) :
    ((loadMapSet o key).lookup k).isSome = (src.lookup k).isSome ∧
      ∀ x, x ∈ hashValue (loadMapSet o key) k [] ↔ x ∈ hashValue src k [] := by
  have e : (loadMapSet o key).lookup k =
      (src.lookup k).map (fun l =>
        (l.map Json.str).foldl (fun set v => setInsert v.toStr set) []) := by
    unfold loadMapSet
    rw [h]
    unfold dumpMapSet Json.toObject
    simp only []
    rw [load_dump (fun l : List String => Json.arr (l.map Json.str))
      (fun j => j.toArray.foldl (fun set v => setInsert v.toStr set) [])]
    rfl
  unfold hashValue
  rw [e]
  cases src.lookup k with
  | none => exact ⟨rfl, fun x => Iff.rfl⟩
  | some l =>
    refine ⟨rfl, fun x => ?_⟩
    simp only [Option.map_some', Option.getD_some]
    rw [mem_foldl_setInsert]
    simp

theorem removeSignalRowIfExists_anchor (key : String) (s : MainState) :
    (removeSignalRowIfExists key s).signalAnchorTsByKey = s.signalAnchorTsByKey :=
  (removeSignalRowIfExists_frame key s).2

theorem upsertSignalRow_anchor_kept (ui : Ui) (key : String) (expMs : Int)
    (snapshot : FlowBurst) (residualQty : ℚ) (s : MainState) (k : String) (v : Int)
    (h : s.signalAnchorTsByKey.lookup k = some v) :
    (upsertSignalRow ui key expMs snapshot residualQty s).signalAnchorTsByKey.lookup k =
      some v := by
  have hins : ∀ (d : Int),
      (s.signalAnchorTsByKey.insert key (hashValue s.signalAnchorTsByKey key d)).lookup k =
        some v := by
    intro d
    by_cases hk : k = key
    · subst hk
      rw [AList.lookup_insert]
      unfold hashValue
      rw [h]
      rfl
    · rw [AList.lookup_insert_ne hk]
      exact h
  unfold upsertSignalRow
  split
  · rw [removeSignalRowIfExists_anchor]; exact h
  · split
    · rw [removeSignalRowIfExists_anchor]; exact h
    · simp only []
      split <;> exact hins _

theorem rebuildKey_anchor_kept (ui : Ui) (bigUnit : Int) (key : String) (s : MainState)
    (k : String) (v : Int) (h : s.signalAnchorTsByKey.lookup k = some v) :
    (rebuildKey ui bigUnit key s).signalAnchorTsByKey.lookup k = some v := by
  unfold rebuildKey
  simp only []
  split
  · exact h
  · split
    · exact h
    · split
      · exact h
      · exact upsertSignalRow_anchor_kept _ _ _ _ _ _ _ _ h

theorem foldl_rebuildKey_anchor_kept (ui : Ui) (bigUnit : Int) (keys : List String)
    (k : String) (v : Int) :
    ∀ s : MainState, s.signalAnchorTsByKey.lookup k = some v →
      (keys.foldl (fun st key => rebuildKey ui bigUnit key st) s).signalAnchorTsByKey.lookup k =
        some v := by
  induction keys with
  | nil => intro s h; exact h
  | cons key ks ih =>
    intro s h
    exact ih _ (rebuildKey_anchor_kept ui bigUnit key s k v h)

theorem rebuild_anchor_kept (ui : Ui) (now : Int) (s : MainState) (k : String) (v : Int)
    (h : s.signalAnchorTsByKey.lookup k = some v) :
    (rebuildSignalTableFromResidual ui now s).signalAnchorTsByKey.lookup k = some v := by
  unfold rebuildSignalTableFromResidual
  split
  · exact h
  · exact foldl_rebuildKey_anchor_kept _ _ _ _ _ _ h

theorem rebuildKey_creates_anchor (ui : Ui) (bigUnit : Int) (key : String) (s : MainState)
    (hp : (splitOnChar '|' key.data).length = 3)
    (hf : passSignalFilter ui (ui.toLongLong (String.mk ((splitOnChar '|' key.data).getD 0 [])))
      = true)
    (hq : ¬ |hashValue s.residualQtyByKey key 0| < (bigUnit : ℚ))
    (hq2 : ¬ |hashValue s.residualQtyByKey key 0| < max (ui.spinMinSize.getD 0) 1)
    (ha : s.signalAnchorTsByKey.lookup key = none) :
    (rebuildKey ui bigUnit key s).signalAnchorTsByKey.lookup key =
      some (hashValue s.residualLastTsByKey key (hashValue s.residualLastTsByKey key 0)) := by
  unfold rebuildKey
  simp only []
  rw [if_neg (by simpa using hp), if_neg (by simpa using hf), if_neg hq]
  unfold upsertSignalRow
  simp only []
  rw [if_neg (by simpa using hf), if_neg hq2]
  split
  · simp only [AList.lookup_insert]
    unfold hashValue
    rw [ha]
    rfl
  · simp only [AList.lookup_insert]
    unfold hashValue
    rw [ha]
    rfl

theorem currentBigUnit_demoUi : currentBigUnit demoUi.spinMinSize 0 demoLoaded.amtSamples = 50 := by
  have hm : manualOf (0 : ℚ) = 0 := by
    have := llround_natCast 0
    simp only [Nat.cast_zero] at this
    unfold manualOf
    rw [this]
    decide
  have hno : noOverride demoUi.spinMinSize := by
    intro v hv
    have : v = 0 := by
      simp only [demoUi, Option.some.injEq] at hv
      exact hv.symm
    rw [this, hm]
  rw [currentBigUnit_auto hno]
  exact autoUnit_small (by decide)

theorem loadSnapshot_demo :
    loadSnapshot demoCodec demoUi 0 (saveSnapshot demoCodec 0 demoSaved) MainState.empty =
      (true, rebuildKey demoUi 50 "1000000|1|50000" demoRebuildStart) := by
  have h : loadSnapshot demoCodec demoUi 0 (saveSnapshot demoCodec 0 demoSaved) MainState.empty =
      (true, rebuildSignalTableFromResidual demoUi 0 demoLoaded) := rfl
  have hk : demoLoaded.residualQtyByKey.keys = ["1000000|1|50000"] := rfl
  rw [h]
  unfold rebuildSignalTableFromResidual
  rw [if_neg (by decide), hk, currentBigUnit_demoUi]
  rfl

/-- C11 (as stated) fails for the anchor map: the saved state has a cluster of 120
contracts and no anchor timestamp; `loadSnapshot` rebuilds the signal table after
reading the blob, which shows the cluster and records its last-trade timestamp 5000 as
anchor, so the anchor map after loading is not the map that was saved. -/
theorem loadSnapshot_adds_anchor :
    ¬ (∀ key,
        (loadSnapshot demoCodec demoUi 0 (saveSnapshot demoCodec 0 demoSaved)
            MainState.empty).2.signalAnchorTsByKey.lookup key =
          demoSaved.signalAnchorTsByKey.lookup key) := by
  intro h
  have h1 := h "1000000|1|50000"
  have hq : hashValue demoLoaded.residualQtyByKey "1000000|1|50000" 0 = 120 := by
    unfold hashValue
    have : demoLoaded.residualQtyByKey.lookup "1000000|1|50000" =
        demoSaved.residualQtyByKey.lookup "1000000|1|50000" :=
      loadMapD_saved (saveSnapshotObject 0 demoSaved) "residualQty" demoSaved.residualQtyByKey
        rfl _
    rw [this]
    rfl
  have h120 : |(120 : ℚ)| = 120 := abs_of_pos (by norm_num)
  rw [loadSnapshot_demo] at h1
  simp only at h1
  rw [rebuildKey_creates_anchor demoUi 50 "1000000|1|50000" demoRebuildStart (by decide)
    (by decide)
    (by
      show ¬ |hashValue demoLoaded.residualQtyByKey "1000000|1|50000" 0| < ((50 : Int) : ℚ)
      rw [hq, h120]; norm_num)
    (by
      show ¬ |hashValue demoLoaded.residualQtyByKey "1000000|1|50000" 0| <
        max (demoUi.spinMinSize.getD 0) 1
      rw [hq, h120]
      simp [demoUi])
    rfl] at h1
  have hn : demoSaved.signalAnchorTsByKey.lookup "1000000|1|50000" = none := rfl
  rw [hn] at h1
  cases h1

/-- C11 (amended): for every state and every JSON codec that reads back what it writes,
`loadSnapshot` on the blob written by `saveSnapshot` succeeds and leaves the six residual
maps identical, key for key and value for value, to what they were when saved, and every
anchor timestamp that was saved is present with the same value; the rebuild that
`loadSnapshot` runs may add anchor entries for clusters it displays. -/
theorem loadSnapshot_after_saveSnapshot {B : Type} (codec : Codec B)
    (hrt : ∀ j, codec.fromJson (codec.toJson j) = some j)
    (hne : ∀ j, codec.isEmpty (codec.toJson j) = false)
    (ui : Ui) (nowSave nowLoad : Int) (s s0 : MainState) :
    (loadSnapshot codec ui nowLoad (saveSnapshot codec nowSave s) s0).1 = true ∧
      residualRestored s (loadSnapshot codec ui nowLoad (saveSnapshot codec nowSave s) s0).2 ∧
      anchorsKept s (loadSnapshot codec ui nowLoad (saveSnapshot codec nowSave s) s0).2 := by
  unfold loadSnapshot saveSnapshot
  rw [hne, hrt]
  simp only [if_neg (Bool.false_ne_true)]
  refine ⟨trivial, ?_, ?_⟩
  · obtain ⟨h1, h2, h3, h4, h5, h6⟩ := rebuild_frame ui nowLoad
      { s0 with
        lastSnapshotTs := truncToInt (objValue (saveSnapshotObject nowSave s) "ts").toDouble
        residualQtyByKey := loadMapD (saveSnapshotObject nowSave s) "residualQty"
        residualDVolByKey := loadMapD (saveSnapshotObject nowSave s) "residualDVol"
        residualSignedQtyByKey := loadMapD (saveSnapshotObject nowSave s) "residualSignedQty"
        residualLastTsByKey := loadMapI64 (saveSnapshotObject nowSave s) "residualLastTs"
        residualTradesByKey := loadMapI (saveSnapshotObject nowSave s) "residualTrades"
        residualInstsByKey := loadMapSet (saveSnapshotObject nowSave s) "residualInsts"
        signalAnchorTsByKey := loadMapI64 (saveSnapshotObject nowSave s) "signalAnchorTs"
        amtSamples := loadSamples (saveSnapshotObject nowSave s)
        lastIV := loadMapD (saveSnapshotObject nowSave s) "lastIV"
        lastDelta := loadMapD (saveSnapshotObject nowSave s) "lastDelta" }
    unfold residualRestored
    rw [h1, h2, h3, h4, h5, h6]
    exact ⟨loadMapD_saved _ _ s.residualQtyByKey rfl, loadMapD_saved _ _ s.residualDVolByKey rfl,
      loadMapD_saved _ _ s.residualSignedQtyByKey rfl,
      loadMapI64_saved _ _ s.residualLastTsByKey rfl,
      loadMapI_saved _ _ s.residualTradesByKey rfl,
      loadMapSet_saved _ _ s.residualInstsByKey rfl⟩
  · intro key v hv
    apply rebuild_anchor_kept
    show (loadMapI64 (saveSnapshotObject nowSave s) "signalAnchorTs").lookup key = some v
    rw [loadMapI64_saved (saveSnapshotObject nowSave s) "signalAnchorTs" s.signalAnchorTsByKey
      rfl]
    exact hv

theorem loadSnapshot_after_saveSnapshot_witness :
    (∀ j, demoCodec.fromJson (demoCodec.toJson j) = some j) ∧
      (∀ j, demoCodec.isEmpty (demoCodec.toJson j) = false) ∧
      (loadSnapshot demoCodec demoUi 0 (saveSnapshot demoCodec 0 demoSaved)
          MainState.empty).1 = true ∧
      residualRestored demoSaved
        (loadSnapshot demoCodec demoUi 0 (saveSnapshot demoCodec 0 demoSaved)
          MainState.empty).2 ∧
      anchorsKept demoSaved
        (loadSnapshot demoCodec demoUi 0 (saveSnapshot demoCodec 0 demoSaved)
          MainState.empty).2 :=
  ⟨fun _ => rfl, fun _ => rfl,
    loadSnapshot_after_saveSnapshot demoCodec (fun _ => rfl) (fun _ => rfl) demoUi 0 0 demoSaved
      MainState.empty⟩

/-! ## The pumps -/

/-- What the loop of `fullBackfillPump` does: it takes some `k` tasks off the front of the
queue, and stops when the queue is empty or the counter has reached the limit. -/
theorem pumpLoop_spec (q : List FullTask) (infl : Int) (pend : List FullTask)
    (reqs : List (String × Int × Int)) :
    ∃ k : Nat, k ≤ q.length ∧
      pumpLoop q infl pend reqs =
        (q.drop k, infl + k, pend ++ (q.take k).map windowOf,
          reqs ++ (q.take k).map (fun t => (t.inst, t.fromMs, (windowOf t).toMs))) ∧
      (k = 0 ∨ infl + k ≤ AUTO_MAX_INFLIGHT) ∧
      (q.drop k = [] ∨ AUTO_MAX_INFLIGHT ≤ infl + k) := by
  induction q generalizing infl pend reqs with
  | nil => exact ⟨0, le_refl _, by simp [pumpLoop], Or.inl rfl, Or.inl rfl⟩
  | cons t q ih =>
    by_cases h : infl < AUTO_MAX_INFLIGHT
    · obtain ⟨k, hk, he, h1, h2⟩ := ih (infl + 1)
        (pend ++ [⟨t.inst, t.fromMs, min (t.fromMs + t.stepMs) t.toMs, t.stepMs⟩])
        (reqs ++ [(t.inst, t.fromMs, min (t.fromMs + t.stepMs) t.toMs)])
      refine ⟨k + 1, by simpa using hk, ?_, Or.inr ?_, ?_⟩
      · rw [pumpLoop, if_pos h, he]
        simp [windowOf, add_assoc, add_comm 1 (k : Int)]
      · rcases h1 with h1 | h1
        · subst h1; push_cast; omega
        · push_cast; omega
      · rcases h2 with h2 | h2
        · exact Or.inl (by simpa using h2)
        · exact Or.inr (by push_cast; omega)
    · refine ⟨0, Nat.zero_le _, by simp [pumpLoop, h], Or.inl rfl, Or.inr ?_⟩
      simpa using not_lt.mp h
/-- The fields of the state after `fullBackfillPump`. -/
theorem fullBackfillPump_spec (s : FullState) :
    ∃ k : Nat, k ≤ s.fullQueue.length ∧
      (fullBackfillPump s).fullQueue = s.fullQueue.drop k ∧
      (fullBackfillPump s).fullInflight = s.fullInflight + k ∧
      (fullBackfillPump s).pending = s.pending ++ (s.fullQueue.take k).map windowOf ∧
      (fullBackfillPump s).requested = s.requested ++
        (s.fullQueue.take k).map (fun t => (t.inst, t.fromMs, (windowOf t).toMs)) ∧
      (k = 0 ∨ s.fullInflight + k ≤ AUTO_MAX_INFLIGHT) ∧
      (s.fullQueue.drop k = [] ∨ AUTO_MAX_INFLIGHT ≤ s.fullInflight + k) ∧
      (fullBackfillPump s).fullDone =
        (if s.fullInflight + k = 0 ∧ s.fullQueue.drop k = [] ∧ s.fullDone = false then true
          else s.fullDone) := by
  obtain ⟨k, hk, he, h1, h2⟩ := pumpLoop_spec s.fullQueue s.fullInflight s.pending s.requested
  refine ⟨k, hk, ?_, ?_, ?_, ?_, h1, h2, ?_⟩ <;> simp only [fullBackfillPump, he]

/-- The follow-up task goes to the front of the queue. -/
theorem followUp_append (req : FullTask) (rows : List (Option Int)) (q : List FullTask) :
    followUp req rows ++ q =
      if resumeFromOf req rows (adaptStep rows.length req.stepMs) < req.toMs then
        ⟨req.inst, resumeFromOf req rows (adaptStep rows.length req.stepMs), req.toMs,
          adaptStep rows.length req.stepMs⟩ :: q
      else q := by
  unfold followUp
  split <;> rfl

/-- The completion handler is `fullAfterReply` followed by the pump. -/
theorem onWindowFinished_eq (req : FullTask) (reply : Reply) (s : FullState) :
    onWindowFinished req reply s = fullBackfillPump (fullAfterReply req reply s) := by
  cases reply with
  | networkError => rfl
  | parseFailure =>
    simp only [fullAfterReply, followUp_append]
    rfl
  | trades rows =>
    simp only [fullAfterReply, followUp_append]
    rfl

/-- The follow-up task, when there is one. -/
theorem mem_followUp (req : FullTask) (rows : List (Option Int)) (t : FullTask)
    (h : t ∈ followUp req rows) :
    t = ⟨req.inst, resumeFromOf req rows (adaptStep rows.length req.stepMs), req.toMs,
          adaptStep rows.length req.stepMs⟩ ∧
      resumeFromOf req rows (adaptStep rows.length req.stepMs) < req.toMs := by
  unfold followUp at h
  split at h
  · exact ⟨List.mem_singleton.mp h, by assumption⟩
  · cases h

/-- The queue after the completion handler's own steps: the old queue and the tasks of
`followUp` or, after a transport failure, the request itself. -/
theorem mem_fullAfterReply_queue (req : FullTask) (reply : Reply) (s : FullState)
    (t : FullTask) (h : t ∈ (fullAfterReply req reply s).fullQueue) :
    t ∈ s.fullQueue ∨ (reply = Reply.networkError ∧ t = req) ∨
      (reply = Reply.parseFailure ∧ t ∈ followUp req []) ∨
      (∃ rows, reply = Reply.trades rows ∧ t ∈ followUp req rows) := by
  cases reply with
  | networkError =>
    rcases List.mem_append.mp h with h | h
    · exact Or.inl h
    · exact Or.inr (Or.inl ⟨rfl, List.mem_singleton.mp h⟩)
  | parseFailure =>
    rcases List.mem_append.mp h with h | h
    · exact Or.inr (Or.inr (Or.inl ⟨rfl, h⟩))
    · exact Or.inl h
  | trades rows =>
    rcases List.mem_append.mp h with h | h
    · exact Or.inr (Or.inr (Or.inr ⟨rows, rfl, h⟩))
    · exact Or.inl h

/-- An invariant of the three kinds of event holds along every run. -/
theorem runFullEvents_inv (P : FullState → Prop)
    (hinit : ∀ e live now s, P s → P (fullBackfillLiveExpiriesInit e live now s))
    (hpump : ∀ s, P s → P (fullBackfillPump s))
    (hfin : ∀ i reply s, P s → P (finishRequest i reply s)) :
    ∀ (evs : List FullEvent) (s : FullState), P s → P (runFullEvents evs s) := by
  intro evs
  induction evs with
  | nil => intro s h; exact h
  | cons e es ih =>
    intro s h
    cases e with
    | init e live now => exact ih _ (hinit e live now s h)
    | pump => exact ih _ (hpump s h)
    | finish i reply => exact ih _ (hfin i reply s h)

theorem tdiv_two_of_nonneg (a : Int) (h : 0 ≤ a) : Int.tdiv a 2 = a / 2 :=
  Int.tdiv_eq_ediv h (by decide)

/-- The adapted step stays between five minutes and twenty-four hours. -/
theorem adaptStep_bounds (n : Nat) (stepMs : Int)
    (h : 5 * 60 * 1000 ≤ stepMs ∧ stepMs ≤ 24 * HOUR_MS) :
    5 * 60 * 1000 ≤ adaptStep n stepMs ∧ adaptStep n stepMs ≤ 24 * HOUR_MS := by
  obtain ⟨h1, h2⟩ := h
  have e1 : Int.tdiv stepMs 2 = stepMs / 2 := tdiv_two_of_nonneg _ (by omega)
  have e2 : Int.tdiv (stepMs * 3) 2 = stepMs * 3 / 2 := tdiv_two_of_nonneg _ (by omega)
  unfold adaptStep
  rw [e1, e2]
  simp only [HOUR_MS] at h2 ⊢
  split
  · constructor
    · exact le_max_left _ _
    · apply max_le <;> omega
  · split
    · constructor
      · apply le_min <;> omega
      · exact min_le_left _ _
    · exact ⟨h1, h2⟩

/-- The step bounds hold for the queue and for the pending requests. -/
theorem stepInBounds_pump (s : FullState)
    (h : (∀ t ∈ s.fullQueue, stepInBounds t) ∧ (∀ t ∈ s.pending, stepInBounds t)) :
    (∀ t ∈ (fullBackfillPump s).fullQueue, stepInBounds t) ∧
      (∀ t ∈ (fullBackfillPump s).pending, stepInBounds t) := by
  obtain ⟨k, _, hq, _, hp, _⟩ := fullBackfillPump_spec s
  rw [hq, hp]
  constructor
  · intro t ht
    exact h.1 t (List.mem_of_mem_drop ht)
  · intro t ht
    rcases List.mem_append.mp ht with ht | ht
    · exact h.2 t ht
    · obtain ⟨u, hu, rfl⟩ := List.mem_map.mp ht
      exact h.1 u (List.mem_of_mem_take hu)

theorem stepInBounds_afterReply (req : FullTask) (reply : Reply) (s : FullState)
    (hreq : stepInBounds req)
    (h : (∀ t ∈ s.fullQueue, stepInBounds t) ∧ (∀ t ∈ s.pending, stepInBounds t)) :
    (∀ t ∈ (fullAfterReply req reply s).fullQueue, stepInBounds t) ∧
      (∀ t ∈ (fullAfterReply req reply s).pending, stepInBounds t) := by
  constructor
  · intro t ht
    rcases mem_fullAfterReply_queue req reply s t ht with ht | ⟨_, rfl⟩ | ⟨_, ht⟩ | ⟨rows, _, ht⟩
    · exact h.1 t ht
    · exact hreq
    · rw [(mem_followUp req [] t ht).1]
      exact adaptStep_bounds (List.length ([] : List (Option Int))) req.stepMs hreq
    · rw [(mem_followUp req rows t ht).1]; exact adaptStep_bounds _ req.stepMs hreq
  · cases reply <;> exact h.2

theorem stepInBounds_finish (i : Nat) (reply : Reply) (s : FullState)
    (h : (∀ t ∈ s.fullQueue, stepInBounds t) ∧ (∀ t ∈ s.pending, stepInBounds t)) :
    (∀ t ∈ (finishRequest i reply s).fullQueue, stepInBounds t) ∧
      (∀ t ∈ (finishRequest i reply s).pending, stepInBounds t) := by
  unfold finishRequest
  cases hg : s.pending.get? i with
  | none => exact h
  | some req =>
    simp only []
    rw [onWindowFinished_eq]
    apply stepInBounds_pump
    apply stepInBounds_afterReply
    · exact h.2 req (List.get?_mem hg)
    · exact ⟨h.1, fun t ht => h.2 t (List.mem_of_mem_eraseIdx ht)⟩

theorem stepInBounds_init (e : Bool) (live : List (String × Int)) (now : Int) (s : FullState)
    (h : (∀ t ∈ s.fullQueue, stepInBounds t) ∧ (∀ t ∈ s.pending, stepInBounds t)) :
    (∀ t ∈ (fullBackfillLiveExpiriesInit e live now s).fullQueue, stepInBounds t) ∧
      (∀ t ∈ (fullBackfillLiveExpiriesInit e live now s).pending, stepInBounds t) := by
  unfold fullBackfillLiveExpiriesInit
  split
  · exact ⟨fun t ht => (by cases ht), h.2⟩
  · apply stepInBounds_pump
    refine ⟨?_, h.2⟩
    intro t ht
    obtain ⟨p, _, rfl⟩ := List.mem_map.mp ht
    simp only [stepInBounds, initialTask, HOUR_MS]
    decide

/-- C26: after a fetched window that returned `n` rows (a parse failure counts as zero
rows) the follow-up task put in front of the queue carries the step
`max(5 min, s/2)` if `n >= 1000`, `min(24 h, s*3/2)` if `n < 800`, and `s` otherwise,
where `s` is the step of the finished request; and along every run of the full pipeline
that starts from the fresh window, every task in the queue carries a step between five
minutes and twenty-four hours. -/
theorem full_step_rule_and_bounds :
    (∀ (req : FullTask) (rows : List (Option Int)) (s : FullState),
      ∀ t ∈ (fullAfterReply req (Reply.trades rows) s).fullQueue,
        t ∈ s.fullQueue ∨
          t.stepMs =
            (if 1000 ≤ rows.length then max (5 * 60 * 1000) (Int.tdiv req.stepMs 2)
             else if rows.length < 800 then min (24 * HOUR_MS) (Int.tdiv (req.stepMs * 3) 2)
             else req.stepMs)) ∧
    (∀ (req : FullTask) (s : FullState),
      ∀ t ∈ (fullAfterReply req Reply.parseFailure s).fullQueue,
        t ∈ s.fullQueue ∨ t.stepMs = min (24 * HOUR_MS) (Int.tdiv (req.stepMs * 3) 2)) ∧
    (∀ (evs : List FullEvent),
      ∀ t ∈ (runFullEvents evs FullState.initial).fullQueue,
        5 * 60 * 1000 ≤ t.stepMs ∧ t.stepMs ≤ 24 * HOUR_MS) := by
  refine ⟨?_, ?_, ?_⟩
  · intro req rows s t ht
    rcases List.mem_append.mp ht with ht | ht
    · right; rw [(mem_followUp req rows t ht).1]; rfl
    · exact Or.inl ht
  · intro req s t ht
    rcases List.mem_append.mp ht with ht | ht
    · right; rw [(mem_followUp req [] t ht).1]; rfl
    · exact Or.inl ht
  · intro evs
    exact (runFullEvents_inv
      (fun s => (∀ t ∈ s.fullQueue, stepInBounds t) ∧ (∀ t ∈ s.pending, stepInBounds t))
      stepInBounds_init stepInBounds_pump stepInBounds_finish evs FullState.initial
      ⟨fun t ht => (by cases ht), fun t ht => (by cases ht)⟩).1

/-- C26 at concrete inputs: a window that returned one row grows the six-hour step to
nine hours, and the ninth of nine queued instruments waits with its six-hour step. -/
theorem full_step_rule_and_bounds_witness :
    ((⟨"I1", 1, 21600000, 32400000⟩ : FullTask) ∈ FullState.initial.fullQueue ∨
      (32400000 : Int) =
        (if 1000 ≤ [some (0 : Int)].length then max (5 * 60 * 1000) (Int.tdiv 21600000 2)
         else if [some (0 : Int)].length < 800 then
           min (24 * HOUR_MS) (Int.tdiv (21600000 * 3) 2)
         else 21600000)) ∧
    (5 * 60 * 1000 ≤ (initialTask "I9" 1702592000000 1700000000000).stepMs ∧
      (initialTask "I9" 1702592000000 1700000000000).stepMs ≤ 24 * HOUR_MS) :=
  ⟨full_step_rule_and_bounds.1 ⟨"I1", 0, 21600000, 21600000⟩ [some 0] FullState.initial
      ⟨"I1", 1, 21600000, 32400000⟩ (by decide),
   full_step_rule_and_bounds.2.2 [FullEvent.init false demoLive 1700000000000]
      (initialTask "I9" 1702592000000 1700000000000) (by decide)⟩

/-- The scan for `lastTsSeen` returns the initial value or one of the timestamps, and
nothing smaller than either. -/
theorem lastTsSeenOf_spec (rows : List (Option Int)) (acc : Int) :
    (lastTsSeenOf rows acc = acc ∨ some (lastTsSeenOf rows acc) ∈ rows) ∧
      acc ≤ lastTsSeenOf rows acc ∧
      ∀ ts, some ts ∈ rows → ts ≤ lastTsSeenOf rows acc := by
  induction rows generalizing acc with
  | nil => exact ⟨Or.inl rfl, le_refl _, fun ts h => by cases h⟩
  | cons r rs ih =>
    cases r with
    | none =>
      obtain ⟨h1, h2, h3⟩ := ih acc
      refine ⟨?_, h2, ?_⟩
      · rcases h1 with h1 | h1
        · exact Or.inl h1
        · exact Or.inr (List.mem_cons_of_mem _ h1)
      · intro ts hts
        rcases List.mem_cons.mp hts with hts | hts
        · cases hts
        · exact h3 ts hts
    | some x =>
      obtain ⟨h1, h2, h3⟩ := ih (if acc < x then x else acc)
      simp only [lastTsSeenOf]
      refine ⟨?_, ?_, ?_⟩
      · rcases h1 with h1 | h1
        · by_cases hx : acc < x
          · rw [if_pos hx] at h1 ⊢
            right; rw [h1]; exact List.mem_cons_self _ _
          · rw [if_neg hx] at h1 ⊢
            exact Or.inl h1
        · exact Or.inr (List.mem_cons_of_mem _ h1)
      · refine le_trans ?_ h2
        split <;> omega
      · intro ts hts
        rcases List.mem_cons.mp hts with hts | hts
        · cases hts
          refine le_trans ?_ h2
          split <;> omega
        · exact h3 ts hts

/-- The follow-up of a window whose step is in bounds and whose rows are not older than
its start. -/
theorem followUp_advances (req : FullTask) (rows : List (Option Int)) (t : FullTask)
    (hstep : stepInBounds req) (hrows : ∀ ts, some ts ∈ rows → req.fromMs ≤ ts)
    (ht : t ∈ followUp req rows) :
    t.inst = req.inst ∧ req.fromMs < t.fromMs ∧ t.fromMs < t.toMs ∧ t.toMs = req.toMs ∧
      stepInBounds t := by
  obtain ⟨rfl, hlt⟩ := mem_followUp req rows t ht
  have hb := adaptStep_bounds rows.length req.stepMs hstep
  refine ⟨rfl, ?_, hlt, rfl, hb⟩
  show req.fromMs < resumeFromOf req rows (adaptStep rows.length req.stepMs)
  unfold resumeFromOf at hlt ⊢
  obtain ⟨h1, _, _⟩ := lastTsSeenOf_spec rows (-1)
  split
  · rename_i h0
    rcases h1 with h1 | h1
    · omega
    · have := hrows _ h1
      omega
  · rename_i h0
    rw [if_neg h0] at hlt
    have := hb.1
    rcases min_cases req.toMs (req.fromMs + adaptStep rows.length req.stepMs + 1) with h | h
    · omega
    · omega

/-- Every pending request of a run carries a step within bounds. -/
theorem pending_stepInBounds (evs : List FullEvent) (req : FullTask)
    (h : req ∈ (runFullEvents evs FullState.initial).pending) : stepInBounds req :=
  (runFullEvents_inv
    (fun s => (∀ t ∈ s.fullQueue, stepInBounds t) ∧ (∀ t ∈ s.pending, stepInBounds t))
    stepInBounds_init stepInBounds_pump stepInBounds_finish evs FullState.initial
    ⟨fun t ht => (by cases ht), fun t ht => (by cases ht)⟩).2 req h

theorem stepInBounds_windowOf (t : FullTask) (h : stepInBounds t) :
    stepInBounds (windowOf t) := h

/-- The chain of windows ends within as many completions as the window is long. -/
theorem nthWindow_ends (respond : FullTask → List (Option Int))
    (hresp : ∀ w ts, some ts ∈ respond w → w.fromMs ≤ ts) :
    ∀ (n : Nat) (w : FullTask), stepInBounds w → w.toMs - w.fromMs ≤ n →
      nthWindow respond (n + 1) w = none := by
  intro n
  induction n with
  | zero =>
    intro w hw hn
    unfold nthWindow
    cases hf : followUp w (respond w) with
    | nil => rfl
    | cons t rest =>
      have ht : t ∈ followUp w (respond w) := by rw [hf]; exact List.mem_cons_self _ _
      obtain ⟨_, h1, h2, h3, _⟩ := followUp_advances w (respond w) t hw (hresp w) ht
      simp only [Nat.cast_zero] at hn
      omega
  | succ n ih =>
    intro w hw hn
    unfold nthWindow
    cases hf : followUp w (respond w) with
    | nil => rfl
    | cons t rest =>
      have ht : t ∈ followUp w (respond w) := by rw [hf]; exact List.mem_cons_self _ _
      obtain ⟨_, h1, h2, h3, h4⟩ := followUp_advances w (respond w) t hw (hresp w) ht
      simp only []
      apply ih _ (stepInBounds_windowOf t h4)
      simp only [windowOf]
      have := min_le_right (t.fromMs + t.stepMs) t.toMs
      push_cast at hn
      omega

/-! ## The delta pump -/

theorem deltaDoneCheck_fields (s : DeltaState) :
    (deltaDoneCheck s).deltaQueue = s.deltaQueue ∧
      (deltaDoneCheck s).deltaInflight = s.deltaInflight ∧
      (deltaDoneCheck s).pending = s.pending ∧
      (deltaDoneCheck s).deltaFromMs = s.deltaFromMs ∧
      (deltaDoneCheck s).deltaToMs = s.deltaToMs := by
  unfold deltaDoneCheck
  split <;> exact ⟨rfl, rfl, rfl, rfl, rfl⟩

/-- The delta pump keeps the counter within `0..8` and never touches the range. -/
theorem deltaPumpFuel_inflight (fuel : Nat) (s : DeltaState)
    (h : 0 ≤ s.deltaInflight ∧ s.deltaInflight ≤ AUTO_MAX_INFLIGHT) :
    0 ≤ (deltaPumpFuel fuel s).deltaInflight ∧
      (deltaPumpFuel fuel s).deltaInflight ≤ AUTO_MAX_INFLIGHT := by
  induction fuel generalizing s with
  | zero => exact h
  | succ fuel ih =>
    unfold deltaPumpFuel
    cases hq : s.deltaQueue with
    | nil => simp only []; rw [(deltaDoneCheck_fields s).2.1]; exact h
    | cons inst q =>
      simp only []
      split
      · rename_i hlt
        split
        · apply ih; apply ih
          simp only [AUTO_MAX_INFLIGHT] at hlt ⊢
          constructor
          · exact le_max_left _ _
          · apply max_le <;> omega
        · apply ih
          simp only [AUTO_MAX_INFLIGHT] at hlt ⊢
          omega
      · rw [(deltaDoneCheck_fields s).2.1]; exact h

/-- The delta pump leaves the range alone. -/
theorem deltaPumpFuel_range (fuel : Nat) (s : DeltaState) :
    (deltaPumpFuel fuel s).deltaFromMs = s.deltaFromMs ∧
      (deltaPumpFuel fuel s).deltaToMs = s.deltaToMs := by
  induction fuel generalizing s with
  | zero => exact ⟨rfl, rfl⟩
  | succ fuel ih =>
    unfold deltaPumpFuel
    cases hq : s.deltaQueue with
    | nil =>
      exact ⟨(deltaDoneCheck_fields s).2.2.2.1, (deltaDoneCheck_fields s).2.2.2.2⟩
    | cons inst q =>
      simp only []
      split
      · split
        · constructor
          · rw [(ih _).1, (ih _).1]
          · rw [(ih _).2, (ih _).2]
        · constructor
          · rw [(ih _).1]
          · rw [(ih _).2]
      · exact ⟨(deltaDoneCheck_fields s).2.2.2.1, (deltaDoneCheck_fields s).2.2.2.2⟩

/-- With an invalid range the delta pump sends nothing. -/
theorem deltaPumpFuel_invalid (fuel : Nat) (s : DeltaState) (h : s.deltaToMs ≤ s.deltaFromMs) :
    (deltaPumpFuel fuel s).pending = s.pending := by
  induction fuel generalizing s with
  | zero => rfl
  | succ fuel ih =>
    unfold deltaPumpFuel
    cases hq : s.deltaQueue with
    | nil => exact (deltaDoneCheck_fields s).2.2.1
    | cons inst q =>
      simp only []
      split
      · rw [ih, ih]
        · exact h
        · rw [(deltaPumpFuel_range _ _).1, (deltaPumpFuel_range _ _).2]; exact h
      · exact (deltaDoneCheck_fields s).2.2.1

/-- The delta pump sends at most as many requests as the counter leaves room for. -/
theorem deltaPumpFuel_room (fuel : Nat) (s : DeltaState)
    (h : s.deltaInflight ≤ AUTO_MAX_INFLIGHT) :
    ((deltaPumpFuel fuel s).pending.length : Int) + s.deltaInflight ≤
      s.pending.length + AUTO_MAX_INFLIGHT := by
  induction fuel generalizing s with
  | zero => simpa [deltaPumpFuel] using h
  | succ fuel ih =>
    by_cases hr : s.deltaToMs ≤ s.deltaFromMs
    · rw [deltaPumpFuel_invalid _ s hr]; omega
    · unfold deltaPumpFuel
      cases hq : s.deltaQueue with
      | nil => simp only []; rw [(deltaDoneCheck_fields s).2.2.1]; omega
      | cons inst q =>
        simp only []
        split
        · rename_i hlt
          have := ih { s with
              deltaQueue := q
              deltaInflight := s.deltaInflight + 1
              pending := s.pending ++ [(inst, s.deltaFromMs, s.deltaToMs)] } (by
            simp only [AUTO_MAX_INFLIGHT] at hlt ⊢; omega)
          simp only [List.length_append, List.length_singleton, Nat.cast_add,
            Nat.cast_one] at this
          omega
        · rw [(deltaDoneCheck_fields s).2.2.1]; omega

/-- With the counter at the limit the delta pump does nothing. -/
theorem deltaPumpFuel_full (fuel : Nat) (s : DeltaState)
    (h : AUTO_MAX_INFLIGHT ≤ s.deltaInflight) : deltaPumpFuel fuel s = s := by
  have h0 : s.deltaInflight ≠ 0 := by simp only [AUTO_MAX_INFLIGHT] at h; omega
  have hd : deltaDoneCheck s = s := by
    unfold deltaDoneCheck
    rw [if_neg (fun hc => h0 hc.1)]
  cases fuel with
  | zero => rfl
  | succ fuel =>
    unfold deltaPumpFuel
    cases hq : s.deltaQueue with
    | nil => exact hd
    | cons inst q =>
      simp only []
      rw [if_neg (not_lt.mpr h)]
      exact hd

/-- An invariant of the three kinds of event holds along every run of the delta
pipeline. -/
theorem runDeltaEvents_inv (P : DeltaState → Prop)
    (hinit : ∀ e names ts now s, P s → P (autoBackfillDeltaInit e names ts now s))
    (hpump : ∀ s, P s → P (autoBackfillDeltaPump s))
    (hfin : ∀ i reply s, P s → P (deltaFinish i reply s)) :
    ∀ (evs : List DeltaEvent) (s : DeltaState), P s → P (runDeltaEvents evs s) := by
  intro evs
  induction evs with
  | nil => intro s h; exact h
  | cons e es ih =>
    intro s h
    cases e with
    | init e names ts now => exact ih _ (hinit e names ts now s h)
    | pump => exact ih _ (hpump s h)
    | finish i reply => exact ih _ (hfin i reply s h)

theorem fullInflight_pump (s : FullState)
    (h : 0 ≤ s.fullInflight ∧ s.fullInflight ≤ AUTO_MAX_INFLIGHT) :
    0 ≤ (fullBackfillPump s).fullInflight ∧
      (fullBackfillPump s).fullInflight ≤ AUTO_MAX_INFLIGHT := by
  obtain ⟨k, _, _, hi, _, _, hk, _⟩ := fullBackfillPump_spec s
  rw [hi]
  rcases hk with hk | hk
  · subst hk; simpa using h
  · exact ⟨by omega, hk⟩

theorem fullInflight_afterReply (req : FullTask) (reply : Reply) (s : FullState)
    (h : 0 ≤ s.fullInflight ∧ s.fullInflight ≤ AUTO_MAX_INFLIGHT) :
    0 ≤ (fullAfterReply req reply s).fullInflight ∧
      (fullAfterReply req reply s).fullInflight ≤ AUTO_MAX_INFLIGHT := by
  have : (fullAfterReply req reply s).fullInflight = max 0 (s.fullInflight - 1) := by
    cases reply <;> rfl
  rw [this]
  exact ⟨le_max_left _ _, max_le (by decide) (by omega)⟩

theorem fullInflight_finish (i : Nat) (reply : Reply) (s : FullState)
    (h : 0 ≤ s.fullInflight ∧ s.fullInflight ≤ AUTO_MAX_INFLIGHT) :
    0 ≤ (finishRequest i reply s).fullInflight ∧
      (finishRequest i reply s).fullInflight ≤ AUTO_MAX_INFLIGHT := by
  unfold finishRequest
  cases s.pending.get? i with
  | none => exact h
  | some req =>
    simp only []
    rw [onWindowFinished_eq]
    exact fullInflight_pump _ (fullInflight_afterReply req reply _ h)

theorem fullInflight_init (e : Bool) (live : List (String × Int)) (now : Int) (s : FullState)
    (_h : 0 ≤ s.fullInflight ∧ s.fullInflight ≤ AUTO_MAX_INFLIGHT) :
    0 ≤ (fullBackfillLiveExpiriesInit e live now s).fullInflight ∧
      (fullBackfillLiveExpiriesInit e live now s).fullInflight ≤ AUTO_MAX_INFLIGHT := by
  unfold fullBackfillLiveExpiriesInit
  split
  · exact ⟨le_refl (0 : Int), (by decide : (0 : Int) ≤ AUTO_MAX_INFLIGHT)⟩
  · exact fullInflight_pump _ ⟨le_refl (0 : Int), (by decide : (0 : Int) ≤ AUTO_MAX_INFLIGHT)⟩

theorem deltaInflight_pump (s : DeltaState)
    (h : 0 ≤ s.deltaInflight ∧ s.deltaInflight ≤ AUTO_MAX_INFLIGHT) :
    0 ≤ (autoBackfillDeltaPump s).deltaInflight ∧
      (autoBackfillDeltaPump s).deltaInflight ≤ AUTO_MAX_INFLIGHT :=
  deltaPumpFuel_inflight _ s h

theorem deltaInflight_finish (i : Nat) (reply : Reply) (s : DeltaState)
    (h : 0 ≤ s.deltaInflight ∧ s.deltaInflight ≤ AUTO_MAX_INFLIGHT) :
    0 ≤ (deltaFinish i reply s).deltaInflight ∧
      (deltaFinish i reply s).deltaInflight ≤ AUTO_MAX_INFLIGHT := by
  unfold deltaFinish
  cases s.pending.get? i with
  | none => exact h
  | some req =>
    simp only []
    apply deltaInflight_pump
    simp only [deltaAfterReply]
    exact ⟨le_max_left _ _, max_le (by decide) (by omega)⟩

theorem deltaInflight_init (e : Bool) (names : List String) (ts now : Int) (s : DeltaState)
    (_h : 0 ≤ s.deltaInflight ∧ s.deltaInflight ≤ AUTO_MAX_INFLIGHT) :
    0 ≤ (autoBackfillDeltaInit e names ts now s).deltaInflight ∧
      (autoBackfillDeltaInit e names ts now s).deltaInflight ≤ AUTO_MAX_INFLIGHT := by
  unfold autoBackfillDeltaInit
  split_ifs
  all_goals first
    | exact ⟨le_refl (0 : Int), (by decide : (0 : Int) ≤ AUTO_MAX_INFLIGHT)⟩
    | exact deltaInflight_pump _
        ⟨le_refl (0 : Int), (by decide : (0 : Int) ≤ AUTO_MAX_INFLIGHT)⟩

/-- C22: along every sequence of initialisations, pump calls and completions (with any
reply, for any pending request) the in-flight counter of the full pipeline and that of
the delta pipeline stay within `0..8`; a pump call that finds the counter at 8 or above
dispatches nothing and leaves the queue alone, and one that finds it at `c <= 8` sends at
most `8 - c` requests.  The request for an invalid range, which the delta pump rejects
on the spot, is part of `autoBackfillDeltaPump`. -/
theorem inflight_within_limit :
    (∀ evs : List FullEvent,
      0 ≤ (runFullEvents evs FullState.initial).fullInflight ∧
        (runFullEvents evs FullState.initial).fullInflight ≤ 8) ∧
    (∀ evs : List DeltaEvent,
      0 ≤ (runDeltaEvents evs DeltaState.initial).deltaInflight ∧
        (runDeltaEvents evs DeltaState.initial).deltaInflight ≤ 8) ∧
    (∀ s : FullState,
      (8 ≤ s.fullInflight →
        (fullBackfillPump s).requested = s.requested ∧
        (fullBackfillPump s).pending = s.pending ∧
        (fullBackfillPump s).fullQueue = s.fullQueue) ∧
      (s.fullInflight ≤ 8 →
        ((fullBackfillPump s).requested.length : Int) + s.fullInflight ≤
          s.requested.length + 8)) ∧
    (∀ s : DeltaState,
      (8 ≤ s.deltaInflight → autoBackfillDeltaPump s = s) ∧
      (s.deltaInflight ≤ 8 →
        ((autoBackfillDeltaPump s).pending.length : Int) + s.deltaInflight ≤
          s.pending.length + 8)) := by
  refine ⟨?_, ?_, ?_, ?_⟩
  · intro evs
    exact runFullEvents_inv
      (fun s => 0 ≤ s.fullInflight ∧ s.fullInflight ≤ AUTO_MAX_INFLIGHT)
      fullInflight_init fullInflight_pump fullInflight_finish evs FullState.initial
      ⟨le_refl _, by decide⟩
  · intro evs
    exact runDeltaEvents_inv
      (fun s => 0 ≤ s.deltaInflight ∧ s.deltaInflight ≤ AUTO_MAX_INFLIGHT)
      deltaInflight_init deltaInflight_pump deltaInflight_finish evs DeltaState.initial
      ⟨le_refl _, by decide⟩
  · intro s
    obtain ⟨k, _, hq, _, hp, hr, hk, _⟩ := fullBackfillPump_spec s
    constructor
    · intro h8
      have hk0 : k = 0 := by
        rcases hk with hk | hk
        · exact hk
        · simp only [AUTO_MAX_INFLIGHT] at hk; omega
      subst hk0
      rw [hq, hp, hr]
      simp
    · intro h8
      rw [hr]
      rcases hk with hk | hk
      · subst hk; simp; omega
      · simp only [AUTO_MAX_INFLIGHT] at hk
        simp only [List.length_append, List.length_map, List.length_take, Nat.cast_add]
        have : ((min k s.fullQueue.length : Nat) : Int) ≤ k := by
          exact_mod_cast Nat.min_le_left _ _
        omega
  · intro s
    exact ⟨fun h8 => deltaPumpFuel_full _ s h8, fun h8 => deltaPumpFuel_room _ s h8⟩

/-- C22 at concrete inputs: after an initialisation with nine instruments both pipelines
have eight requests in flight, and a further pump call changes nothing; a pump call on
the fresh pipelines sends at most eight requests. -/
theorem inflight_within_limit_witness :
    (8 ≤ demoFullBusy.fullInflight ∧
      (fullBackfillPump demoFullBusy).requested = demoFullBusy.requested ∧
      (fullBackfillPump demoFullBusy).pending = demoFullBusy.pending ∧
      (fullBackfillPump demoFullBusy).fullQueue = demoFullBusy.fullQueue) ∧
    (FullState.initial.fullInflight ≤ 8 ∧
      ((fullBackfillPump FullState.initial).requested.length : Int) +
          FullState.initial.fullInflight ≤ FullState.initial.requested.length + 8) ∧
    (8 ≤ demoDeltaBusy.deltaInflight ∧ autoBackfillDeltaPump demoDeltaBusy = demoDeltaBusy) ∧
    (DeltaState.initial.deltaInflight ≤ 8 ∧
      ((autoBackfillDeltaPump DeltaState.initial).pending.length : Int) +
          DeltaState.initial.deltaInflight ≤ DeltaState.initial.pending.length + 8) :=
  ⟨⟨by decide, (inflight_within_limit.2.2.1 demoFullBusy).1 (by decide)⟩,
   ⟨by decide, (inflight_within_limit.2.2.1 FullState.initial).2 (by decide)⟩,
   ⟨by decide, (inflight_within_limit.2.2.2 demoDeltaBusy).1 (by decide)⟩,
   ⟨by decide, (inflight_within_limit.2.2.2 DeltaState.initial).2 (by decide)⟩⟩

theorem windowOf_idem (t : FullTask) : windowOf (windowOf t) = windowOf t := by
  simp only [windowOf, FullTask.mk.injEq, true_and, and_true]
  exact min_eq_right (min_le_left _ _)

theorem pendingWindows_pump (s : FullState) (h : ∀ p ∈ s.pending, windowOf p = p) :
    ∀ p ∈ (fullBackfillPump s).pending, windowOf p = p := by
  obtain ⟨k, _, _, _, hp, _⟩ := fullBackfillPump_spec s
  rw [hp]
  intro p hmem
  rcases List.mem_append.mp hmem with hmem | hmem
  · exact h p hmem
  · obtain ⟨u, _, rfl⟩ := List.mem_map.mp hmem
    exact windowOf_idem u

theorem fullAfterReply_pending (req : FullTask) (reply : Reply) (s : FullState) :
    (fullAfterReply req reply s).pending = s.pending := by
  cases reply <;> rfl

theorem pendingWindows_finish (i : Nat) (reply : Reply) (s : FullState)
    (h : ∀ p ∈ s.pending, windowOf p = p) :
    ∀ p ∈ (finishRequest i reply s).pending, windowOf p = p := by
  unfold finishRequest
  cases s.pending.get? i with
  | none => exact h
  | some req =>
    simp only []
    rw [onWindowFinished_eq]
    apply pendingWindows_pump
    rw [fullAfterReply_pending]
    exact fun p hp => h p (List.mem_of_mem_eraseIdx hp)

theorem pendingWindows_init (e : Bool) (live : List (String × Int)) (now : Int)
    (s : FullState) (h : ∀ p ∈ s.pending, windowOf p = p) :
    ∀ p ∈ (fullBackfillLiveExpiriesInit e live now s).pending, windowOf p = p := by
  unfold fullBackfillLiveExpiriesInit
  split
  · exact h
  · exact pendingWindows_pump _ h

/-- Every request in flight is the window the pump computes for it again. -/
theorem pending_windowOf (evs : List FullEvent) (req : FullTask)
    (h : req ∈ (runFullEvents evs FullState.initial).pending) : windowOf req = req :=
  runFullEvents_inv (fun s => ∀ p ∈ s.pending, windowOf p = p)
    pendingWindows_init pendingWindows_pump pendingWindows_finish evs FullState.initial
    (fun p hp => by cases hp) req h

/-- C24 (amended): when the request number `i` of a run of the full pipeline fails at
transport level, the handler appends the request itself to the back of the queue and
then calls the pump; whenever the pump dispatches that task it sends the same
instrument, start, end and step again.  When a request of the delta pipeline fails, the
handler leaves the delta queue as it is before it calls the pump.  In both cases the
counter `c` becomes `max(0, c - 1)`: one less if it was at least 1, and 0 if it was 0. -/
theorem transport_failure_requeue_or_drop :
    (∀ (evs : List FullEvent) (i : Nat) (req : FullTask),
      (runFullEvents evs FullState.initial).pending.get? i = some req →
      finishRequest i Reply.networkError (runFullEvents evs FullState.initial) =
        fullBackfillPump (fullAfterReply req Reply.networkError
          { runFullEvents evs FullState.initial with
            pending := (runFullEvents evs FullState.initial).pending.eraseIdx i }) ∧
      (fullAfterReply req Reply.networkError
          { runFullEvents evs FullState.initial with
            pending := (runFullEvents evs FullState.initial).pending.eraseIdx i }).fullQueue =
        (runFullEvents evs FullState.initial).fullQueue ++ [req] ∧
      (∀ q infl pend reqs, infl < AUTO_MAX_INFLIGHT →
        pumpLoop (req :: q) infl pend reqs =
          pumpLoop q (infl + 1) (pend ++ [req])
            (reqs ++ [(req.inst, req.fromMs, req.toMs)])) ∧
      (fullAfterReply req Reply.networkError
          { runFullEvents evs FullState.initial with
            pending := (runFullEvents evs FullState.initial).pending.eraseIdx i }).fullInflight =
        max 0 ((runFullEvents evs FullState.initial).fullInflight - 1) ∧
      (1 ≤ (runFullEvents evs FullState.initial).fullInflight →
        (fullAfterReply req Reply.networkError
            { runFullEvents evs FullState.initial with
              pending := (runFullEvents evs FullState.initial).pending.eraseIdx i }).fullInflight =
          (runFullEvents evs FullState.initial).fullInflight - 1)) ∧
    (∀ (s : DeltaState) (i : Nat) (r : String × Int × Int),
      s.pending.get? i = some r →
      deltaFinish i Reply.networkError s =
        autoBackfillDeltaPump (deltaAfterReply Reply.networkError
          { s with pending := s.pending.eraseIdx i }) ∧
      (deltaAfterReply Reply.networkError
          { s with pending := s.pending.eraseIdx i }).deltaQueue = s.deltaQueue ∧
      (deltaAfterReply Reply.networkError
          { s with pending := s.pending.eraseIdx i }).deltaInflight =
        max 0 (s.deltaInflight - 1) ∧
      (1 ≤ s.deltaInflight →
        (deltaAfterReply Reply.networkError
            { s with pending := s.pending.eraseIdx i }).deltaInflight =
          s.deltaInflight - 1)) := by
  refine ⟨?_, ?_⟩
  · intro evs i req h
    refine ⟨?_, rfl, ?_, rfl, fun hc => max_eq_right (Int.sub_nonneg_of_le hc)⟩
    · unfold finishRequest
      rw [h]
      exact onWindowFinished_eq _ _ _
    · intro q infl pend reqs hlt
      have hw := pending_windowOf evs req (List.get?_mem h)
      have e1 : (⟨req.inst, req.fromMs, min (req.fromMs + req.stepMs) req.toMs,
          req.stepMs⟩ : FullTask) = req := hw
      have e2 : min (req.fromMs + req.stepMs) req.toMs = req.toMs :=
        congrArg FullTask.toMs hw
      rw [pumpLoop, if_pos hlt, e1, e2]
  · intro s i r h
    refine ⟨?_, rfl, rfl, fun hc => max_eq_right (Int.sub_nonneg_of_le hc)⟩
    unfold deltaFinish
    rw [h]

/-- C24 at concrete inputs: the first window of `demoTask` and the first delta request
fail at transport level. -/
theorem transport_failure_requeue_or_drop_witness :
    ((fullAfterReply (windowOf demoTask) Reply.networkError
        { fullStart [demoTask] with pending := [] }).fullQueue = [windowOf demoTask] ∧
      pumpLoop [windowOf demoTask] 0 [] [] =
        pumpLoop [] (0 + 1) ([] ++ [windowOf demoTask])
          ([] ++ [((windowOf demoTask).inst, (windowOf demoTask).fromMs,
            (windowOf demoTask).toMs)]) ∧
      (fullAfterReply (windowOf demoTask) Reply.networkError
        { fullStart [demoTask] with pending := [] }).fullInflight = 1 - 1) ∧
    ((deltaAfterReply Reply.networkError
        { demoDeltaBusy with pending := demoDeltaBusy.pending.eraseIdx 0 }).deltaQueue =
        ["I9"] ∧
      (deltaAfterReply Reply.networkError
        { demoDeltaBusy with pending := demoDeltaBusy.pending.eraseIdx 0 }).deltaInflight =
        8 - 1) :=
  have h := transport_failure_requeue_or_drop.1
    [FullEvent.init false [("BTC-27DEC24-50000-C", 1702592000000)] 1700000000000] 0
    (windowOf demoTask) (by decide)
  have g := transport_failure_requeue_or_drop.2 demoDeltaBusy 0
    ("I1", 1699395200000, 1700000000000) (by decide)
  ⟨⟨h.2.1, h.2.2.1 [] 0 [] [] (by decide), h.2.2.2.2 (by decide)⟩,
   ⟨g.2.1, g.2.2.2 (by decide)⟩⟩

/-- C24 (as stated) fails: both pipelines are initialised again, with an empty
instrument list, while their first request is still in flight; the counters are back at
0, and when the request then fails the counter stays at 0 instead of going down by
one. -/
theorem transport_failure_counter_stays_zero :
    (demoFullReinit.pending.get? 0 = some (windowOf demoTask) ∧
      demoFullReinit.fullInflight = 0 ∧
      (fullAfterReply (windowOf demoTask) Reply.networkError
        { demoFullReinit with pending := demoFullReinit.pending.eraseIdx 0 }).fullInflight ≠
        demoFullReinit.fullInflight - 1) ∧
    (demoDeltaReinit.pending.get? 0 =
        some ("BTC-27DEC24-50000-C", 1699395200000, 1700000000000) ∧
      demoDeltaReinit.deltaInflight = 0 ∧
      (deltaAfterReply Reply.networkError
        { demoDeltaReinit with pending := demoDeltaReinit.pending.eraseIdx 0 }).deltaInflight ≠
        demoDeltaReinit.deltaInflight - 1) := by
  decide

/-- The delta pump never lengthens the queue. -/
theorem deltaPumpFuel_queue_length (fuel : Nat) (s : DeltaState) :
    (deltaPumpFuel fuel s).deltaQueue.length ≤ s.deltaQueue.length := by
  induction fuel generalizing s with
  | zero => exact le_refl _
  | succ fuel ih =>
    unfold deltaPumpFuel
    cases hq : s.deltaQueue with
    | nil => simp only []; rw [(deltaDoneCheck_fields s).1, hq]
    | cons inst q =>
      simp only []
      split
      · split
        · refine le_trans (ih _) (le_trans (ih _) ?_)
          exact Nat.le_succ _
        · exact le_trans (ih _) (Nat.le_succ _)
      · rw [(deltaDoneCheck_fields s).1, hq]

/-- The fuel of the delta pump is enough: any two amounts of fuel above the length of the
queue give the same result, so `autoBackfillDeltaPump` is the pump run to its end. -/
theorem deltaPumpFuel_enough (fuel : Nat) :
    ∀ (s : DeltaState) (fuel2 : Nat), s.deltaQueue.length < fuel →
      s.deltaQueue.length < fuel2 → deltaPumpFuel fuel s = deltaPumpFuel fuel2 s := by
  induction fuel with
  | zero => intro s fuel2 h; cases h
  | succ fuel ih =>
    intro s fuel2 h1 h2
    cases fuel2 with
    | zero => cases h2
    | succ fuel2 =>
      unfold deltaPumpFuel
      cases hq : s.deltaQueue with
      | nil => rfl
      | cons inst q =>
        rw [hq] at h1 h2
        simp only [List.length_cons] at h1 h2
        simp only []
        have hq1 : q.length < fuel := by omega
        have hq2 : q.length < fuel2 := by omega
        split
        · split
          · have e1 := ih (DeltaState.mk q (max 0 (s.deltaInflight + 1 - 1)) s.deltaDone
              s.deltaFromMs s.deltaToMs s.pending) fuel2 hq1 hq2
            have hl := deltaPumpFuel_queue_length fuel2 (DeltaState.mk q
              (max 0 (s.deltaInflight + 1 - 1)) s.deltaDone s.deltaFromMs s.deltaToMs s.pending)
            rw [e1]
            exact ih _ fuel2 (lt_of_le_of_lt hl hq1) (lt_of_le_of_lt hl hq2)
          · exact ih _ fuel2 hq1 hq2
        · rfl
/-! ## The done flag -/

theorem fullDoneFlags_head (evs : List FullEvent) (s : FullState) :
    ∃ rest, fullDoneFlags evs s = s.fullDone :: rest := by
  cases evs with
  | nil => exact ⟨[], rfl⟩
  | cons e es => exact ⟨_, rfl⟩

theorem deltaDoneFlags_head (evs : List DeltaEvent) (s : DeltaState) :
    ∃ rest, deltaDoneFlags evs s = s.deltaDone :: rest := by
  cases evs with
  | nil => exact ⟨[], rfl⟩
  | cons e es => exact ⟨_, rfl⟩

theorem risingEdges_cons_true (rest : List Bool) (h : ∀ b ∈ rest, b = true) :
    risingEdges (true :: rest) = 0 := by
  induction rest with
  | nil => rfl
  | cons b rest ih =>
    have hb : b = true := h b (List.mem_cons_self _ _)
    subst hb
    simp only [risingEdges, Bool.true_eq_false, false_and, if_false, Nat.zero_add]
    exact ih (fun c hc => h c (List.mem_cons_of_mem _ hc))

theorem fullBackfillPump_done_mono (s : FullState) (h : s.fullDone = true) :
    (fullBackfillPump s).fullDone = true := by
  simp only [fullBackfillPump, h]
  split <;> rfl

theorem fullAfterReply_done (req : FullTask) (reply : Reply) (s : FullState) :
    (fullAfterReply req reply s).fullDone = s.fullDone := by
  cases reply <;> rfl

theorem stepFull_done_mono (e : FullEvent) (s : FullState) (hn : e.noInit = true)
    (h : s.fullDone = true) : (stepFull e s).fullDone = true := by
  cases e with
  | init a b c => cases hn
  | pump => exact fullBackfillPump_done_mono s h
  | finish i reply =>
    simp only [stepFull, finishRequest]
    cases s.pending.get? i with
    | none => exact h
    | some req =>
      simp only []
      rw [onWindowFinished_eq]
      apply fullBackfillPump_done_mono
      rw [fullAfterReply_done]
      exact h

theorem fullDoneFlags_all_true (evs : List FullEvent) (hn : ∀ e ∈ evs, e.noInit = true)
    (s : FullState) (h : s.fullDone = true) : ∀ b ∈ fullDoneFlags evs s, b = true := by
  induction evs generalizing s with
  | nil =>
    intro b hb
    rw [List.mem_singleton.mp hb]; exact h
  | cons e es ih =>
    intro b hb
    rcases List.mem_cons.mp hb with hb | hb
    · rw [hb]; exact h
    · exact ih (fun x hx => hn x (List.mem_cons_of_mem _ hx)) _
        (stepFull_done_mono e s (hn e (List.mem_cons_self _ _)) h) b hb

theorem fullDoneFlags_edges (evs : List FullEvent) (hn : ∀ e ∈ evs, e.noInit = true)
    (s : FullState) : risingEdges (fullDoneFlags evs s) ≤ 1 := by
  induction evs generalizing s with
  | nil => exact Nat.zero_le _
  | cons e es ih =>
    have hes : ∀ x ∈ es, x.noInit = true := fun x hx => hn x (List.mem_cons_of_mem _ hx)
    obtain ⟨rest, hrest⟩ := fullDoneFlags_head es (stepFull e s)
    have hih := ih hes (stepFull e s)
    show risingEdges (s.fullDone :: fullDoneFlags es (stepFull e s)) ≤ 1
    rw [hrest] at hih ⊢
    simp only [risingEdges]
    by_cases hb : (stepFull e s).fullDone = true
    · have hall := fullDoneFlags_all_true es hes (stepFull e s) hb
      rw [hrest, hb] at hall
      rw [hb, risingEdges_cons_true rest (fun b hb2 => hall b (List.mem_cons_of_mem _ hb2))]
      split <;> omega
    · rw [if_neg (fun hc => hb hc.2)]
      omega

theorem deltaDoneCheck_done_mono (s : DeltaState) (h : s.deltaDone = true) :
    (deltaDoneCheck s).deltaDone = true := by
  unfold deltaDoneCheck
  split
  · rfl
  · exact h

theorem deltaPumpFuel_done_mono (fuel : Nat) (s : DeltaState) (h : s.deltaDone = true) :
    (deltaPumpFuel fuel s).deltaDone = true := by
  induction fuel generalizing s with
  | zero => exact h
  | succ fuel ih =>
    unfold deltaPumpFuel
    cases hq : s.deltaQueue with
    | nil => exact deltaDoneCheck_done_mono s h
    | cons inst q =>
      simp only []
      split
      · split
        · exact ih _ (ih _ h)
        · exact ih _ h
      · exact deltaDoneCheck_done_mono s h

theorem stepDelta_done_mono (e : DeltaEvent) (s : DeltaState) (hn : e.noInit = true)
    (h : s.deltaDone = true) : (stepDelta e s).deltaDone = true := by
  cases e with
  | init a b c d => cases hn
  | pump => exact deltaPumpFuel_done_mono _ s h
  | finish i reply =>
    simp only [stepDelta, deltaFinish]
    cases s.pending.get? i with
    | none => exact h
    | some req => exact deltaPumpFuel_done_mono _ _ h

theorem deltaDoneFlags_all_true (evs : List DeltaEvent) (hn : ∀ e ∈ evs, e.noInit = true)
    (s : DeltaState) (h : s.deltaDone = true) : ∀ b ∈ deltaDoneFlags evs s, b = true := by
  induction evs generalizing s with
  | nil =>
    intro b hb
    rw [List.mem_singleton.mp hb]; exact h
  | cons e es ih =>
    intro b hb
    rcases List.mem_cons.mp hb with hb | hb
    · rw [hb]; exact h
    · exact ih (fun x hx => hn x (List.mem_cons_of_mem _ hx)) _
        (stepDelta_done_mono e s (hn e (List.mem_cons_self _ _)) h) b hb

theorem deltaDoneFlags_edges (evs : List DeltaEvent) (hn : ∀ e ∈ evs, e.noInit = true)
    (s : DeltaState) : risingEdges (deltaDoneFlags evs s) ≤ 1 := by
  induction evs generalizing s with
  | nil => exact Nat.zero_le _
  | cons e es ih =>
    have hes : ∀ x ∈ es, x.noInit = true := fun x hx => hn x (List.mem_cons_of_mem _ hx)
    obtain ⟨rest, hrest⟩ := deltaDoneFlags_head es (stepDelta e s)
    have hih := ih hes (stepDelta e s)
    show risingEdges (s.deltaDone :: deltaDoneFlags es (stepDelta e s)) ≤ 1
    rw [hrest] at hih ⊢
    simp only [risingEdges]
    by_cases hb : (stepDelta e s).deltaDone = true
    · have hall := deltaDoneFlags_all_true es hes (stepDelta e s) hb
      rw [hrest, hb] at hall
      rw [hb, risingEdges_cons_true rest (fun b hb2 => hall b (List.mem_cons_of_mem _ hb2))]
      split <;> omega
    · rw [if_neg (fun hc => hb hc.2)]
      omega

/-- A delta pump that finds the queue empty and the flag set does nothing. -/
theorem deltaPumpFuel_idle (fuel : Nat) (u : DeltaState) (hd : u.deltaDone = true)
    (hq : u.deltaQueue = []) : deltaPumpFuel fuel u = u := by
  cases fuel with
  | zero => rfl
  | succ fuel =>
    unfold deltaPumpFuel
    rw [hq]
    simp only []
    unfold deltaDoneCheck
    rw [if_neg]
    rw [hd]
    exact fun hc => Bool.noConfusion hc.2.2

/-- The done branch of the delta pump runs only on drain. -/
theorem deltaPumpFuel_done_on_drain (fuel : Nat) (s : DeltaState)
    (h0 : s.deltaDone = false) (h1 : (deltaPumpFuel fuel s).deltaDone = true) :
    (deltaPumpFuel fuel s).deltaInflight = 0 ∧ (deltaPumpFuel fuel s).deltaQueue = [] := by
  have hcheck : ∀ u : DeltaState, u.deltaDone = false → (deltaDoneCheck u).deltaDone = true →
      (deltaDoneCheck u).deltaInflight = 0 ∧ (deltaDoneCheck u).deltaQueue = [] := by
    intro u hu0 hu1
    unfold deltaDoneCheck at hu1 ⊢
    split
    · rename_i hc; exact ⟨hc.1, hc.2.1⟩
    · rename_i hc; rw [if_neg hc, hu0] at hu1; cases hu1
  induction fuel generalizing s with
  | zero => rw [show deltaPumpFuel 0 s = s from rfl, h0] at h1; cases h1
  | succ fuel ih =>
    unfold deltaPumpFuel at h1 ⊢
    cases hq : s.deltaQueue with
    | nil =>
      rw [hq] at h1
      exact hcheck s h0 h1
    | cons inst q =>
      rw [hq] at h1
      simp only [] at h1 ⊢
      split at h1
      · rename_i hlt
        rw [if_pos hlt]
        split at h1
        · rename_i hr
          rw [if_pos hr]
          cases hd : (deltaPumpFuel fuel
            { s with deltaQueue := q, deltaInflight := max 0 (s.deltaInflight + 1 - 1) }).deltaDone with
          | false => exact ih _ hd h1
          | true =>
            have hin := ih { s with deltaQueue := q, deltaInflight := max 0 (s.deltaInflight + 1 - 1) } h0 hd
            rw [deltaPumpFuel_idle fuel _ hd hin.2]
            exact hin
        · rename_i hr
          rw [if_neg hr]
          exact ih _ h0 h1
      · rename_i hlt
        rw [if_neg hlt]
        exact hcheck s h0 h1

/-- C25: in the full and in the delta pipeline a pump call that sets the done flag (the
done branch runs exactly when it finds the flag unset, and sets it) ends with the
in-flight counter at 0 and the queue empty; and along every sequence of pump calls and
completions, from any state (in particular the one an initialisation hands to its pump
call), the flag goes from unset to set at most once. -/
theorem done_branch_one_shot :
    (∀ s : FullState, s.fullDone = false → (fullBackfillPump s).fullDone = true →
      (fullBackfillPump s).fullInflight = 0 ∧ (fullBackfillPump s).fullQueue = []) ∧
    (∀ s : DeltaState, s.deltaDone = false → (autoBackfillDeltaPump s).deltaDone = true →
      (autoBackfillDeltaPump s).deltaInflight = 0 ∧ (autoBackfillDeltaPump s).deltaQueue = []) ∧
    (∀ (evs : List FullEvent) (s : FullState), (∀ e ∈ evs, e.noInit = true) →
      risingEdges (fullDoneFlags evs s) ≤ 1) ∧
    (∀ (evs : List DeltaEvent) (s : DeltaState), (∀ e ∈ evs, e.noInit = true) →
      risingEdges (deltaDoneFlags evs s) ≤ 1) := by
  refine ⟨?_, ?_, ?_, ?_⟩
  · intro s h0 h1
    obtain ⟨k, _, hq, hi, _, _, _, _, hd⟩ := fullBackfillPump_spec s
    rw [hd] at h1
    rw [hq, hi]
    by_cases hc : s.fullInflight + k = 0 ∧ s.fullQueue.drop k = [] ∧ s.fullDone = false
    · exact ⟨hc.1, hc.2.1⟩
    · rw [if_neg hc, h0] at h1; cases h1
  · intro s h0 h1
    exact deltaPumpFuel_done_on_drain _ s h0 h1
  · intro evs s hn
    exact fullDoneFlags_edges evs hn s
  · intro evs s hn
    exact deltaDoneFlags_edges evs hn s

/-- C25 at concrete inputs: one window (one delta request) is sent and answered with an
empty reply; the flag is set by the pump call of the completion, with nothing in
flight and nothing queued, and only there. -/
theorem done_branch_one_shot_witness :
    (((fullBackfillPump ⟨[], 0, false, [], []⟩).fullInflight = 0 ∧
        (fullBackfillPump ⟨[], 0, false, [], []⟩).fullQueue = []) ∧
      ((autoBackfillDeltaPump ⟨[], 0, false, 0, 1, []⟩).deltaInflight = 0 ∧
        (autoBackfillDeltaPump ⟨[], 0, false, 0, 1, []⟩).deltaQueue = [])) ∧
    (fullDoneFlags [FullEvent.pump, FullEvent.finish 0 (Reply.trades []), FullEvent.pump]
        ⟨[demoTask], 0, false, [], []⟩ = [false, false, true, true] ∧
      risingEdges (fullDoneFlags
        [FullEvent.pump, FullEvent.finish 0 (Reply.trades []), FullEvent.pump]
        ⟨[demoTask], 0, false, [], []⟩) ≤ 1) ∧
    (deltaDoneFlags [DeltaEvent.pump, DeltaEvent.finish 0 (Reply.trades []), DeltaEvent.pump]
        ⟨["I1"], 0, false, 0, 1, []⟩ = [false, false, true, true] ∧
      risingEdges (deltaDoneFlags
        [DeltaEvent.pump, DeltaEvent.finish 0 (Reply.trades []), DeltaEvent.pump]
        ⟨["I1"], 0, false, 0, 1, []⟩) ≤ 1) :=
  ⟨⟨done_branch_one_shot.1 ⟨[], 0, false, [], []⟩ rfl (by decide),
    done_branch_one_shot.2.1 ⟨[], 0, false, 0, 1, []⟩ rfl (by decide)⟩,
   ⟨by decide, done_branch_one_shot.2.2.1 _ _ (by decide)⟩,
   ⟨by decide, done_branch_one_shot.2.2.2 _ _ (by decide)⟩⟩

/-! ## Windows of the full pipeline stay inside the first window -/

theorem replyOk_rows (req : FullTask) (rows : List (Option Int))
    (h : replyOk req (Reply.trades rows) = true) :
    ∀ ts, some ts ∈ rows → req.fromMs ≤ ts := by
  intro ts hts
  have := List.all_eq_true.mp h (some ts) hts
  simpa using this

/-- What is kept along a run that started from `tasks`: every queued task and every
pending request has a step within bounds and descends from one of `tasks`, pending
requests are windows, and so is everything that was ever requested. -/
theorem lineage_pump (lo : Bool) (tasks : List FullTask) (s : FullState)
    (h : (∀ t ∈ s.fullQueue, stepInBounds t ∧ ∃ t0 ∈ tasks, descends lo t0 t) ∧
      (∀ p ∈ s.pending, stepInBounds p ∧ windowOf p = p ∧ ∃ t0 ∈ tasks, descends lo t0 p) ∧
      (∀ r ∈ s.requested, ∃ t0 ∈ tasks, t0.inst = r.1 ∧ (lo = true → t0.fromMs ≤ r.2.1) ∧
        r.2.2 ≤ (windowOf t0).toMs)) :
    (∀ t ∈ (fullBackfillPump s).fullQueue, stepInBounds t ∧ ∃ t0 ∈ tasks, descends lo t0 t) ∧
      (∀ p ∈ (fullBackfillPump s).pending,
        stepInBounds p ∧ windowOf p = p ∧ ∃ t0 ∈ tasks, descends lo t0 p) ∧
      (∀ r ∈ (fullBackfillPump s).requested,
        ∃ t0 ∈ tasks, t0.inst = r.1 ∧ (lo = true → t0.fromMs ≤ r.2.1) ∧
          r.2.2 ≤ (windowOf t0).toMs) := by
  obtain ⟨hq, hp, hr⟩ := h
  obtain ⟨k, _, eq, _, ep, er, _⟩ := fullBackfillPump_spec s
  rw [eq, ep, er]
  refine ⟨?_, ?_, ?_⟩
  · intro t ht
    exact hq t (List.mem_of_mem_drop ht)
  · intro p hmem
    rcases List.mem_append.mp hmem with hmem | hmem
    · exact hp p hmem
    · obtain ⟨u, hu, rfl⟩ := List.mem_map.mp hmem
      obtain ⟨hs, t0, ht0, hd1, hd2, hd3⟩ := hq u (List.mem_of_mem_take hu)
      refine ⟨hs, windowOf_idem u, t0, ht0, hd1, hd2, ?_⟩
      rw [windowOf_idem]; exact hd3
  · intro r hmem
    rcases List.mem_append.mp hmem with hmem | hmem
    · exact hr r hmem
    · obtain ⟨u, hu, rfl⟩ := List.mem_map.mp hmem
      obtain ⟨_, t0, ht0, hd1, hd2, hd3⟩ := hq u (List.mem_of_mem_take hu)
      exact ⟨t0, ht0, hd1, hd2, hd3⟩

theorem windowOf_toMs_le (t : FullTask) : (windowOf t).toMs ≤ t.toMs :=
  min_le_right _ _

theorem lineage_finish (lo : Bool) (tasks : List FullTask) (i : Nat) (reply : Reply)
    (s : FullState)
    (hok : lo = true → ∀ req, s.pending.get? i = some req → replyOk req reply = true)
    (h : (∀ t ∈ s.fullQueue, stepInBounds t ∧ ∃ t0 ∈ tasks, descends lo t0 t) ∧
      (∀ p ∈ s.pending, stepInBounds p ∧ windowOf p = p ∧ ∃ t0 ∈ tasks, descends lo t0 p) ∧
      (∀ r ∈ s.requested, ∃ t0 ∈ tasks, t0.inst = r.1 ∧ (lo = true → t0.fromMs ≤ r.2.1) ∧
        r.2.2 ≤ (windowOf t0).toMs)) :
    (∀ t ∈ (finishRequest i reply s).fullQueue,
        stepInBounds t ∧ ∃ t0 ∈ tasks, descends lo t0 t) ∧
      (∀ p ∈ (finishRequest i reply s).pending,
        stepInBounds p ∧ windowOf p = p ∧ ∃ t0 ∈ tasks, descends lo t0 p) ∧
      (∀ r ∈ (finishRequest i reply s).requested,
        ∃ t0 ∈ tasks, t0.inst = r.1 ∧ (lo = true → t0.fromMs ≤ r.2.1) ∧
          r.2.2 ≤ (windowOf t0).toMs) := by
  unfold finishRequest
  cases hg : s.pending.get? i with
  | none => exact h
  | some req =>
    obtain ⟨hq, hp, hr⟩ := h
    obtain ⟨hs, hw, t0, ht0, hd1, hd2, hd3⟩ := hp req (List.get?_mem hg)
    simp only []
    rw [onWindowFinished_eq]
    apply lineage_pump
    have hfollow : ∀ rows : List (Option Int),
        (lo = true → ∀ ts, some ts ∈ rows → req.fromMs ≤ ts) →
        ∀ t ∈ followUp req rows, stepInBounds t ∧ ∃ t0 ∈ tasks, descends lo t0 t := by
      intro rows hrows t ht
      obtain ⟨e, _⟩ := mem_followUp req rows t ht
      have hb := adaptStep_bounds rows.length req.stepMs hs
      refine ⟨by rw [e]; exact hb, t0, ht0, by rw [e]; exact hd1, ?_, ?_⟩
      · intro hlo
        have := (followUp_advances req rows t hs (hrows hlo) ht).2.1
        have := hd2 hlo
        omega
      · have h1 := windowOf_toMs_le t
        have h2 : t.toMs = req.toMs := by rw [e]
        have h3 : (windowOf req).toMs = req.toMs := by rw [hw]
        omega
    refine ⟨?_, ?_, ?_⟩
    · intro t ht
      rcases mem_fullAfterReply_queue req reply _ t ht with ht | ⟨_, rfl⟩ | ⟨_, ht⟩ | ⟨rows, hrep, ht⟩
      · exact hq t ht
      · exact ⟨hs, t0, ht0, hd1, hd2, hd3⟩
      · exact hfollow [] (fun _ ts hts => by cases hts) t ht
      · refine hfollow rows (fun hlo => ?_) t ht
        apply replyOk_rows
        rw [← hrep]
        exact hok hlo req hg
    · rw [fullAfterReply_pending]
      exact fun p hmem => hp p (List.mem_of_mem_eraseIdx hmem)
    · have : (fullAfterReply req reply { s with pending := s.pending.eraseIdx i }).requested =
          s.requested := by cases reply <;> rfl
      rw [this]
      exact hr

theorem lineage_run (lo : Bool) (tasks : List FullTask) (evs : List (Nat × Reply)) :
    ∀ s : FullState, (lo = true → respectsWindows evs s = true) →
      ((∀ t ∈ s.fullQueue, stepInBounds t ∧ ∃ t0 ∈ tasks, descends lo t0 t) ∧
        (∀ p ∈ s.pending, stepInBounds p ∧ windowOf p = p ∧ ∃ t0 ∈ tasks, descends lo t0 p) ∧
        (∀ r ∈ s.requested, ∃ t0 ∈ tasks, t0.inst = r.1 ∧ (lo = true → t0.fromMs ≤ r.2.1) ∧
          r.2.2 ≤ (windowOf t0).toMs)) →
      ((∀ t ∈ (runFull evs s).fullQueue, stepInBounds t ∧ ∃ t0 ∈ tasks, descends lo t0 t) ∧
        (∀ p ∈ (runFull evs s).pending,
          stepInBounds p ∧ windowOf p = p ∧ ∃ t0 ∈ tasks, descends lo t0 p) ∧
        (∀ r ∈ (runFull evs s).requested,
          ∃ t0 ∈ tasks, t0.inst = r.1 ∧ (lo = true → t0.fromMs ≤ r.2.1) ∧
            r.2.2 ≤ (windowOf t0).toMs)) := by
  induction evs with
  | nil => intro s _ h; exact h
  | cons e es ih =>
    intro s hresp h
    obtain ⟨i, reply⟩ := e
    show _ ∧ _ ∧ _
    apply ih (finishRequest i reply s)
    · intro hlo
      have := hresp hlo
      simp only [respectsWindows, Bool.and_eq_true] at this
      exact this.2
    · apply lineage_finish lo tasks i reply s _ h
      intro hlo req hg
      have := hresp hlo
      simp only [respectsWindows, Bool.and_eq_true, hg] at this
      exact this.1

theorem lineage_start (lo : Bool) (tasks : List FullTask)
    (hsteps : ∀ t ∈ tasks, stepInBounds t) :
    (∀ t ∈ (fullStart tasks).fullQueue, stepInBounds t ∧ ∃ t0 ∈ tasks, descends lo t0 t) ∧
      (∀ p ∈ (fullStart tasks).pending,
        stepInBounds p ∧ windowOf p = p ∧ ∃ t0 ∈ tasks, descends lo t0 p) ∧
      (∀ r ∈ (fullStart tasks).requested,
        ∃ t0 ∈ tasks, t0.inst = r.1 ∧ (lo = true → t0.fromMs ≤ r.2.1) ∧
          r.2.2 ≤ (windowOf t0).toMs) := by
  apply lineage_pump
  refine ⟨?_, fun p hp => (by cases hp), fun r hr => (by cases hr)⟩
  intro t ht
  exact ⟨hsteps t ht, t, ht, rfl, fun _ => le_refl _, le_refl _⟩

/-- A window of the pipeline that comes back without rows has no follow-up. -/
theorem followUp_nil_of_window (req : FullTask) (hs : stepInBounds req)
    (hw : windowOf req = req) : followUp req [] = [] := by
  unfold followUp
  rw [if_neg]
  have hto : req.toMs ≤ req.fromMs + req.stepMs := by
    have := congrArg FullTask.toMs hw
    simp only [windowOf] at this
    rw [← this]
    exact min_le_left _ _
  obtain ⟨h1, h2⟩ := hs
  have e2 : Int.tdiv (req.stepMs * 3) 2 = req.stepMs * 3 / 2 :=
    tdiv_two_of_nonneg _ (by omega)
  have hstep : req.stepMs ≤ adaptStep (List.length ([] : List (Option Int))) req.stepMs := by
    simp only [adaptStep, List.length_nil, HOUR_MS] at h2 ⊢
    rw [if_neg (by decide), if_pos (by decide), e2]
    apply le_min <;> omega
  simp only [resumeFromOf, lastTsSeenOf]
  rw [if_neg (by decide)]
  rw [min_eq_left (by omega)]
  exact lt_irrefl _

/-- C29 (amended): let the pipeline start from `tasks`, one per instrument, each with a
step between five minutes and twenty-four hours, and let any requests complete with any
replies.  Every window ever requested for the instrument of a task `t0` ends no later
than `min(t0.fromMs + t0.stepMs, t0.toMs)`, the end of the first window of `t0`; if no
reply carries a trade stamped before the start of its window, every such window also
starts no earlier than `t0.fromMs`; and a window that comes back with zero rows has no
follow-up task. -/
theorem full_windows_inside_first_window (tasks : List FullTask) (evs : List (Nat × Reply))
    (hsteps : ∀ t ∈ tasks, stepInBounds t) (hdistinct : (tasks.map FullTask.inst).Nodup) :
    (∀ t0 ∈ tasks, ∀ r ∈ (runFull evs (fullStart tasks)).requested, r.1 = t0.inst →
      r.2.2 ≤ min (t0.fromMs + t0.stepMs) t0.toMs) ∧
    (respectsWindows evs (fullStart tasks) = true →
      ∀ t0 ∈ tasks, ∀ r ∈ (runFull evs (fullStart tasks)).requested, r.1 = t0.inst →
        t0.fromMs ≤ r.2.1) ∧
    (∀ req ∈ (runFull evs (fullStart tasks)).pending, ∀ s : FullState,
      followUp req [] = [] ∧
      (fullAfterReply req (Reply.trades []) s).fullQueue = s.fullQueue) := by
  have huniq : ∀ a ∈ tasks, ∀ b ∈ tasks, a.inst = b.inst → a = b :=
    fun a ha b hb hab => List.inj_on_of_nodup_map hdistinct ha hb hab
  refine ⟨?_, ?_, ?_⟩
  · intro t0 ht0 r hr hinst
    obtain ⟨u, hu, hu1, _, hu3⟩ :=
      (lineage_run false tasks evs (fullStart tasks) (fun h => by cases h)
        (lineage_start false tasks hsteps)).2.2 r hr
    have : u = t0 := huniq u hu t0 ht0 (by rw [hu1, hinst])
    rw [← this]
    exact hu3
  · intro hresp t0 ht0 r hr hinst
    obtain ⟨u, hu, hu1, hu2, _⟩ :=
      (lineage_run true tasks evs (fullStart tasks) (fun _ => hresp)
        (lineage_start true tasks hsteps)).2.2 r hr
    have : u = t0 := huniq u hu t0 ht0 (by rw [hu1, hinst])
    rw [← this]
    exact hu2 rfl
  · intro req hreq s
    obtain ⟨hs, hw, _⟩ :=
      (lineage_run false tasks evs (fullStart tasks) (fun h => by cases h)
        (lineage_start false tasks hsteps)).2.1 req hreq
    have hnil := followUp_nil_of_window req hs hw
    refine ⟨hnil, ?_⟩
    show followUp req [] ++ s.fullQueue = s.fullQueue
    rw [hnil]
    rfl

/-- C29 at a concrete input: the first window of `demoTask` comes back with one trade
stamped at its start; the next window starts one millisecond later and ends with the
first window. -/
theorem full_windows_inside_first_window_witness :
    ((1689653600000 : Int) ≤ min (demoTask.fromMs + demoTask.stepMs) demoTask.toMs) ∧
    (demoTask.fromMs ≤ (1689632000001 : Int)) ∧
    (followUp (windowOf demoTask) [] = [] ∧
      (fullAfterReply (windowOf demoTask) (Reply.trades []) FullState.initial).fullQueue =
        FullState.initial.fullQueue) :=
  have h := full_windows_inside_first_window [demoTask]
    [(0, Reply.trades [some 1689632000000])] (by decide) (by decide)
  ⟨h.1 demoTask (by decide)
      ("BTC-27DEC24-50000-C", 1689632000001, 1689653600000) (by decide) rfl,
   h.2.1 (by decide) demoTask (by decide)
      ("BTC-27DEC24-50000-C", 1689632000001, 1689653600000) (by decide) rfl,
   (full_windows_inside_first_window [demoTask] [] (by decide) (by decide)).2.2
      (windowOf demoTask) (by decide) FullState.initial⟩

/-- C29 (as stated) fails: the first window of `demoTask`, which starts at
`1689632000000`, comes back with one trade stamped `5`; the next window requested for
the instrument starts at `6`, before the start of the task. -/
theorem full_window_starts_before_task :
    ("BTC-27DEC24-50000-C", (6 : Int), (32400006 : Int)) ∈
        (runFull [(0, Reply.trades [some 5])] (fullStart [demoTask])).requested ∧
      demoTask.inst = "BTC-27DEC24-50000-C" ∧
      ¬ demoTask.fromMs ≤ (6 : Int) := by
  decide

/-! ## The manual pipeline has no in-flight gate -/

theorem foldl_requestTickerFor (targets : List String) (s : ManualState) :
    targets.foldl (fun acc inst => requestTickerFor inst acc) s =
      { s with
        pendingTickers := s.pendingTickers + targets.length
        tickersInFlight := s.tickersInFlight ++ targets } := by
  induction targets generalizing s with
  | nil => simp
  | cons t ts ih =>
    rw [List.foldl_cons, ih]
    simp only [requestTickerFor, List.length_cons, Nat.cast_add, Nat.cast_one,
      List.append_assoc, List.singleton_append, ManualState.mk.injEq, and_true, true_and]
    omega

theorem foldl_requestBackfillFor (targets : List String) (s : ManualState) :
    targets.foldl (fun acc inst => requestBackfillFor inst acc) s =
      { s with
        backfillPending := s.backfillPending + targets.length
        backfillsInFlight := s.backfillsInFlight ++ targets } := by
  induction targets generalizing s with
  | nil => simp
  | cons t ts ih =>
    rw [List.foldl_cons, ih]
    simp only [requestBackfillFor, List.length_cons, Nat.cast_add, Nat.cast_one,
      List.append_assoc, List.singleton_append, ManualState.mk.injEq, and_true, true_and]
    omega

/-- A click on the idle pipeline sends the ticker request of every target at once. -/
theorem onBackfillClicked_idle (targets : List String) (h : targets ≠ []) :
    onBackfillClicked targets ManualState.idle =
      ⟨targets.length, 0, targets, []⟩ := by
  unfold onBackfillClicked prefetchTickersForTargets
  rw [if_neg h]
  simp only [foldl_requestTickerFor, ManualState.idle, zero_add, List.nil_append]
  rw [if_neg]
  have : 0 < targets.length := List.length_pos.mpr h
  omega

/-- Either the ticker phase is running, with the counter equal to the number of ticker
requests in flight, or it is over; in both phases at most `n` fetches are in flight. -/
theorem manual_phase_tickerFinished (targets : List String) (i : Nat) (s : ManualState)
    (h : (s.backfillsInFlight = [] ∧ s.pendingTickers = s.tickersInFlight.length ∧
        s.tickersInFlight.length ≤ targets.length) ∨
      (s.tickersInFlight = [] ∧ s.backfillsInFlight.length ≤ targets.length)) :
    ((tickerFinished targets i s).backfillsInFlight = [] ∧
        (tickerFinished targets i s).pendingTickers =
          (tickerFinished targets i s).tickersInFlight.length ∧
        (tickerFinished targets i s).tickersInFlight.length ≤ targets.length) ∨
      ((tickerFinished targets i s).tickersInFlight = [] ∧
        (tickerFinished targets i s).backfillsInFlight.length ≤ targets.length) := by
  unfold tickerFinished
  cases hg : s.tickersInFlight.get? i with
  | none => exact h
  | some x =>
    simp only []
    have hi : i < s.tickersInFlight.length := by
      rcases Nat.lt_or_ge i s.tickersInFlight.length with hlt | hge
      · exact hlt
      · rw [List.get?_eq_none.mpr hge] at hg; cases hg
    rcases h with ⟨hb, hp, hl⟩ | ⟨ht, _⟩
    · have hlen : (s.tickersInFlight.eraseIdx i).length = s.tickersInFlight.length - 1 :=
        List.length_eraseIdx_of_lt hi
      split
      · rename_i hz
        right
        rw [foldl_requestBackfillFor]
        simp only [hb, List.nil_append, le_refl, and_true]
        apply List.eq_nil_of_length_eq_zero
        rw [hlen]
        omega
      · left
        refine ⟨hb, ?_, ?_⟩
        · simp only [hlen]
          omega
        · simp only [hlen]
          omega
    · rw [ht] at hi
      cases hi

theorem manual_phase_backfillFinished (targets : List String) (i : Nat) (s : ManualState)
    (h : (s.backfillsInFlight = [] ∧ s.pendingTickers = s.tickersInFlight.length ∧
        s.tickersInFlight.length ≤ targets.length) ∨
      (s.tickersInFlight = [] ∧ s.backfillsInFlight.length ≤ targets.length)) :
    ((backfillFinished i s).backfillsInFlight = [] ∧
        (backfillFinished i s).pendingTickers =
          (backfillFinished i s).tickersInFlight.length ∧
        (backfillFinished i s).tickersInFlight.length ≤ targets.length) ∨
      ((backfillFinished i s).tickersInFlight = [] ∧
        (backfillFinished i s).backfillsInFlight.length ≤ targets.length) := by
  unfold backfillFinished
  cases hg : s.backfillsInFlight.get? i with
  | none => exact h
  | some x =>
    simp only []
    rcases h with ⟨hb, _, _⟩ | ⟨ht, hl⟩
    · rw [hb] at hg; cases hg
    · right
      refine ⟨ht, le_trans ?_ hl⟩
      rw [List.length_eraseIdx]
      split <;> omega

theorem manual_phase_run (targets : List String) (evs : List ManualEvent) :
    ∀ s : ManualState,
      ((s.backfillsInFlight = [] ∧ s.pendingTickers = s.tickersInFlight.length ∧
          s.tickersInFlight.length ≤ targets.length) ∨
        (s.tickersInFlight = [] ∧ s.backfillsInFlight.length ≤ targets.length)) →
      (runManual targets evs s).inFlight ≤ targets.length := by
  induction evs with
  | nil =>
    intro s h
    simp only [runManual, ManualState.inFlight]
    rcases h with ⟨hb, _, hl⟩ | ⟨ht, hl⟩
    · rw [hb]; simpa using hl
    · rw [ht]; simpa using hl
  | cons e es ih =>
    intro s h
    cases e with
    | tickerDone i => exact ih _ (manual_phase_tickerFinished targets i s h)
    | backfillDone i => exact ih _ (manual_phase_backfillFinished targets i s h)

/-- C23 (amended): the manual pipeline has no in-flight gate.  A click on the idle
pipeline sends the ticker request of every target instrument at once, so as many
fetches are in flight as there are targets; `chooseAndSubscribe` picks at most 8 calls
and 8 puts, hence at most 16 targets; and along every sequence of completions after
that click the number of ticker and trade-history requests in flight never exceeds the
number of targets. -/
theorem manual_inflight_le_targets :
    (∀ calls puts : List String, (chooseTargets calls puts).length ≤ 16) ∧
    (∀ targets : List String, targets ≠ [] →
      (onBackfillClicked targets ManualState.idle).tickersInFlight = targets ∧
      (onBackfillClicked targets ManualState.idle).inFlight = targets.length) ∧
    (∀ (targets : List String) (evs : List ManualEvent), targets ≠ [] →
      (runManual targets evs (onBackfillClicked targets ManualState.idle)).inFlight ≤
        targets.length) := by
  refine ⟨?_, ?_, ?_⟩
  · intro calls puts
    simp only [chooseTargets, List.length_append, List.length_take]
    omega
  · intro targets h
    rw [onBackfillClicked_idle targets h]
    exact ⟨rfl, by simp [ManualState.inFlight]⟩
  · intro targets evs h
    apply manual_phase_run
    rw [onBackfillClicked_idle targets h]
    exact Or.inl ⟨rfl, rfl, le_refl _⟩

/-- C23 at a concrete input: nine targets, all nine ticker requests in flight after the
click, and at most nine fetches in flight after two completions. -/
theorem manual_inflight_le_targets_witness :
    ((onBackfillClicked demoTargets ManualState.idle).tickersInFlight = demoTargets ∧
      (onBackfillClicked demoTargets ManualState.idle).inFlight = demoTargets.length) ∧
    (runManual demoTargets [ManualEvent.tickerDone 0, ManualEvent.tickerDone 3]
        (onBackfillClicked demoTargets ManualState.idle)).inFlight ≤ demoTargets.length :=
  ⟨manual_inflight_le_targets.2.1 demoTargets (by decide),
   manual_inflight_le_targets.2.2 demoTargets
    [ManualEvent.tickerDone 0, ManualEvent.tickerDone 3] (by decide)⟩

/-- C23 (as stated) fails: with eight calls and one put as targets, nine ticker
requests are in flight right after the click. -/
theorem manual_nine_fetches_in_flight :
    demoTargets.length = 9 ∧
      (onBackfillClicked demoTargets ManualState.idle).tickersInFlight.length = 9 ∧
      ¬ (onBackfillClicked demoTargets ManualState.idle).inFlight ≤ 8 := by
  decide

/-! ## Burst statistics -/

theorem foldl_mergeBurst_stats (env : Env) (rest : List TradeEvent) :
    ∀ b0 : FlowBurst, 1 ≤ b0.trades →
      (rest.foldl
        (fun b e => mergeBurst e (strikeFromInst env e.instrument)
          (deltaSigned env (isCallFromInst e.instrument) (strikeFromInst env e.instrument)
            e.delta) b) b0).trades = b0.trades + rest.length ∧
      (rest.foldl
        (fun b e => mergeBurst e (strikeFromInst env e.instrument)
          (deltaSigned env (isCallFromInst e.instrument) (strikeFromInst env e.instrument)
            e.delta) b) b0).qtySum = b0.qtySum + (rest.map (fun e => |e.amount|)).sum ∧
      (rest.foldl
        (fun b e => mergeBurst e (strikeFromInst env e.instrument)
          (deltaSigned env (isCallFromInst e.instrument) (strikeFromInst env e.instrument)
            e.delta) b) b0).lastMs =
        (match rest with
          | [] => b0.lastMs
          | e :: r => (r.getLastD e).tsMs) ∧
      (rest.foldl
        (fun b e => mergeBurst e (strikeFromInst env e.instrument)
          (deltaSigned env (isCallFromInst e.instrument) (strikeFromInst env e.instrument)
            e.delta) b) b0).centerK * ((b0.trades : ℚ) + rest.length) =
        b0.centerK * (b0.trades : ℚ) +
          (rest.map (fun e => strikeFromInst env e.instrument)).sum := by
  induction rest with
  | nil => intro b0 _; simp
  | cons e r ih =>
    intro b0 h0
    have hmax : max 1 b0.trades = b0.trades := max_eq_right h0
    have hpos : (0 : ℚ) < (b0.trades : ℚ) + 1 := by
      have : (1 : ℚ) ≤ (b0.trades : ℚ) := by exact_mod_cast h0
      linarith
    obtain ⟨i1, i2, i3, i4⟩ := ih (mergeBurst e (strikeFromInst env e.instrument)
      (deltaSigned env (isCallFromInst e.instrument) (strikeFromInst env e.instrument) e.delta)
      b0) (by simp only [mergeBurst]; omega)
    simp only [List.foldl_cons, List.map_cons, List.sum_cons, List.length_cons]
    refine ⟨?_, ?_, ?_, ?_⟩
    · rw [i1]; simp only [mergeBurst]; push_cast; ring
    · rw [i2]; simp only [mergeBurst]; ring
    · rw [i3]
      cases r with
      | nil => rfl
      | cons e2 r2 => simp only [List.getLastD_cons]
    · have hc : (mergeBurst e (strikeFromInst env e.instrument)
          (deltaSigned env (isCallFromInst e.instrument) (strikeFromInst env e.instrument)
            e.delta) b0).centerK * ((b0.trades : ℚ) + 1) =
          b0.centerK * (b0.trades : ℚ) + strikeFromInst env e.instrument := by
        simp only [mergeBurst, hmax]
        field_simp
      have ht : ((mergeBurst e (strikeFromInst env e.instrument)
          (deltaSigned env (isCallFromInst e.instrument) (strikeFromInst env e.instrument)
            e.delta) b0).trades : ℚ) = (b0.trades : ℚ) + 1 := by
        simp only [mergeBurst]; push_cast; ring
      rw [ht, hc] at i4
      push_cast
      linear_combination i4

/-- The statistics of a burst built from its trades. -/
theorem burstOfTrades_stats (env : Env) (ev : TradeEvent) (rest : List TradeEvent) :
    (burstOfTrades env ev rest).trades = rest.length + 1 ∧
      (burstOfTrades env ev rest).qtySum = ((ev :: rest).map (fun e => |e.amount|)).sum ∧
      (burstOfTrades env ev rest).lastMs = (rest.getLastD ev).tsMs ∧
      (burstOfTrades env ev rest).centerK =
        ((ev :: rest).map (fun e => strikeFromInst env e.instrument)).sum /
          ((rest.length : ℚ) + 1) := by
  obtain ⟨h1, h2, h3, h4⟩ := foldl_mergeBurst_stats env rest
    (newBurst ev (decide (0 < ev.sign)) (isCallFromInst ev.instrument)
      (strikeFromInst env ev.instrument)
      (deltaSigned env (isCallFromInst ev.instrument) (strikeFromInst env ev.instrument)
        ev.delta)) (le_refl _)
  have hpos : (0 : ℚ) < (rest.length : ℚ) + 1 := by positivity
  refine ⟨?_, ?_, ?_, ?_⟩
  · unfold burstOfTrades; rw [h1]; simp only [newBurst]; ring
  · unfold burstOfTrades; rw [h2]; simp only [newBurst, List.map_cons, List.sum_cons]
  · unfold burstOfTrades; rw [h3]
    cases rest with
    | nil => rfl
    | cons e r => simp only [List.getLastD_cons]
  · unfold burstOfTrades
    rw [eq_div_iff (ne_of_gt hpos)]
    have e1 : (newBurst ev (decide (0 < ev.sign)) (isCallFromInst ev.instrument)
        (strikeFromInst env ev.instrument)
        (deltaSigned env (isCallFromInst ev.instrument) (strikeFromInst env ev.instrument)
          ev.delta)).trades = 1 := rfl
    have e2 : (newBurst ev (decide (0 < ev.sign)) (isCallFromInst ev.instrument)
        (strikeFromInst env ev.instrument)
        (deltaSigned env (isCallFromInst ev.instrument) (strikeFromInst env ev.instrument)
          ev.delta)).centerK = strikeFromInst env ev.instrument := rfl
    rw [e1, e2] at h4
    rw [List.map_cons, List.sum_cons]
    push_cast at h4
    linear_combination h4

theorem absorb_elems (ev : TradeEvent) (isBuy isCall : Bool) (k dS : ℚ)
    (bursts : List FlowBurst) (x : FlowBurst) (hx : x ∈ (absorb ev isBuy isCall k dS bursts).1) :
    x ∈ bursts ∨ x = newBurst ev isBuy isCall k dS ∨
      ∃ b ∈ bursts, x = mergeBurst ev k dS b := by
  unfold absorb at hx
  split at hx
  · rcases List.mem_append.mp hx with h | h
    · exact Or.inl h
    · exact Or.inr (Or.inl (List.mem_singleton.mp h))
  · split at hx
    · rename_i b hb
      rcases List.mem_or_eq_of_mem_set hx with h | h
      · exact Or.inl h
      · exact Or.inr (Or.inr ⟨b, List.get?_mem hb, h⟩)
    · rcases List.mem_append.mp hx with h | h
      · exact Or.inl h
      · exact Or.inr (Or.inl (List.mem_singleton.mp h))

/-- Every burst left open by a detector call was open before, or is the burst the trade
opened, or is an open burst with the trade merged into it. -/
theorem onNewTradeForBurst_bursts_elems (env : Env) (u g : Int) (ev : TradeEvent)
    (d : Detector) (x : FlowBurst) (hx : x ∈ (onNewTradeForBurst env u g ev d).bursts) :
    x ∈ d.bursts ∨
      x = newBurst ev (decide (0 < ev.sign)) (isCallFromInst ev.instrument)
        (strikeFromInst env ev.instrument)
        (deltaSigned env (isCallFromInst ev.instrument) (strikeFromInst env ev.instrument)
          ev.delta) ∨
      ∃ b ∈ d.bursts, x = mergeBurst ev (strikeFromInst env ev.instrument)
        (deltaSigned env (isCallFromInst ev.instrument) (strikeFromInst env ev.instrument)
          ev.delta) b := by
  have key : ∀ y, y ∈ (absorb ev (decide (0 < ev.sign)) (isCallFromInst ev.instrument)
      (strikeFromInst env ev.instrument)
      (deltaSigned env (isCallFromInst ev.instrument) (strikeFromInst env ev.instrument)
        ev.delta) (evictBursts ev.tsMs d.bursts)).1 →
      y ∈ d.bursts ∨
      y = newBurst ev (decide (0 < ev.sign)) (isCallFromInst ev.instrument)
        (strikeFromInst env ev.instrument)
        (deltaSigned env (isCallFromInst ev.instrument) (strikeFromInst env ev.instrument)
          ev.delta) ∨
      ∃ b ∈ d.bursts, y = mergeBurst ev (strikeFromInst env ev.instrument)
        (deltaSigned env (isCallFromInst ev.instrument) (strikeFromInst env ev.instrument)
          ev.delta) b := by
    intro y hy
    rcases absorb_elems _ _ _ _ _ _ y hy with h | h | ⟨b, hb, h⟩
    · exact Or.inl (List.mem_of_mem_filter h)
    · exact Or.inr (Or.inl h)
    · exact Or.inr (Or.inr ⟨b, List.mem_of_mem_filter hb, h⟩)
  unfold onNewTradeForBurst at hx
  simp only [] at hx
  split at hx
  · exact Or.inl hx
  · split at hx
    · exact Or.inl hx
    · split at hx
      · exact key x hx
      · split at hx
        · split at hx
          · exact key x (List.mem_of_mem_eraseIdx hx)
          · exact key x (List.mem_of_mem_eraseIdx hx)
        · exact key x hx

theorem burstOfTrades_snoc (env : Env) (ev : TradeEvent) (rest : List TradeEvent)
    (e : TradeEvent) :
    burstOfTrades env ev (rest ++ [e]) =
      mergeBurst e (strikeFromInst env e.instrument)
        (deltaSigned env (isCallFromInst e.instrument) (strikeFromInst env e.instrument)
          e.delta) (burstOfTrades env ev rest) := by
  unfold burstOfTrades
  rw [List.foldl_append]
  rfl

/-- Every open burst of a run is built from trades of the run. -/
theorem runDetector_bursts (env : Env) (P : TradeEvent → Prop) (calls : List BurstCall) :
    ∀ d : Detector, (∀ c ∈ calls, P c.ev) →
      (∀ b ∈ d.bursts, ∃ ev rest, b = burstOfTrades env ev rest ∧ ∀ e ∈ ev :: rest, P e) →
      ∀ b ∈ (runDetector env calls d).bursts,
        ∃ ev rest, b = burstOfTrades env ev rest ∧ ∀ e ∈ ev :: rest, P e := by
  induction calls with
  | nil => intro d _ h; exact h
  | cons c cs ih =>
    intro d hP h
    apply ih _ (fun x hx => hP x (List.mem_cons_of_mem _ hx))
    intro b hb
    have hc : P c.ev := hP c (List.mem_cons_self _ _)
    rcases onNewTradeForBurst_bursts_elems env c.bigUnit c.gateUnit c.ev d b hb with
      hb | hb | ⟨b0, hb0, hb⟩
    · exact h b hb
    · refine ⟨c.ev, [], hb, ?_⟩
      intro e he
      rw [List.mem_singleton.mp he]; exact hc
    · obtain ⟨ev, rest, hb1, hb2⟩ := h b0 hb0
      refine ⟨ev, rest ++ [c.ev], ?_, ?_⟩
      · rw [hb, hb1, burstOfTrades_snoc]
      · intro e he
        rcases List.mem_cons.mp he with he | he
        · rw [he]; exact hb2 ev (List.mem_cons_self _ _)
        · rcases List.mem_append.mp he with he | he
          · exact hb2 e (List.mem_cons_of_mem _ he)
          · rw [List.mem_singleton.mp he]; exact hc

/-- C28: every burst open after any sequence of detector calls from the empty detector
was opened by one trade `ev` of the sequence and then had trades `rest` of the sequence
merged into it; and a burst opened by `ev` and merged with `rest` in this order has
trade count `n = |rest| + 1`, `qtySum` the sum of the absolute amounts, `lastMs` the
timestamp of the last of these trades, and `centerK` the arithmetic mean of their
strikes, in exact arithmetic. -/
theorem burst_running_statistics (env : Env) :
    (∀ (calls : List BurstCall), ∀ b ∈ (runDetector env calls Detector.empty).bursts,
      ∃ ev rest, b = burstOfTrades env ev rest ∧
        ∀ e ∈ ev :: rest, e ∈ calls.map BurstCall.ev) ∧
    (∀ (ev : TradeEvent) (rest : List TradeEvent),
      (burstOfTrades env ev rest).trades = rest.length + 1 ∧
      (burstOfTrades env ev rest).qtySum = ((ev :: rest).map (fun e => |e.amount|)).sum ∧
      (burstOfTrades env ev rest).lastMs = (rest.getLastD ev).tsMs ∧
      (burstOfTrades env ev rest).centerK =
        ((ev :: rest).map (fun e => strikeFromInst env e.instrument)).sum /
          ((rest.length : ℚ) + 1)) := by
  constructor
  · intro calls
    apply runDetector_bursts env (fun e => e ∈ calls.map BurstCall.ev) calls Detector.empty
    · intro c hc
      exact List.mem_map_of_mem _ hc
    · intro b hb
      cases hb
  · intro ev rest
    exact burstOfTrades_stats env ev rest
/-- A detector call that passes the entry guards and does not fire only updates the
bursts. -/
theorem onNewTradeForBurst_no_fire (env : Env) (u g : Int) (ev : TradeEvent) (d : Detector)
    (hk : 0 < strikeFromInst env ev.instrument) (hbig : isBigTrade g ev.amount = true)
    (hnf : fires u (touchedBurst env ev d) = false) :
    onNewTradeForBurst env u g ev d =
      { d with bursts := (absorb ev (decide (0 < ev.sign)) (isCallFromInst ev.instrument)
          (strikeFromInst env ev.instrument)
          (deltaSigned env (isCallFromInst ev.instrument) (strikeFromInst env ev.instrument)
            ev.delta) (evictBursts ev.tsMs d.bursts)).1 } := by
  unfold touchedBurst at hnf
  unfold onNewTradeForBurst
  simp only []
  rw [if_neg (not_le.mpr hk), if_neg (by rw [hbig]; exact fun h => h rfl)]
  split
  · rfl
  · rw [if_neg (by rw [hnf]; exact Bool.false_ne_true)]

theorem strikeFromInst_demoDec :
    strikeFromInst demoEnvTwoExpiries "BTC-27DEC24-50000-C" = 50000 := by
  have h : 4 ≤ (splitOnChar '-' "BTC-27DEC24-50000-C".data).length := by decide
  unfold strikeFromInst
  simp only []
  rw [if_pos h]
  rfl

theorem strikeFromInst_demoMar :
    strikeFromInst demoEnvTwoExpiries "BTC-28MAR25-50000-C" = 50000 := by
  have h : 4 ≤ (splitOnChar '-' "BTC-28MAR25-50000-C".data).length := by decide
  unfold strikeFromInst
  simp only []
  rw [if_pos h]
  rfl

theorem isCallFromInst_demoMar : isCallFromInst "BTC-28MAR25-50000-C" = true := by decide

theorem deltaSigned_demoTwo : deltaSigned demoEnvTwoExpiries true 50000 (1 / 2) = 1 / 2 := by
  unfold deltaSigned
  have habs : |(1 / 2 : ℚ)| = 1 / 2 := abs_of_pos (by norm_num)
  simp only [habs]
  norm_num

/-- The December print opens a burst. -/
theorem demoDec_opens :
    onNewTradeForBurst demoEnvTwoExpiries 50 50 demoDec Detector.empty =
      { Detector.empty with bursts := [burstOfTrades demoEnvTwoExpiries demoDec []] } := by
  have h60 : |(60 : ℚ)| = 60 := abs_of_pos (by norm_num)
  have ha : absorb demoDec (decide (0 < demoDec.sign)) (isCallFromInst demoDec.instrument)
      (strikeFromInst demoEnvTwoExpiries demoDec.instrument)
      (deltaSigned demoEnvTwoExpiries (isCallFromInst demoDec.instrument)
        (strikeFromInst demoEnvTwoExpiries demoDec.instrument) demoDec.delta)
      (evictBursts demoDec.tsMs Detector.empty.bursts) =
      ([burstOfTrades demoEnvTwoExpiries demoDec []], 0,
        burstOfTrades demoEnvTwoExpiries demoDec []) := rfl
  rw [onNewTradeForBurst_no_fire demoEnvTwoExpiries 50 50 demoDec Detector.empty
    (by simp only [demoDec, strikeFromInst_demoDec]; norm_num)
    (isBigTrade_demo 60 (by norm_num)) ?_, ha]
  unfold touchedBurst
  rw [ha]
  simp only [burstOfTrades, List.foldl_nil, newBurst, demoDec, strikeFromInst_demoDec,
    isCallFromInst_demo, deltaSigned_demoTwo, fires, h60]
  norm_num

theorem evictBursts_keep (ts : Int) (b : FlowBurst)
    (h : ¬ (ts - b.lastMs > BURST_WINDOW_MS)) : evictBursts ts [b] = [b] := by
  unfold evictBursts
  rw [List.filter_cons_of_pos (by simpa using h)]
  rfl

theorem findBest_single (isBuy isCall : Bool) (k : ℚ) (ts : Int) (b : FlowBurst)
    (h1 : burstMatches isBuy isCall k ts b = true) (h2 : |k - b.centerK| < (10 : ℚ) ^ 100) :
    findBest isBuy isCall k ts [b] = some 0 := by
  simp [findBest, findBestFrom, h1, h2]

/-- The March print is merged into the burst the December print opened. -/
theorem demoMar_merges :
    onNewTradeForBurst demoEnvTwoExpiries 50 50 demoMar
        { Detector.empty with bursts := [burstOfTrades demoEnvTwoExpiries demoDec []] } =
      { Detector.empty with
        bursts := [burstOfTrades demoEnvTwoExpiries demoDec [demoMar]] } := by
  have h60 : |(60 : ℚ)| = 60 := abs_of_pos (by norm_num)
  have hck : (burstOfTrades demoEnvTwoExpiries demoDec []).centerK = 50000 :=
    strikeFromInst_demoDec
  have hfb : findBest true true 50000 3000
      [burstOfTrades demoEnvTwoExpiries demoDec []] = some 0 := by
    apply findBest_single
    · have e1 : (burstOfTrades demoEnvTwoExpiries demoDec []).isBuy = true := rfl
      have e2 : (burstOfTrades demoEnvTwoExpiries demoDec []).isCall = true := rfl
      have e3 : (burstOfTrades demoEnvTwoExpiries demoDec []).lastMs = 1000 := rfl
      simp only [burstMatches, e1, e2, e3, hck, STRIKE_CLUSTER_WIDTH, BURST_WINDOW_MS]
      norm_num
    · rw [hck]; norm_num
  have hev : evictBursts 3000 [burstOfTrades demoEnvTwoExpiries demoDec []] =
      [burstOfTrades demoEnvTwoExpiries demoDec []] :=
    evictBursts_keep _ _ (by decide)
  have hm : mergeBurst demoMar 50000 (deltaSigned demoEnvTwoExpiries true 50000 (1 / 2))
      (burstOfTrades demoEnvTwoExpiries demoDec []) =
      burstOfTrades demoEnvTwoExpiries demoDec [demoMar] := by
    rw [show [demoMar] = [] ++ [demoMar] from rfl, burstOfTrades_snoc]
    rw [show demoMar.instrument = "BTC-28MAR25-50000-C" from rfl, isCallFromInst_demoMar,
      strikeFromInst_demoMar]
    rfl
  have ha : absorb demoMar (decide (0 < demoMar.sign)) (isCallFromInst demoMar.instrument)
      (strikeFromInst demoEnvTwoExpiries demoMar.instrument)
      (deltaSigned demoEnvTwoExpiries (isCallFromInst demoMar.instrument)
        (strikeFromInst demoEnvTwoExpiries demoMar.instrument) demoMar.delta)
      (evictBursts demoMar.tsMs
        ({ Detector.empty with
          bursts := [burstOfTrades demoEnvTwoExpiries demoDec []] } : Detector).bursts) =
      ([burstOfTrades demoEnvTwoExpiries demoDec [demoMar]], 0,
        burstOfTrades demoEnvTwoExpiries demoDec [demoMar]) := by
    show absorb demoMar true (isCallFromInst "BTC-28MAR25-50000-C")
      (strikeFromInst demoEnvTwoExpiries "BTC-28MAR25-50000-C")
      (deltaSigned demoEnvTwoExpiries (isCallFromInst "BTC-28MAR25-50000-C")
        (strikeFromInst demoEnvTwoExpiries "BTC-28MAR25-50000-C") (1 / 2))
      (evictBursts 3000 [burstOfTrades demoEnvTwoExpiries demoDec []]) = _
    rw [hev, isCallFromInst_demoMar, strikeFromInst_demoMar]
    unfold absorb
    rw [show demoMar.tsMs = 3000 from rfl, hfb]
    simp only [List.get?_cons_zero, List.set_cons_zero]
    rw [hm]
  rw [onNewTradeForBurst_no_fire demoEnvTwoExpiries 50 50 demoMar _
    (by simp only [demoMar, strikeFromInst_demoMar]; norm_num)
    (isBigTrade_demo 60 (by norm_num)) ?_, ha]
  unfold touchedBurst
  rw [ha]
  have hq : (burstOfTrades demoEnvTwoExpiries demoDec [demoMar]).qtySum = 120 := by
    rw [(burstOfTrades_stats demoEnvTwoExpiries demoDec [demoMar]).2.1]
    simp only [List.map_cons, List.map_nil, List.sum_cons, List.sum_nil, demoDec, demoMar, h60]
    norm_num
  have hd : (burstOfTrades demoEnvTwoExpiries demoDec [demoMar]).dVolSum = 60 := by
    rw [← hm]
    show (1 : ℚ) * |60| * deltaSigned demoEnvTwoExpiries (isCallFromInst "BTC-27DEC24-50000-C")
        (strikeFromInst demoEnvTwoExpiries "BTC-27DEC24-50000-C") (1 / 2) +
      (1 : ℚ) * |60| * deltaSigned demoEnvTwoExpiries true 50000 (1 / 2) = 60
    rw [isCallFromInst_demo, strikeFromInst_demoDec, deltaSigned_demoTwo, h60]
    norm_num
  simp only [fires, hq, hd]
  norm_num
/-- The two prints with different expiries end up in one open burst. -/
theorem demoTwoCalls_run :
    runDetector demoEnvTwoExpiries demoTwoCalls Detector.empty =
      { Detector.empty with
        bursts := [burstOfTrades demoEnvTwoExpiries demoDec [demoMar]] } := by
  show runDetector demoEnvTwoExpiries []
    (onNewTradeForBurst demoEnvTwoExpiries 50 50 demoMar
      (onNewTradeForBurst demoEnvTwoExpiries 50 50 demoDec Detector.empty)) = _
  rw [demoDec_opens, demoMar_merges]
  rfl

/-- C28 at a concrete input: the December print opens a burst and the March print is
merged into it; the open burst counts two trades, 120 contracts, was last touched at
3000 ms and is centred at strike 50000. -/
theorem burst_running_statistics_witness :
    (∃ ev rest, burstOfTrades demoEnvTwoExpiries demoDec [demoMar] =
        burstOfTrades demoEnvTwoExpiries ev rest ∧
      ∀ e ∈ ev :: rest, e ∈ demoTwoCalls.map BurstCall.ev) ∧
    ((burstOfTrades demoEnvTwoExpiries demoDec [demoMar]).trades = ([demoMar].length : Int) + 1 ∧
      (burstOfTrades demoEnvTwoExpiries demoDec [demoMar]).qtySum =
        ([demoDec, demoMar].map (fun e => |e.amount|)).sum ∧
      (burstOfTrades demoEnvTwoExpiries demoDec [demoMar]).lastMs =
        ([demoMar].getLastD demoDec).tsMs ∧
      (burstOfTrades demoEnvTwoExpiries demoDec [demoMar]).centerK =
        ([demoDec, demoMar].map
          (fun e => strikeFromInst demoEnvTwoExpiries e.instrument)).sum /
          (([demoMar].length : ℚ) + 1)) :=
  ⟨(burst_running_statistics demoEnvTwoExpiries).1 demoTwoCalls
      (burstOfTrades demoEnvTwoExpiries demoDec [demoMar])
      (by rw [demoTwoCalls_run]; exact List.mem_singleton.mpr rfl),
   (burst_running_statistics demoEnvTwoExpiries).2 demoDec [demoMar]⟩

/-! ## Burst matching and expiry -/

theorem burstMatches_iff (isBuy isCall : Bool) (k : ℚ) (ts : Int) (b : FlowBurst) :
    burstMatches isBuy isCall k ts b = true ↔
      (b.isBuy = isBuy ∧ b.isCall = isCall ∧ |k - b.centerK| ≤ 1500 ∧ ts - b.lastMs ≤ 6000) := by
  simp only [burstMatches, Bool.and_eq_true, decide_eq_true_eq, STRIKE_CLUSTER_WIDTH,
    BURST_WINDOW_MS, not_lt, gt_iff_lt]
  constructor
  · rintro ⟨⟨⟨h1, h2⟩, h3⟩, h4⟩
    exact ⟨h1, h2, h3, by omega⟩
  · rintro ⟨h1, h2, h3, h4⟩
    exact ⟨⟨⟨h1, h2⟩, h3⟩, by omega⟩

/-- The matching loop returns the running best if no later burst beats it, and otherwise
a matching burst that is nearest in strike among the matching ones. -/
theorem findBestFrom_spec (isBuy isCall : Bool) (k : ℚ) (ts : Int) (bs : List FlowBurst) :
    ∀ (i : Nat) (best : Option Nat) (bestDist : ℚ),
      (findBestFrom isBuy isCall k ts bs i best bestDist = best ∧
        ∀ b ∈ bs, ¬ (burstMatches isBuy isCall k ts b = true ∧ |k - b.centerK| < bestDist)) ∨
      (∃ j b, findBestFrom isBuy isCall k ts bs i best bestDist = some (i + j) ∧
        bs.get? j = some b ∧ burstMatches isBuy isCall k ts b = true ∧
        |k - b.centerK| < bestDist ∧
        ∀ b2 ∈ bs, burstMatches isBuy isCall k ts b2 = true →
          |k - b.centerK| ≤ |k - b2.centerK|) := by
  induction bs with
  | nil => intro i best bestDist; exact Or.inl ⟨rfl, fun b hb => (by cases hb)⟩
  | cons b bs ih =>
    intro i best bestDist
    unfold findBestFrom
    by_cases hc : burstMatches isBuy isCall k ts b = true ∧ |k - b.centerK| < bestDist
    · rw [if_pos hc]
      right
      rcases ih (i + 1) (some i) |k - b.centerK| with ⟨hr, hall⟩ | ⟨j, b2, hr, hg, hm, hd, hmin⟩
      · refine ⟨0, b, by rw [hr]; rfl, rfl, hc.1, hc.2, ?_⟩
        intro b2 hb2 hm2
        rcases List.mem_cons.mp hb2 with h | h
        · rw [h]
        · exact not_lt.mp (fun hlt => hall b2 h ⟨hm2, hlt⟩)
      · refine ⟨j + 1, b2, by rw [hr]; congr 1; omega, hg, hm, lt_trans hd hc.2, ?_⟩
        intro b3 hb3 hm3
        rcases List.mem_cons.mp hb3 with h | h
        · rw [h]; exact le_of_lt hd
        · exact hmin b3 h hm3
    · rw [if_neg hc]
      rcases ih (i + 1) best bestDist with ⟨hr, hall⟩ | ⟨j, b2, hr, hg, hm, hd, hmin⟩
      · left
        refine ⟨hr, ?_⟩
        intro b2 hb2
        rcases List.mem_cons.mp hb2 with h | h
        · rw [h]; exact hc
        · exact hall b2 h
      · right
        refine ⟨j + 1, b2, by rw [hr]; congr 1; omega, hg, hm, hd, ?_⟩
        intro b3 hb3 hm3
        rcases List.mem_cons.mp hb3 with h | h
        · rw [h]
          have : ¬ |k - b.centerK| < bestDist := fun hlt => hc ⟨by rw [← h]; exact hm3, hlt⟩
          exact le_trans (le_of_lt hd) (not_lt.mp this)
        · exact hmin b3 h hm3

/-- The matching decision in terms of the four conditions. -/
theorem findBest_spec (isBuy isCall : Bool) (k : ℚ) (ts : Int) (bursts : List FlowBurst) :
    (findBest isBuy isCall k ts bursts = none ↔
      ∀ b ∈ bursts, ¬ (b.isBuy = isBuy ∧ b.isCall = isCall ∧ |k - b.centerK| ≤ 1500 ∧
        ts - b.lastMs ≤ 6000)) ∧
    (∀ i, findBest isBuy isCall k ts bursts = some i →
      ∃ b, bursts.get? i = some b ∧
        (b.isBuy = isBuy ∧ b.isCall = isCall ∧ |k - b.centerK| ≤ 1500 ∧
          ts - b.lastMs ≤ 6000) ∧
        ∀ b2 ∈ bursts, (b2.isBuy = isBuy ∧ b2.isCall = isCall ∧ |k - b2.centerK| ≤ 1500 ∧
            ts - b2.lastMs ≤ 6000) → |k - b.centerK| ≤ |k - b2.centerK|) := by
  have hbig : ∀ b : FlowBurst, burstMatches isBuy isCall k ts b = true →
      |k - b.centerK| < (10 : ℚ) ^ 100 := by
    intro b hb
    have := ((burstMatches_iff isBuy isCall k ts b).mp hb).2.2.1
    have h2 : (1500 : ℚ) < (10 : ℚ) ^ 100 := by norm_num
    exact lt_of_le_of_lt this h2
  unfold findBest
  rcases findBestFrom_spec isBuy isCall k ts bursts 0 none ((10 : ℚ) ^ 100) with
    ⟨hr, hall⟩ | ⟨j, b, hr, hg, hm, hd, hmin⟩
  · rw [hr]
    refine ⟨⟨fun _ b hb hfour => ?_, fun _ => rfl⟩, fun i hi => (by cases hi)⟩
    have hmb := (burstMatches_iff isBuy isCall k ts b).mpr hfour
    exact hall b hb ⟨hmb, hbig b hmb⟩
  · rw [hr]
    refine ⟨⟨fun h => (by cases h), fun h => ?_⟩, ?_⟩
    · exact absurd ((burstMatches_iff isBuy isCall k ts b).mp hm) (h b (List.get?_mem hg))
    · intro i hi
      have : i = j := by
        have := Option.some.inj hi
        omega
      subst this
      refine ⟨b, hg, (burstMatches_iff isBuy isCall k ts b).mp hm, ?_⟩
      intro b2 hb2 hfour
      exact hmin b2 hb2 ((burstMatches_iff isBuy isCall k ts b2).mpr hfour)

/-- The open bursts after a detector call. -/
theorem onNewTradeForBurst_bursts (env : Env) (u g : Int) (ev : TradeEvent) (d : Detector) :
    (onNewTradeForBurst env u g ev d).bursts =
      if strikeFromInst env ev.instrument ≤ 0 then d.bursts
      else if ¬ isBigTrade g ev.amount then d.bursts
      else if (touchedBurst env ev d).qtySum < (u : ℚ) then
        (absorb ev (decide (0 < ev.sign)) (isCallFromInst ev.instrument)
          (strikeFromInst env ev.instrument)
          (deltaSigned env (isCallFromInst ev.instrument) (strikeFromInst env ev.instrument)
            ev.delta) (evictBursts ev.tsMs d.bursts)).1
      else if fires u (touchedBurst env ev d) then
        (absorb ev (decide (0 < ev.sign)) (isCallFromInst ev.instrument)
          (strikeFromInst env ev.instrument)
          (deltaSigned env (isCallFromInst ev.instrument) (strikeFromInst env ev.instrument)
            ev.delta) (evictBursts ev.tsMs d.bursts)).1.eraseIdx
          (absorb ev (decide (0 < ev.sign)) (isCallFromInst ev.instrument)
            (strikeFromInst env ev.instrument)
            (deltaSigned env (isCallFromInst ev.instrument) (strikeFromInst env ev.instrument)
              ev.delta) (evictBursts ev.tsMs d.bursts)).2.1
      else
        (absorb ev (decide (0 < ev.sign)) (isCallFromInst ev.instrument)
          (strikeFromInst env ev.instrument)
          (deltaSigned env (isCallFromInst ev.instrument) (strikeFromInst env ev.instrument)
            ev.delta) (evictBursts ev.tsMs d.bursts)).1 := by
  unfold onNewTradeForBurst touchedBurst
  simp only []
  split_ifs <;> rfl

theorem setInsert_ne_nil (x : String) (s : List String) : setInsert x s ≠ [] := by
  unfold setInsert
  split
  · rename_i h
    exact List.ne_nil_of_mem h
  · simp

theorem touchedBurst_instruments (env : Env) (ev : TradeEvent) (d : Detector) :
    (touchedBurst env ev d).instruments ≠ [] := by
  unfold touchedBurst absorb
  split
  · simp [newBurst]
  · split
    · exact setInsert_ne_nil _ _
    · simp [newBurst]

/-- A trade that meets the four conditions against the only open burst is merged into
it. -/
theorem touchedBurst_merge (env : Env) (ev1 ev2 : TradeEvent) (d : Detector)
    (hb : d.bursts = [burstOfTrades env ev1 []])
    (hside : 0 < ev1.sign ↔ 0 < ev2.sign)
    (hcp : isCallFromInst ev1.instrument = isCallFromInst ev2.instrument)
    (hk : |strikeFromInst env ev2.instrument - strikeFromInst env ev1.instrument| ≤ 1500)
    (ht : ev2.tsMs - ev1.tsMs ≤ 6000) :
    touchedBurst env ev2 d = burstOfTrades env ev1 [ev2] := by
  have e1 : (burstOfTrades env ev1 []).isBuy = decide (0 < ev1.sign) := rfl
  have e2 : (burstOfTrades env ev1 []).isCall = isCallFromInst ev1.instrument := rfl
  have e3 : (burstOfTrades env ev1 []).lastMs = ev1.tsMs := rfl
  have e4 : (burstOfTrades env ev1 []).centerK = strikeFromInst env ev1.instrument := rfl
  have hm : burstMatches (decide (0 < ev2.sign)) (isCallFromInst ev2.instrument)
      (strikeFromInst env ev2.instrument) ev2.tsMs (burstOfTrades env ev1 []) = true := by
    rw [burstMatches_iff, e1, e2, e3, e4]
    exact ⟨by simp only [hside], hcp, hk, ht⟩
  have hlt : |strikeFromInst env ev2.instrument - (burstOfTrades env ev1 []).centerK| <
      (10 : ℚ) ^ 100 := by
    rw [e4]
    have h2 : (1500 : ℚ) < (10 : ℚ) ^ 100 := by norm_num
    exact lt_of_le_of_lt hk h2
  unfold touchedBurst
  rw [hb, evictBursts_keep _ _ (by rw [e3]; simp only [BURST_WINDOW_MS]; omega)]
  unfold absorb
  rw [findBest_single _ _ _ _ _ hm hlt]
  simp only [List.get?_cons_zero]
  rw [show [ev2] = [] ++ [ev2] from rfl, burstOfTrades_snoc]

/-- C30: the bursts left by a detector call do not change when the expiry table is
replaced by any other; the matching loop finds no burst exactly when no open burst has
the side and the call/put flag of the trade, a centre within 1500 of its strike and a
last trade at most 6000 ms before it, and otherwise picks such a burst, nearest in
strike; a trade that meets these four conditions against the only open burst is merged
into it whatever the expiries of the instruments; and the expiry passed on with a fired
burst, which is also the expiry of its signal key, is the expiry of one instrument of
the burst (the one `begin()` returns). -/
theorem burst_matching_ignores_expiry :
    (∀ (env : Env) (f : String → Option Int) (u g : Int) (ev : TradeEvent) (d : Detector),
      (onNewTradeForBurst { env with instToExpiryMs := f } u g ev d).bursts =
        (onNewTradeForBurst env u g ev d).bursts) ∧
    (∀ (isBuy isCall : Bool) (k : ℚ) (ts : Int) (bursts : List FlowBurst),
      (findBest isBuy isCall k ts bursts = none ↔
        ∀ b ∈ bursts, ¬ (b.isBuy = isBuy ∧ b.isCall = isCall ∧ |k - b.centerK| ≤ 1500 ∧
          ts - b.lastMs ≤ 6000)) ∧
      (∀ i, findBest isBuy isCall k ts bursts = some i →
        ∃ b, bursts.get? i = some b ∧
          (b.isBuy = isBuy ∧ b.isCall = isCall ∧ |k - b.centerK| ≤ 1500 ∧
            ts - b.lastMs ≤ 6000) ∧
          ∀ b2 ∈ bursts, (b2.isBuy = isBuy ∧ b2.isCall = isCall ∧ |k - b2.centerK| ≤ 1500 ∧
              ts - b2.lastMs ≤ 6000) → |k - b.centerK| ≤ |k - b2.centerK|)) ∧
    (∀ (env : Env) (ev1 ev2 : TradeEvent) (d : Detector),
      d.bursts = [burstOfTrades env ev1 []] →
      (0 < ev1.sign ↔ 0 < ev2.sign) →
      isCallFromInst ev1.instrument = isCallFromInst ev2.instrument →
      |strikeFromInst env ev2.instrument - strikeFromInst env ev1.instrument| ≤ 1500 →
      ev2.tsMs - ev1.tsMs ≤ 6000 →
      touchedBurst env ev2 d = burstOfTrades env ev1 [ev2]) ∧
    (∀ (env : Env) (u g : Int) (ev : TradeEvent) (d : Detector),
      (∀ l : List String, l ≠ [] → env.setBegin l ∈ l) →
      ∀ p ∈ (onNewTradeForBurst env u g ev d).emitted,
        p ∈ d.emitted ∨
          ∃ inst ∈ p.1.instruments,
            p.2 = expiryFromInst env inst ∧ (signalKeyOf env p.1).key0.expMs = p.2) := by
  refine ⟨?_, ?_, ?_, ?_⟩
  · intro env f u g ev d
    rw [onNewTradeForBurst_bursts, onNewTradeForBurst_bursts]
    rfl
  · intro isBuy isCall k ts bursts
    exact findBest_spec isBuy isCall k ts bursts
  · intro env ev1 ev2 d hb hside hcp hk ht
    exact touchedBurst_merge env ev1 ev2 d hb hside hcp hk ht
  · intro env u g ev d hbegin p hp
    have hnew : ∀ q : FlowBurst × Int,
        q = (touchedBurst env ev d, burstExpiry env (touchedBurst env ev d)) →
        ∃ inst ∈ q.1.instruments,
          q.2 = expiryFromInst env inst ∧ (signalKeyOf env q.1).key0.expMs = q.2 := by
      intro q hq
      rw [hq]
      exact ⟨env.setBegin (touchedBurst env ev d).instruments,
        hbegin _ (touchedBurst_instruments env ev d), rfl, rfl⟩
    rcases onNewTradeForBurst_cases env u g ev d with ⟨he, _⟩ | ⟨_, ⟨_, he, _⟩ | ⟨_, he, _⟩⟩
    · rw [he] at hp; exact Or.inl hp
    · rw [he] at hp; exact Or.inl hp
    · rw [he] at hp
      rcases List.mem_append.mp hp with h | h
      · exact Or.inl h
      · exact Or.inr (hnew p (List.mem_singleton.mp h))

theorem demo_findBest :
    findBest true true 50000 3000 [burstOfTrades demoEnvTwoExpiries demoDec []] = some 0 := by
  have hck : (burstOfTrades demoEnvTwoExpiries demoDec []).centerK = 50000 :=
    strikeFromInst_demoDec
  apply findBest_single
  · rw [burstMatches_iff, hck]
    refine ⟨rfl, rfl, ?_, ?_⟩
    · norm_num
    · decide
  · rw [hck]; norm_num

/-- C30 at concrete inputs: the December call and the March call have different
expiries, yet the March print is merged into the burst the December print opened; the
matching loop picks that burst because the four conditions hold; and the burst fired by
a print of 300 contracts is passed on with the expiry of its instrument. -/
theorem burst_matching_ignores_expiry_witness :
    (expiryFromInst demoEnvTwoExpiries demoDec.instrument ≠
        expiryFromInst demoEnvTwoExpiries demoMar.instrument ∧
      touchedBurst demoEnvTwoExpiries demoMar
          { Detector.empty with bursts := [burstOfTrades demoEnvTwoExpiries demoDec []] } =
        burstOfTrades demoEnvTwoExpiries demoDec [demoMar]) ∧
    (∃ b, [burstOfTrades demoEnvTwoExpiries demoDec []].get? 0 = some b ∧
      (b.isBuy = true ∧ b.isCall = true ∧ |50000 - b.centerK| ≤ 1500 ∧
        3000 - b.lastMs ≤ 6000) ∧
      ∀ b2 ∈ [burstOfTrades demoEnvTwoExpiries demoDec []],
        (b2.isBuy = true ∧ b2.isCall = true ∧ |50000 - b2.centerK| ≤ 1500 ∧
          3000 - b2.lastMs ≤ 6000) → |50000 - b.centerK| ≤ |50000 - b2.centerK|) ∧
    ((touchedBurst demoEnv (demoEv 0 300) Detector.empty,
          burstExpiry demoEnv (touchedBurst demoEnv (demoEv 0 300) Detector.empty)) ∈
        Detector.empty.emitted ∨
      ∃ inst ∈ (touchedBurst demoEnv (demoEv 0 300) Detector.empty).instruments,
        burstExpiry demoEnv (touchedBurst demoEnv (demoEv 0 300) Detector.empty) =
          expiryFromInst demoEnv inst ∧
        (signalKeyOf demoEnv (touchedBurst demoEnv (demoEv 0 300) Detector.empty)).key0.expMs =
          burstExpiry demoEnv (touchedBurst demoEnv (demoEv 0 300) Detector.empty)) :=
  ⟨⟨by decide,
    burst_matching_ignores_expiry.2.2.1 demoEnvTwoExpiries demoDec demoMar
      { Detector.empty with bursts := [burstOfTrades demoEnvTwoExpiries demoDec []] } rfl
      (by decide) (by decide)
      (by
        rw [show demoMar.instrument = "BTC-28MAR25-50000-C" from rfl,
          show demoDec.instrument = "BTC-27DEC24-50000-C" from rfl,
          strikeFromInst_demoMar, strikeFromInst_demoDec]
        norm_num)
      (by decide)⟩,
   (burst_matching_ignores_expiry.2.1 true true 50000 3000
      [burstOfTrades demoEnvTwoExpiries demoDec []]).2 0 demo_findBest,
   burst_matching_ignores_expiry.2.2.2 demoEnv 50 50 (demoEv 0 300) Detector.empty
      (fun l hl => by
        cases l with
        | nil => exact absurd rfl hl
        | cons a t => exact List.mem_cons_self _ _)
      (touchedBurst demoEnv (demoEv 0 300) Detector.empty,
        burstExpiry demoEnv (touchedBurst demoEnv (demoEv 0 300) Detector.empty))
      (by rw [onNewTradeForBurst_demo_fire]; exact List.mem_append_right _ (List.mem_singleton.mpr rfl))⟩

/-! ## Anchor timestamps are written once -/

theorem applyTradeToResidualState_anchor (env : Env) (unit : Int) (t : Trade)
    (s : MainState) :
    (applyTradeToResidualState env unit t s).signalAnchorTsByKey = s.signalAnchorTsByKey := by
  unfold applyTradeToResidualState
  simp only []
  split_ifs <;> rfl

theorem foldl_emitSignalRow_anchor_kept (env : Env) (ui : Ui) (es : List (FlowBurst × Int))
    (k : String) (v : Int) :
    ∀ s : MainState, s.signalAnchorTsByKey.lookup k = some v →
      (es.foldl (fun s e => emitSignalRow env ui e.1 e.2 s) s).signalAnchorTsByKey.lookup k =
        some v := by
  induction es with
  | nil => intro s h; exact h
  | cons e es ih =>
    intro s h
    exact ih _ (upsertSignalRow_anchor_kept _ _ _ _ _ _ _ _ h)

theorem applyOp_anchor_kept (env : Env) (ui : Ui) (op : SignalOp) (p : Detector × MainState)
    (k : String) (v : Int) (h : p.2.signalAnchorTsByKey.lookup k = some v) :
    (applyOp env ui op p).2.signalAnchorTsByKey.lookup k = some v := by
  cases op with
  | applyTrade unit t =>
    show (applyTradeToResidualState env unit t p.2).signalAnchorTsByKey.lookup k = some v
    rw [applyTradeToResidualState_anchor]; exact h
  | newTradeForBurst u g ev =>
    exact foldl_emitSignalRow_anchor_kept env ui _ k v p.2 h
  | emitRow b expMs => exact upsertSignalRow_anchor_kept _ _ _ _ _ _ _ _ h
  | upsertRow key expMs b q => exact upsertSignalRow_anchor_kept _ _ _ _ _ _ _ _ h
  | rebuild now => exact rebuild_anchor_kept ui now p.2 k v h

/-- C21: if a key has the entry `v` in the anchor-timestamp map, then after any sequence
of calls of `applyTradeToResidual`, `onNewTradeForBurst` (with the `emitSignalRow` calls
it makes), `emitSignalRow`, `upsertSignalRow` and `rebuildSignalTableFromResidual`, with
any arguments, the key still has the entry `v`. -/
theorem anchor_write_once (env : Env) (ui : Ui) (ops : List SignalOp)
    (p : Detector × MainState) (key : String) (v : Int)
    (h : p.2.signalAnchorTsByKey.lookup key = some v) :
    (runOps env ui ops p).2.signalAnchorTsByKey.lookup key = some v := by
  induction ops generalizing p with
  | nil => exact h
  | cons op ops ih => exact ih _ (applyOp_anchor_kept env ui op p key v h)

theorem kRoundOf_demo : kRoundOf demoEnv 50000 = 50000 := by
  have h1 : ((50000 : ℚ) / demoEnv.K_BUCKET) = ((50 : Nat) : ℚ) := by
    simp only [demoEnv]; norm_num
  unfold kRoundOf
  rw [h1, llround_natCast]
  simp only [demoEnv, truncToInt]
  norm_num

theorem clusterKeyText_demo :
    clusterKeyText (makeClusterKey demoEnv 1000000 true 50000) = "1000000|1|50000" := by
  unfold makeClusterKey
  rw [kRoundOf_demo]
  decide

/-- The late buy moves the last-trade timestamp of the anchored cluster to 9000 ms. -/
theorem demoLateBuy_lastTs :
    (applyTradeToResidualState demoEnv 50 demoLateBuy demoAnchored).residualLastTsByKey.lookup
      "1000000|1|50000" = some 9000 := by
  have hexp : expiryFromInst demoEnv demoLateBuy.inst = 1000000 := rfl
  have hbig : isBigTrade 50 demoLateBuy.amount = true := isBigTrade_demo 120 (by norm_num)
  have hk : strikeFromInst demoEnv demoLateBuy.inst = 50000 := strikeFromInst_demo
  have hc : isCallFromInst demoLateBuy.inst = true := isCallFromInst_demo
  unfold applyTradeToResidualState
  simp only [hexp, hbig, hk, hc, clusterKeyText_demo]
  rw [if_neg (by decide), if_neg (by simp), if_neg (by norm_num)]
  simp only [AList.lookup_insert]
  rfl

/-- C21 at a concrete input: the cluster `1000000|1|50000` is anchored at 5000 ms; a trade
at 9000 ms moves its last-trade timestamp to 9000, and after that trade, a detector
call, an `emitSignalRow`, an `upsertSignalRow` and a rebuild the anchor is still 5000. -/
theorem anchor_write_once_witness :
    (Detector.empty, demoAnchored).2.signalAnchorTsByKey.lookup "1000000|1|50000" =
        some 5000 ∧
      (applyTradeToResidualState demoEnv 50 demoLateBuy
        demoAnchored).residualLastTsByKey.lookup "1000000|1|50000" = some 9000 ∧
      (runOps demoEnv demoUi demoOps
        (Detector.empty, demoAnchored)).2.signalAnchorTsByKey.lookup "1000000|1|50000" =
        some 5000 :=
  ⟨by decide, demoLateBuy_lastTs,
   anchor_write_once demoEnv demoUi demoOps (Detector.empty, demoAnchored)
    "1000000|1|50000" 5000 (by decide)⟩

theorem followUp_fromMs_nonneg (req : FullTask) (rows : List (Option Int)) (t : FullTask)
    (hstep : stepInBounds req) (hfrom : 0 ≤ req.fromMs) (ht : t ∈ followUp req rows) :
    stepInBounds t ∧ 0 ≤ t.fromMs := by
  obtain ⟨rfl, hlt⟩ := mem_followUp req rows t ht
  have hb := adaptStep_bounds rows.length req.stepMs hstep
  refine ⟨hb, ?_⟩
  show 0 ≤ resumeFromOf req rows (adaptStep rows.length req.stepMs)
  unfold resumeFromOf at hlt ⊢
  split
  · omega
  · rename_i h0
    rw [if_neg h0] at hlt
    have := hb.1
    rcases min_cases req.toMs (req.fromMs + adaptStep rows.length req.stepMs + 1) with h | h
    · omega
    · omega

theorem fromNonneg_pump (s : FullState)
    (h : (∀ t ∈ s.fullQueue, stepInBounds t ∧ 0 ≤ t.fromMs) ∧
      (∀ t ∈ s.pending, stepInBounds t ∧ 0 ≤ t.fromMs)) :
    (∀ t ∈ (fullBackfillPump s).fullQueue, stepInBounds t ∧ 0 ≤ t.fromMs) ∧
      (∀ t ∈ (fullBackfillPump s).pending, stepInBounds t ∧ 0 ≤ t.fromMs) := by
  obtain ⟨k, _, hq, _, hp, _⟩ := fullBackfillPump_spec s
  rw [hq, hp]
  constructor
  · intro t ht
    exact h.1 t (List.mem_of_mem_drop ht)
  · intro t ht
    rcases List.mem_append.mp ht with ht | ht
    · exact h.2 t ht
    · obtain ⟨u, hu, rfl⟩ := List.mem_map.mp ht
      exact h.1 u (List.mem_of_mem_take hu)

theorem fromNonneg_finish (i : Nat) (reply : Reply) (s : FullState)
    (h : (∀ t ∈ s.fullQueue, stepInBounds t ∧ 0 ≤ t.fromMs) ∧
      (∀ t ∈ s.pending, stepInBounds t ∧ 0 ≤ t.fromMs)) :
    (∀ t ∈ (finishRequest i reply s).fullQueue, stepInBounds t ∧ 0 ≤ t.fromMs) ∧
      (∀ t ∈ (finishRequest i reply s).pending, stepInBounds t ∧ 0 ≤ t.fromMs) := by
  unfold finishRequest
  cases hg : s.pending.get? i with
  | none => exact h
  | some req =>
    obtain ⟨hs, hf⟩ := h.2 req (List.get?_mem hg)
    simp only []
    rw [onWindowFinished_eq]
    apply fromNonneg_pump
    constructor
    · intro t ht
      rcases mem_fullAfterReply_queue req reply _ t ht with
        ht | ⟨_, rfl⟩ | ⟨_, ht⟩ | ⟨rows, _, ht⟩
      · exact h.1 t ht
      · exact ⟨hs, hf⟩
      · exact followUp_fromMs_nonneg req [] t hs hf ht
      · exact followUp_fromMs_nonneg req rows t hs hf ht
    · rw [fullAfterReply_pending]
      exact fun t ht => h.2 t (List.mem_of_mem_eraseIdx ht)

theorem fromNonneg_init (e : Bool) (live : List (String × Int)) (now : Int) (s : FullState)
    (h : (∀ t ∈ s.fullQueue, stepInBounds t ∧ 0 ≤ t.fromMs) ∧
      (∀ t ∈ s.pending, stepInBounds t ∧ 0 ≤ t.fromMs)) :
    (∀ t ∈ (fullBackfillLiveExpiriesInit e live now s).fullQueue,
        stepInBounds t ∧ 0 ≤ t.fromMs) ∧
      (∀ t ∈ (fullBackfillLiveExpiriesInit e live now s).pending,
        stepInBounds t ∧ 0 ≤ t.fromMs) := by
  unfold fullBackfillLiveExpiriesInit
  split
  · exact ⟨fun t ht => (by cases ht), h.2⟩
  · apply fromNonneg_pump
    refine ⟨?_, h.2⟩
    intro t ht
    obtain ⟨p, _, rfl⟩ := List.mem_map.mp ht
    refine ⟨?_, le_max_left _ _⟩
    simp only [stepInBounds, initialTask, HOUR_MS]
    decide

/-- Every pending request of a run starts at a non-negative time. -/
theorem pending_fromMs_nonneg (evs : List FullEvent) (req : FullTask)
    (h : req ∈ (runFullEvents evs FullState.initial).pending) : 0 ≤ req.fromMs :=
  ((runFullEvents_inv
    (fun s => (∀ t ∈ s.fullQueue, stepInBounds t ∧ 0 ≤ t.fromMs) ∧
      (∀ t ∈ s.pending, stepInBounds t ∧ 0 ≤ t.fromMs))
    fromNonneg_init fromNonneg_pump fromNonneg_finish evs FullState.initial
    ⟨fun t ht => (by cases ht), fun t ht => (by cases ht)⟩).2 req h).2

/-- C27: let `req` be a window requested in any run of the full pipeline, completed
without transport failure with rows none of which is older than the start of the window
(`rows = []` covers the empty reply and the parse failure).  Then every follow-up task
that is enqueued is for the same instrument, starts strictly after the start of the
window and before its own end, and ends where the window ended; if a row with a
timestamp was returned, it starts one millisecond after the largest returned timestamp.
Hence, if the server never returns rows older than the start of the window, the chain
of windows following `req` ends after at most `req.toMs - req.fromMs + 1` completions. -/
theorem full_windows_advance (evs : List FullEvent) (req : FullTask)
    (hreq : req ∈ (runFullEvents evs FullState.initial).pending) :
    (∀ (rows : List (Option Int)), (∀ ts, some ts ∈ rows → req.fromMs ≤ ts) →
      ∀ t ∈ followUp req rows,
        t.inst = req.inst ∧ req.fromMs < t.fromMs ∧ t.fromMs < t.toMs ∧ t.toMs = req.toMs ∧
        ((∃ ts, some ts ∈ rows) →
          t.fromMs = lastTsSeenOf rows (-1) + 1 ∧ some (lastTsSeenOf rows (-1)) ∈ rows ∧
          ∀ ts, some ts ∈ rows → ts ≤ lastTsSeenOf rows (-1))) ∧
    (∀ (respond : FullTask → List (Option Int)),
      (∀ w ts, some ts ∈ respond w → w.fromMs ≤ ts) →
      nthWindow respond ((req.toMs - req.fromMs).toNat + 1) req = none) := by
  have hstep := pending_stepInBounds evs req hreq
  have hfrom := pending_fromMs_nonneg evs req hreq
  constructor
  · intro rows hrows t ht
    obtain ⟨h1, h2, h3, h4, _⟩ := followUp_advances req rows t hstep hrows ht
    refine ⟨h1, h2, h3, h4, ?_⟩
    rintro ⟨ts, hts⟩
    have h0 : 0 ≤ ts := le_trans hfrom (hrows ts hts)
    obtain ⟨e1, e2, e3⟩ := lastTsSeenOf_spec rows (-1)
    have hpos : 0 ≤ lastTsSeenOf rows (-1) := le_trans h0 (e3 ts hts)
    refine ⟨?_, ?_, e3⟩
    · rw [(mem_followUp req rows t ht).1]
      show resumeFromOf req rows _ = _
      unfold resumeFromOf
      rw [if_pos hpos]
    · rcases e1 with e1 | e1
      · omega
      · exact e1
  · intro respond hresp
    apply nthWindow_ends respond hresp _ req hstep
    omega

/-- C27 at a concrete input: the first window of `demoTask` comes back with one trade
stamped at its start; the follow-up starts one millisecond later, and the chain of
windows ends. -/
theorem full_windows_advance_witness :
    (windowOf demoTask ∈ (runFullEvents [FullEvent.init false
        [("BTC-27DEC24-50000-C", 1702592000000)] 1700000000000] FullState.initial).pending) ∧
    (∀ ts, some ts ∈ [some (1689632000000 : Int)] → (windowOf demoTask).fromMs ≤ ts) ∧
    ((⟨"BTC-27DEC24-50000-C", 1689632000001, 1689653600000, 32400000⟩ : FullTask) ∈
      followUp (windowOf demoTask) [some 1689632000000]) ∧
    (1689632000001 : Int) = lastTsSeenOf [some 1689632000000] (-1) + 1 ∧
    nthWindow demoRespond (((windowOf demoTask).toMs - (windowOf demoTask).fromMs).toNat + 1)
      (windowOf demoTask) = none :=
  have hp : windowOf demoTask ∈ (runFullEvents [FullEvent.init false
        [("BTC-27DEC24-50000-C", 1702592000000)] 1700000000000] FullState.initial).pending :=
    by decide
  have hr : ∀ ts, some ts ∈ [some (1689632000000 : Int)] → (windowOf demoTask).fromMs ≤ ts :=
    fun ts h => by
      rw [List.mem_singleton] at h
      cases h
      decide
  have hf : (⟨"BTC-27DEC24-50000-C", 1689632000001, 1689653600000, 32400000⟩ : FullTask) ∈
      followUp (windowOf demoTask) [some 1689632000000] := by decide
  ⟨hp, hr, hf,
    (((full_windows_advance _ _ hp).1 _ hr _ hf).2.2.2.2
      ⟨1689632000000, List.mem_singleton.mpr rfl⟩).1,
    (full_windows_advance _ _ hp).2 demoRespond (fun w ts h => by
      simp only [demoRespond, List.mem_singleton, Option.some.injEq] at h
      omega)⟩

end NobiNobi
